import Mathlib

/-!
# Verification of the Slam map generator and surface extractor

A shallow embedding of `src/game/map_generator.cpp` / `.h` and
`src/game/map_mesh.cpp` / `.h` of the Project-Slam repository, with proofs
of the testable properties of its specification.

Modelling conventions:
* machine `int` coordinates are `Int`; sizes and counts are `Nat`;
* `float` quantities are exact (unnormalised) fractions `Frac`;
  `static_cast<int>` of a float is truncation toward zero;
* the `std::mt19937` pseudo-random stream is abstracted as a pure stream
  `Nat → Nat` with a read position; every distribution draw consumes one
  stream element (`uniform_real_distribution(0,1)` outcomes are modelled in
  thousandths);
* the grid `std::vector<CellType>` is a `List CellType` in row-major order,
  accessed with the same bounds guards as the source.
-/

set_option maxHeartbeats 2000000
set_option maxRecDepth 100000

namespace Slam

/-- Cell tags of the map grid (`enum class CellType` in `map_generator.h`):
Wall, Floor, Spawn, Prop. -/
inductive CellType where
  | wall
  | floor
  | spawn
  | prop
  deriving DecidableEq, Repr, Inhabited

/-- Exact fraction modelling the `float` quantities of the pipeline
(centroids, world positions, rotations, scales, texture coordinates).
Operations are ordinary fraction arithmetic without normalisation, so
they evaluate by kernel reduction; every denominator arising in the
pipeline is positive (a product of positive literals and cell counts).
Real-float rounding is not modelled: arithmetic is exact. -/
structure Frac where
  num : Int
  den : Int
  deriving DecidableEq, Repr, Inhabited

/-- Embed an integer. -/
def Frac.ofInt (n : Int) : Frac := ⟨n, 1⟩

instance : Add Frac := ⟨fun a b => ⟨a.num * b.den + b.num * a.den, a.den * b.den⟩⟩

instance : Sub Frac := ⟨fun a b => ⟨a.num * b.den - b.num * a.den, a.den * b.den⟩⟩

instance : Mul Frac := ⟨fun a b => ⟨a.num * b.num, a.den * b.den⟩⟩

instance : Div Frac := ⟨fun a b => ⟨a.num * b.den, a.den * b.num⟩⟩

instance : Neg Frac := ⟨fun a => ⟨-a.num, a.den⟩⟩

instance (n : Nat) : OfNat Frac n := ⟨⟨n, 1⟩⟩

/-- Order test `a < b`, exact whenever both denominators are positive. -/
def Frac.blt (a b : Frac) : Bool := decide (a.num * b.den < b.num * a.den)

/-- `static_cast<int>` of a float value: truncation toward zero, exact
for positive denominators. -/
def Frac.trunc (q : Frac) : Int :=
  if 0 ≤ q.num then ((q.num.toNat / q.den.toNat : Nat) : Int)
  else -(((-q.num).toNat / q.den.toNat : Nat) : Int)

/-- A 2-component float vector (`vec2`). -/
structure Vec2q where
  x : Frac
  y : Frac
  deriving DecidableEq, Repr, Inhabited

/-- A 3-component float vector (`vec3`). -/
structure Vec3q where
  x : Frac
  y : Frac
  z : Frac
  deriving DecidableEq, Repr, Inhabited

/-- Modelled from the spec: the generator's internally-held deterministic
pseudo-random stream (`std::mt19937 rng_`, seeded at construction). The
concrete Mersenne-twister permutation is library code outside this
repository; it is abstracted as a pure stream of naturals plus a read
position, each distribution draw consuming one element. -/
structure Rng where
  stream : Nat → Nat
  pos : Nat

instance : Inhabited Rng := ⟨⟨fun _ => 0, 0⟩⟩

/-- Consume one element of the random stream. -/
def Rng.next (r : Rng) : Nat × Rng :=
  (r.stream r.pos, ⟨r.stream, r.pos + 1⟩)

/-- Room data (`struct Room`): bounding box, centroid, cell count, main
flag. -/
structure Room where
  x : Int
  y : Int
  width : Int
  height : Int
  center : Vec2q
  area : Int
  is_main : Bool
  deriving DecidableEq, Repr, Inhabited

/-- Spawn point (`struct SpawnPoint`). `rotation` stores the draw of
`uniform_real_distribution(0, 2π)` as a fraction of the full turn. -/
structure SpawnPoint where
  position : Vec3q
  rotation : Frac
  room_id : Int
  deriving DecidableEq, Repr, Inhabited

/-- Prop placement (`struct PropPlacement`). -/
structure PropPlacement where
  position : Vec3q
  rotation : Frac
  prop_type : Nat
  scale : Frac
  deriving DecidableEq, Repr, Inhabited

/-- The `MapGenerator` object: grid dimensions, row-major cell list, the
derived room / spawn / prop lists, the tunable generation parameters and
the random stream. `fillPermille` models the float `fill_ratio_` in
thousandths. -/
structure MapGen where
  width : Nat
  height : Nat
  cell_size : Frac
  cells : List CellType
  rooms : List Room
  spawns : List SpawnPoint
  props : List PropPlacement
  fillPermille : Nat
  smoothing_iterations : Nat
  min_room_size : Int
  wall_threshold : Int
  rng : Rng

/-- `MapGenerator::in_bounds`. -/
def MapGen.in_bounds (g : MapGen) (x y : Int) : Bool :=
  decide (0 ≤ x) && decide (x < (g.width : Int)) &&
    decide (0 ≤ y) && decide (y < (g.height : Int))

/-- Row-major flat index `y * width_ + x` used by every grid access. -/
def MapGen.idx (g : MapGen) (x y : Int) : Nat :=
  y.toNat * g.width + x.toNat

/-- `MapGenerator::get_cell`: out-of-bounds queries read `Wall`. -/
def MapGen.get_cell (g : MapGen) (x y : Int) : CellType :=
  if g.in_bounds x y then g.cells.getD (g.idx x y) CellType.wall
  else CellType.wall

/-- `MapGenerator::set_cell`: out-of-bounds writes are dropped. -/
def MapGen.set_cell (g : MapGen) (x y : Int) (t : CellType) : MapGen :=
  if g.in_bounds x y then { g with cells := g.cells.set (g.idx x y) t }
  else g

/-- An unguarded `cells_[i] = t` write, the raw index form the generator
uses once a cell is known to be valid. -/
def MapGen.writeCell (g : MapGen) (i : Nat) (t : CellType) : MapGen :=
  { g with cells := g.cells.set i t }

/-- `MapGenerator::is_wall`. -/
def MapGen.is_wall (g : MapGen) (x y : Int) : Bool :=
  g.get_cell x y == CellType.wall

/-- `MapGenerator::is_floor`: Floor, Spawn and Prop all count as floor. -/
def MapGen.is_floor (g : MapGen) (x y : Int) : Bool :=
  let c := g.get_cell x y
  c == CellType.floor || c == CellType.spawn || c == CellType.prop

/-- The eight Moore-neighbourhood offsets, in the `dy` outer / `dx` inner
order of `count_wall_neighbors`. -/
def mooreDeltas : List (Int × Int) :=
  [(-1, -1), (0, -1), (1, -1), (-1, 0), (1, 0), (-1, 1), (0, 1), (1, 1)]

/-- `MapGenerator::count_wall_neighbors`: out-of-bounds neighbours count as
walls. -/
def MapGen.count_wall_neighbors (g : MapGen) (x y : Int) : Nat :=
  mooreDeltas.countP fun d =>
    !(g.in_bounds (x + d.1) (y + d.2)) || g.is_wall (x + d.1) (y + d.2)

/-- `MapGenerator::cell_to_world`. -/
def MapGen.cell_to_world (g : MapGen) (x y : Int) : Vec3q :=
  ⟨(Frac.ofInt x - Frac.ofInt (g.width : Int) / 2) * g.cell_size, 0,
    (Frac.ofInt y - Frac.ofInt (g.height : Int) / 2) * g.cell_size⟩

/-- `MapGenerator::world_to_cell`. -/
def MapGen.world_to_cell (g : MapGen) (p : Vec3q) : Int × Int :=
  ((p.x / g.cell_size + Frac.ofInt (g.width : Int) / 2).trunc,
    (p.z / g.cell_size + Frac.ofInt (g.height : Int) / 2).trunc)

/-- Size invariant of the cell array: `cells_.size() == width_ * height_`
(established by the `resize` in `generate`). -/
def MapGen.WF (g : MapGen) : Prop :=
  g.cells.length = g.width * g.height

theorem MapGen.in_bounds_iff (g : MapGen) (x y : Int) :
    g.in_bounds x y = true ↔
      0 ≤ x ∧ x < (g.width : Int) ∧ 0 ≤ y ∧ y < (g.height : Int) := by
  simp [MapGen.in_bounds, and_assoc]

theorem MapGen.idx_lt (g : MapGen) (x y : Int) (h : g.in_bounds x y = true)
    (hwf : g.WF) : g.idx x y < g.cells.length := by
  rw [MapGen.in_bounds_iff] at h
  obtain ⟨hx0, hxw, hy0, hyh⟩ := h
  have hx : x.toNat < g.width := by omega
  have hy : y.toNat < g.height := by omega
  rw [hwf]
  calc y.toNat * g.width + x.toNat < y.toNat * g.width + g.width := by omega
    _ = (y.toNat + 1) * g.width := by ring
    _ ≤ g.height * g.width := Nat.mul_le_mul_right _ (by omega)
    _ = g.width * g.height := Nat.mul_comm _ _

/-- Row-major flat indices of distinct in-range coordinates differ. -/
theorem rowMajor_inj {w : Nat} {x1 y1 x2 y2 : Nat} (hx1 : x1 < w)
    (hx2 : x2 < w) (h : y1 * w + x1 = y2 * w + x2) : x1 = x2 ∧ y1 = y2 := by
  have h1 : (y1 * w + x1) % w = x1 := by
    rw [Nat.add_comm, Nat.add_mul_mod_self_right, Nat.mod_eq_of_lt hx1]
  have h2 : (y2 * w + x2) % w = x2 := by
    rw [Nat.add_comm, Nat.add_mul_mod_self_right, Nat.mod_eq_of_lt hx2]
  have hx : x1 = x2 := by rw [← h1, ← h2, h]
  constructor
  · exact hx
  · subst hx
    have hw : 0 < w := by omega
    have := Nat.add_right_cancel h
    exact Nat.eq_of_mul_eq_mul_right hw this

/-- C9. The public cell accessors are total over all integer coordinates:
out-of-bounds `get_cell` returns Wall (so `is_wall` is true and `is_floor`
false), out-of-bounds `set_cell` leaves the generator unchanged, and for
every in-bounds coordinate the row-major flat index used by the accessors
is strictly below the cell-array length, so no access is out of range. -/
theorem c9_accessors_total (g : MapGen) (x y : Int) (t : CellType) :
    (g.in_bounds x y = false →
      g.get_cell x y = CellType.wall ∧ g.is_wall x y = true ∧
        g.is_floor x y = false ∧ g.set_cell x y t = g) ∧
    (g.in_bounds x y = true → g.WF → g.idx x y < g.cells.length) := by
  constructor
  · intro h
    have hget : g.get_cell x y = CellType.wall := by
      simp [MapGen.get_cell, h]
    refine ⟨hget, ?_, ?_, ?_⟩
    · simp [MapGen.is_wall, hget]
    · simp [MapGen.is_floor, hget]
    · simp [MapGen.set_cell, h]
  · intro h hwf
    exact g.idx_lt x y h hwf

/-- Witness for C9 at a concrete out-of-bounds and a concrete in-bounds
coordinate. -/
theorem c9_accessors_total_witness :
    (let g : MapGen :=
      { width := 2, height := 2, cell_size := 1,
        cells := [CellType.wall, CellType.floor, CellType.wall,
          CellType.wall],
        rooms := [], spawns := [], props := [], fillPermille := 450,
        smoothing_iterations := 5, min_room_size := 50, wall_threshold := 4,
        rng := ⟨fun _ => 0, 0⟩ }
    g.get_cell (-1) 0 = CellType.wall ∧ g.is_wall (-1) 0 = true ∧
      g.is_floor (-1) 0 = false ∧ g.set_cell (-1) 0 CellType.floor = g ∧
      g.idx 1 1 < g.cells.length) := by
  intro g
  have h1 := (c9_accessors_total g (-1) 0 CellType.floor).1 (by decide)
  have h2 := (c9_accessors_total g 1 1 CellType.floor).2 (by decide) rfl
  exact ⟨h1.1, h1.2.1, h1.2.2.1, h1.2.2.2, h2⟩

/-! ## Surface extractor (`map_mesh.cpp`) -/

/-- Mesh vertex (`struct Vertex` of the renderer): position, normal,
color, texture coordinate. -/
structure Vertex where
  position : Vec3q
  normal : Vec3q
  color : Vec3q
  uv : Vec2q
  deriving DecidableEq, Repr, Inhabited

/-- `struct MapMeshConfig`. -/
structure MapMeshConfig where
  wall_height : Frac
  floor_height : Frac
  ceiling_height : Frac
  uv_scale : Frac
  generate_ceiling : Bool
  smooth_walls : Bool
  deriving DecidableEq, Repr, Inhabited

/-- The floating-point `length` and `normalize` helpers of `utils/math.h`.
Euclidean length involves a square root, which is irrational in general
and has no exact fraction counterpart, so the two helpers are abstracted
as parameters; every property proved below holds for all
interpretations. -/
structure GeomOps where
  len : Vec3q → Frac
  nrm : Vec3q → Vec3q

/-- `MapMesh::add_quad`: append four vertices and the six indices of two
triangles referencing them. -/
def addQuad (vertices : List Vertex) (indices : List Nat)
    (p0 p1 p2 p3 normal color : Vec3q) (u_scale v_scale : Frac) :
    List Vertex × List Nat :=
  let base := vertices.length
  let v0 : Vertex := ⟨p0, normal, color, ⟨p0.x * u_scale, p0.z * v_scale⟩⟩
  let v1 : Vertex := ⟨p1, normal, color, ⟨p1.x * u_scale, p1.z * v_scale⟩⟩
  let v2 : Vertex := ⟨p2, normal, color, ⟨p2.x * u_scale, p2.z * v_scale⟩⟩
  let v3 : Vertex := ⟨p3, normal, color, ⟨p3.x * u_scale, p3.z * v_scale⟩⟩
  (vertices ++ [v0, v1, v2, v3],
    indices ++ [base, base + 1, base + 2, base, base + 2, base + 3])

/-- `MapMesh::add_wall_segment`: one vertical quad spanning from the floor
to `floor_y + height` over the segment from `start` to `stop`. -/
def addWallSegment (ops : GeomOps) (vertices : List Vertex)
    (indices : List Nat) (start stop : Vec3q) (height floor_y : Frac)
    (color : Vec3q) (uv_scale : Frac) : List Vertex × List Nat :=
  let dir : Vec3q := ⟨stop.x - start.x, stop.y - start.y, stop.z - start.z⟩
  let normal := ops.nrm ⟨-dir.z, 0, dir.x⟩
  let p2 : Vec3q := ⟨stop.x, floor_y + height, stop.z⟩
  let p3 : Vec3q := ⟨start.x, floor_y + height, start.z⟩
  let base := vertices.length
  let wall_length := ops.len dir
  let v0 : Vertex := ⟨start, normal, color, ⟨0, 0⟩⟩
  let v1 : Vertex := ⟨stop, normal, color, ⟨wall_length * uv_scale, 0⟩⟩
  let v2 : Vertex :=
    ⟨p2, normal, color, ⟨wall_length * uv_scale, height * uv_scale⟩⟩
  let v3 : Vertex := ⟨p3, normal, color, ⟨0, height * uv_scale⟩⟩
  (vertices ++ [v0, v1, v2, v3],
    indices ++ [base, base + 1, base + 2, base, base + 2, base + 3])

/-- All cell coordinates of the grid, in the row-major scan order of the
builders' loops. -/
def MapGen.cellList (g : MapGen) : List (Nat × Nat) :=
  (List.range g.height).flatMap fun y =>
    (List.range g.width).map fun x => (x, y)

/-- Number of Floor-or-better (`is_floor`) cells of the grid. -/
def MapGen.floorCount (g : MapGen) : Nat :=
  g.cellList.countP fun p => g.is_floor p.1 p.2

/-- `MapMesh::generate_floor`: one upward-facing unit quad per `is_floor`
cell. -/
def generateFloor (g : MapGen) (cfg : MapMeshConfig) :
    List Vertex × List Nat :=
  let floor_color : Vec3q := ⟨3/10, 3/10, 35/100⟩
  let normal : Vec3q := ⟨0, 1, 0⟩
  (List.range g.height).foldl (fun acc (y : Nat) =>
    (List.range g.width).foldl (fun acc2 (x : Nat) =>
      if g.is_floor (x : Int) (y : Int) then
        let world := g.cell_to_world (x : Int) (y : Int)
        let half := g.cell_size * (1/2)
        addQuad acc2.1 acc2.2
          ⟨world.x - half, cfg.floor_height, world.z - half⟩
          ⟨world.x + half, cfg.floor_height, world.z - half⟩
          ⟨world.x + half, cfg.floor_height, world.z + half⟩
          ⟨world.x - half, cfg.floor_height, world.z + half⟩
          normal floor_color cfg.uv_scale cfg.uv_scale
      else acc2) acc) ([], [])

/-- `MapMesh::generate_ceiling`: one downward-facing quad per `is_floor`
cell, wound to face down. -/
def generateCeiling (g : MapGen) (cfg : MapMeshConfig) :
    List Vertex × List Nat :=
  let ceiling_color : Vec3q := ⟨1/4, 1/4, 28/100⟩
  let normal : Vec3q := ⟨0, -1, 0⟩
  (List.range g.height).foldl (fun acc (y : Nat) =>
    (List.range g.width).foldl (fun acc2 (x : Nat) =>
      if g.is_floor (x : Int) (y : Int) then
        let world := g.cell_to_world (x : Int) (y : Int)
        let half := g.cell_size * (1/2)
        addQuad acc2.1 acc2.2
          ⟨world.x - half, cfg.ceiling_height, world.z + half⟩
          ⟨world.x + half, cfg.ceiling_height, world.z + half⟩
          ⟨world.x + half, cfg.ceiling_height, world.z - half⟩
          ⟨world.x - half, cfg.ceiling_height, world.z - half⟩
          normal ceiling_color cfg.uv_scale cfg.uv_scale
      else acc2) acc) ([], [])

/-- `MapMesh::generate_walls_simple`: for every floor cell, one vertical
quad per adjacent Wall neighbour, checked in N, S, W, E order. -/
def generateWallsSimple (ops : GeomOps) (g : MapGen) (cfg : MapMeshConfig) :
    List Vertex × List Nat :=
  let wall_color : Vec3q := ⟨4/10, 35/100, 3/10⟩
  (List.range g.height).foldl (fun acc (y : Nat) =>
    (List.range g.width).foldl (fun acc2 (x : Nat) =>
      if g.is_floor (x : Int) (y : Int) then
        let world := g.cell_to_world x y
        let half := g.cell_size * (1/2)
        let a1 :=
          if g.is_wall (x : Int) ((y : Int) - 1) then
            addWallSegment ops acc2.1 acc2.2
              ⟨world.x - half, cfg.floor_height, world.z - half⟩
              ⟨world.x + half, cfg.floor_height, world.z - half⟩
              cfg.wall_height cfg.floor_height wall_color cfg.uv_scale
          else acc2
        let a2 :=
          if g.is_wall (x : Int) ((y : Int) + 1) then
            addWallSegment ops a1.1 a1.2
              ⟨world.x + half, cfg.floor_height, world.z + half⟩
              ⟨world.x - half, cfg.floor_height, world.z + half⟩
              cfg.wall_height cfg.floor_height wall_color cfg.uv_scale
          else a1
        let a3 :=
          if g.is_wall ((x : Int) - 1) (y : Int) then
            addWallSegment ops a2.1 a2.2
              ⟨world.x - half, cfg.floor_height, world.z + half⟩
              ⟨world.x - half, cfg.floor_height, world.z - half⟩
              cfg.wall_height cfg.floor_height wall_color cfg.uv_scale
          else a2
        let a4 :=
          if g.is_wall ((x : Int) + 1) (y : Int) then
            addWallSegment ops a3.1 a3.2
              ⟨world.x + half, cfg.floor_height, world.z - half⟩
              ⟨world.x + half, cfg.floor_height, world.z + half⟩
              cfg.wall_height cfg.floor_height wall_color cfg.uv_scale
          else a3
        a4
      else acc2) acc) ([], [])

/-- The 16-entry marching-squares lookup of `generate_walls_marching`: for
a corner configuration (bit 1 = top-left, 2 = top-right, 4 = bottom-left,
8 = bottom-right being Wall), the emitted wall segments, each endpoint one
of the four edge midpoints `n s w e` of the 2×2 block. Configurations 0
and 15 emit nothing; the saddles 6 and 9 emit two segments. -/
def marchingSegments {α : Type} (n s w e : α) (cfg : Nat) : List (α × α) :=
  match cfg with
  | 1 => [(n, w)]
  | 2 => [(e, n)]
  | 3 => [(e, w)]
  | 4 => [(w, s)]
  | 5 => [(n, s)]
  | 6 => [(e, n), (w, s)]
  | 7 => [(e, s)]
  | 8 => [(s, e)]
  | 9 => [(n, w), (s, e)]
  | 10 => [(s, n)]
  | 11 => [(s, w)]
  | 12 => [(w, e)]
  | 13 => [(n, e)]
  | 14 => [(w, n)]
  | _ => []

/-- `MapMesh::generate_walls_marching`: scan every 2×2 block, compute its
corner configuration and emit the table's wall segments. -/
def generateWallsMarching (ops : GeomOps) (g : MapGen)
    (cfg : MapMeshConfig) : List Vertex × List Nat :=
  let wall_color : Vec3q := ⟨4/10, 35/100, 3/10⟩
  (List.range (g.height - 1)).foldl (fun acc (y : Nat) =>
    (List.range (g.width - 1)).foldl (fun acc2 (x : Nat) =>
      let tl := !g.is_floor (x : Int) (y : Int)
      let tr := !g.is_floor ((x : Int) + 1) (y : Int)
      let bl := !g.is_floor (x : Int) ((y : Int) + 1)
      let br := !g.is_floor ((x : Int) + 1) ((y : Int) + 1)
      let config_idx := (if tl then 1 else 0) + (if tr then 2 else 0) +
        (if bl then 4 else 0) + (if br then 8 else 0)
      let c := g.cell_to_world (x : Int) (y : Int)
      let cx := c.x + g.cell_size * (1/2)
      let cz := c.z + g.cell_size * (1/2)
      let half := g.cell_size * (1/2)
      let n : Vec3q := ⟨cx, cfg.floor_height, cz - half⟩
      let s : Vec3q := ⟨cx, cfg.floor_height, cz + half⟩
      let w : Vec3q := ⟨cx - half, cfg.floor_height, cz⟩
      let e : Vec3q := ⟨cx + half, cfg.floor_height, cz⟩
      (marchingSegments n s w e config_idx).foldl (fun a seg =>
        addWallSegment ops a.1 a.2 seg.1 seg.2 cfg.wall_height
          cfg.floor_height wall_color cfg.uv_scale) acc2) acc) ([], [])

/-- `MapMesh::generate`: build floor, walls (by the configured mode) and
optionally ceiling; the returned list models, in order, exactly the
vertex/index buffer pairs handed to the upload collaborator
(`Mesh::create`), each guarded by a non-emptiness check. -/
def mapMeshGenerate (ops : GeomOps) (g : MapGen) (cfg : MapMeshConfig) :
    List (List Vertex × List Nat) :=
  let floorM := generateFloor g cfg
  let wallM :=
    if cfg.smooth_walls then generateWallsMarching ops g cfg
    else generateWallsSimple ops g cfg
  let l1 := if floorM.1.isEmpty then [] else [floorM]
  let l2 := if wallM.1.isEmpty then [] else [wallM]
  let l3 :=
    if cfg.generate_ceiling then
      let c := generateCeiling g cfg
      if c.1.isEmpty then [] else [c]
    else []
  l1 ++ l2 ++ l3

/-! ## C4: the marching-squares table -/

/-- C4. In the smoothed (marching-squares) wall builder, each of the 16
corner configurations emits exactly 0 segments for configurations 0 and
15, exactly 2 for the saddles 6 and 9, and exactly 1 otherwise; and both
endpoints of every emitted segment are edge midpoints (north, south, east
or west) of the 2×2 block. -/
theorem c4_marching_table {α : Type} (n s w e : α) (cfg : Nat)
    (h : cfg < 16) :
    ((cfg = 0 ∨ cfg = 15) → (marchingSegments n s w e cfg).length = 0) ∧
    ((cfg = 6 ∨ cfg = 9) → (marchingSegments n s w e cfg).length = 2) ∧
    (cfg ≠ 0 → cfg ≠ 15 → cfg ≠ 6 → cfg ≠ 9 →
      (marchingSegments n s w e cfg).length = 1) ∧
    (∀ seg ∈ marchingSegments n s w e cfg,
      (seg.1 = n ∨ seg.1 = s ∨ seg.1 = w ∨ seg.1 = e) ∧
      (seg.2 = n ∨ seg.2 = s ∨ seg.2 = w ∨ seg.2 = e)) := by
  refine ⟨?_, ?_, ?_, ?_⟩
  · rintro (rfl | rfl) <;> simp [marchingSegments]
  · rintro (rfl | rfl) <;> simp [marchingSegments]
  · intro h0 h15 h6 h9
    interval_cases cfg <;> simp_all [marchingSegments]
  · intro seg hseg
    interval_cases cfg <;> simp_all [marchingSegments] <;>
      rcases hseg with rfl | rfl <;> simp

/-- Witness for C4 at the saddle configuration 6. -/
theorem c4_marching_table_witness :
    (marchingSegments (0 : Nat) 1 2 3 6).length = 2 ∧
    ∀ seg ∈ marchingSegments (0 : Nat) 1 2 3 6,
      (seg.1 = 0 ∨ seg.1 = 1 ∨ seg.1 = 2 ∨ seg.1 = 3) ∧
      (seg.2 = 0 ∨ seg.2 = 1 ∨ seg.2 = 2 ∨ seg.2 = 3) := by
  have h := c4_marching_table (0 : Nat) 1 2 3 6 (by omega)
  exact ⟨h.2.1 (Or.inl rfl), h.2.2.2⟩

/-! ## C10: well-formedness of every emitted vertex/index buffer pair -/

/-- A vertex/index buffer pair is well-formed: the vertex count is a
multiple of 4, there are 6 indices per emitted quad (3/2 of the vertex
count), and every index references an existing vertex. -/
def MeshWf (m : List Vertex × List Nat) : Prop :=
  m.1.length % 4 = 0 ∧ m.2.length * 2 = m.1.length * 3 ∧
    ∀ i ∈ m.2, i < m.1.length

theorem addQuad_wf {m : List Vertex × List Nat} (hm : MeshWf m)
    (p0 p1 p2 p3 normal color : Vec3q) (u v : Frac) :
    MeshWf (addQuad m.1 m.2 p0 p1 p2 p3 normal color u v) := by
  obtain ⟨h4, h32, hidx⟩ := hm
  refine ⟨?_, ?_, ?_⟩
  · simp [addQuad]
    omega
  · simp [addQuad]
    omega
  · intro i hi
    simp [addQuad] at hi ⊢
    rcases hi with hi | hi
    · have := hidx i hi
      omega
    · omega

theorem addWallSegment_wf {m : List Vertex × List Nat} (hm : MeshWf m)
    (ops : GeomOps) (start stop : Vec3q) (height floor_y : Frac)
    (color : Vec3q) (uv : Frac) :
    MeshWf (addWallSegment ops m.1 m.2 start stop height floor_y color
      uv) := by
  obtain ⟨h4, h32, hidx⟩ := hm
  refine ⟨?_, ?_, ?_⟩
  · simp [addWallSegment]
    omega
  · simp [addWallSegment]
    omega
  · intro i hi
    simp [addWallSegment] at hi ⊢
    rcases hi with hi | hi
    · have := hidx i hi
      omega
    · omega

/-- A property preserved by every fold step is preserved by the fold. -/
theorem foldl_preserves {β γ : Type} (P : β → Prop) (f : β → γ → β)
    (h : ∀ b c, P b → P (f b c)) :
    ∀ (l : List γ) (b : β), P b → P (l.foldl f b) := by
  intro l
  induction l with
  | nil => intro b hb; exact hb
  | cons c cs ih => intro b hb; exact ih _ (h b c hb)

theorem generateFloor_wf (g : MapGen) (cfg : MapMeshConfig) :
    MeshWf (generateFloor g cfg) := by
  unfold generateFloor
  refine foldl_preserves MeshWf _ (fun b y hb => ?_) _ _ ?_
  · refine foldl_preserves MeshWf _ (fun b2 x hb2 => ?_) _ _ hb
    dsimp only
    split
    · exact addQuad_wf hb2 _ _ _ _ _ _ _ _
    · exact hb2
  · exact ⟨rfl, rfl, by simp⟩

theorem generateCeiling_wf (g : MapGen) (cfg : MapMeshConfig) :
    MeshWf (generateCeiling g cfg) := by
  unfold generateCeiling
  refine foldl_preserves MeshWf _ (fun b y hb => ?_) _ _ ?_
  · refine foldl_preserves MeshWf _ (fun b2 x hb2 => ?_) _ _ hb
    dsimp only
    split
    · exact addQuad_wf hb2 _ _ _ _ _ _ _ _
    · exact hb2
  · exact ⟨rfl, rfl, by simp⟩

theorem generateWallsSimple_wf (ops : GeomOps) (g : MapGen)
    (cfg : MapMeshConfig) : MeshWf (generateWallsSimple ops g cfg) := by
  unfold generateWallsSimple
  refine foldl_preserves MeshWf _ (fun b y hb => ?_) _ _ ?_
  · refine foldl_preserves MeshWf _ (fun b2 x hb2 => ?_) _ _ hb
    dsimp only
    split
    · have h1 : ∀ m : List Vertex × List Nat, MeshWf m →
          ∀ q0 q1 : Vec3q, MeshWf (if (true : Bool) = true then m else m) :=
        fun m hm _ _ => hm
      -- four sequential conditional wall segments
      apply fun h => h
      split
      case isTrue =>
        split
        case isTrue =>
          split
          case isTrue =>
            split
            case isTrue =>
              exact addWallSegment_wf (addWallSegment_wf
                (addWallSegment_wf (addWallSegment_wf hb2 _ _ _ _ _ _ _)
                  _ _ _ _ _ _ _) _ _ _ _ _ _ _) _ _ _ _ _ _ _
            case isFalse =>
              exact addWallSegment_wf (addWallSegment_wf
                (addWallSegment_wf hb2 _ _ _ _ _ _ _) _ _ _ _ _ _ _)
                _ _ _ _ _ _ _
          case isFalse =>
            split
            case isTrue =>
              exact addWallSegment_wf (addWallSegment_wf
                (addWallSegment_wf hb2 _ _ _ _ _ _ _) _ _ _ _ _ _ _)
                _ _ _ _ _ _ _
            case isFalse =>
              exact addWallSegment_wf (addWallSegment_wf hb2 _ _ _ _ _ _ _)
                _ _ _ _ _ _ _
        case isFalse =>
          split
          case isTrue =>
            split
            case isTrue =>
              exact addWallSegment_wf (addWallSegment_wf
                (addWallSegment_wf hb2 _ _ _ _ _ _ _) _ _ _ _ _ _ _)
                _ _ _ _ _ _ _
            case isFalse =>
              exact addWallSegment_wf (addWallSegment_wf hb2 _ _ _ _ _ _ _)
                _ _ _ _ _ _ _
          case isFalse =>
            split
            case isTrue =>
              exact addWallSegment_wf (addWallSegment_wf hb2 _ _ _ _ _ _ _)
                _ _ _ _ _ _ _
            case isFalse =>
              exact addWallSegment_wf hb2 _ _ _ _ _ _ _
      case isFalse =>
        split
        case isTrue =>
          split
          case isTrue =>
            split
            case isTrue =>
              exact addWallSegment_wf (addWallSegment_wf
                (addWallSegment_wf hb2 _ _ _ _ _ _ _) _ _ _ _ _ _ _)
                _ _ _ _ _ _ _
            case isFalse =>
              exact addWallSegment_wf (addWallSegment_wf hb2 _ _ _ _ _ _ _)
                _ _ _ _ _ _ _
          case isFalse =>
            split
            case isTrue =>
              exact addWallSegment_wf (addWallSegment_wf hb2 _ _ _ _ _ _ _)
                _ _ _ _ _ _ _
            case isFalse =>
              exact addWallSegment_wf hb2 _ _ _ _ _ _ _
        case isFalse =>
          split
          case isTrue =>
            split
            case isTrue =>
              exact addWallSegment_wf (addWallSegment_wf hb2 _ _ _ _ _ _ _)
                _ _ _ _ _ _ _
            case isFalse =>
              exact addWallSegment_wf hb2 _ _ _ _ _ _ _
          case isFalse =>
            split
            case isTrue =>
              exact addWallSegment_wf hb2 _ _ _ _ _ _ _
            case isFalse =>
              exact hb2
    · exact hb2
  · exact ⟨rfl, rfl, by simp⟩

theorem generateWallsMarching_wf (ops : GeomOps) (g : MapGen)
    (cfg : MapMeshConfig) : MeshWf (generateWallsMarching ops g cfg) := by
  unfold generateWallsMarching
  refine foldl_preserves MeshWf _ (fun b y hb => ?_) _ _ ?_
  · refine foldl_preserves MeshWf _ (fun b2 x hb2 => ?_) _ _ hb
    dsimp only
    exact foldl_preserves MeshWf _
      (fun b3 seg hb3 => addWallSegment_wf hb3 _ _ _ _ _ _ _) _ _ hb2
  · exact ⟨rfl, rfl, by simp⟩

/-- C10. Every vertex/index buffer pair produced by the surface extractor
(floor, simple walls, marching walls, ceiling) is well-formed: the vertex
count is a multiple of 4, the index count is exactly 3/2 of the vertex
count, and every index is strictly below the vertex count. -/
theorem c10_buffers_well_formed (ops : GeomOps) (g : MapGen)
    (cfg : MapMeshConfig) :
    MeshWf (generateFloor g cfg) ∧
    MeshWf (generateWallsSimple ops g cfg) ∧
    MeshWf (generateWallsMarching ops g cfg) ∧
    MeshWf (generateCeiling g cfg) ∧
    ∀ m ∈ mapMeshGenerate ops g cfg, MeshWf m := by
  refine ⟨generateFloor_wf g cfg, generateWallsSimple_wf ops g cfg,
    generateWallsMarching_wf ops g cfg, generateCeiling_wf g cfg, ?_⟩
  intro m hm
  unfold mapMeshGenerate at hm
  simp only [List.mem_append] at hm
  rcases hm with (hm | hm) | hm
  · split at hm
    · simp at hm
    · simp at hm
      subst hm
      exact generateFloor_wf g cfg
  · split at hm <;> split at hm <;> simp at hm <;> subst hm
    · exact generateWallsMarching_wf ops g cfg
    · exact generateWallsSimple_wf ops g cfg
  · split at hm
    · split at hm
      · simp at hm
      · simp at hm
        subst hm
        exact generateCeiling_wf g cfg
    · simp at hm

/-! ## C8: degenerate grids and the upload guard -/

theorem foldl_flatMap {α β γ : Type} (f : α → List β) (step : γ → β → γ)
    (l : List α) (init : γ) :
    (l.flatMap f).foldl step init =
      l.foldl (fun acc a => (f a).foldl step acc) init := by
  induction l generalizing init with
  | nil => rfl
  | cons a as ih => simp [List.foldl_append, ih]

theorem foldl_fix {β γ : Type} (f : β → γ → β) (b : β)
    (h : ∀ b c, f b c = b) (l : List γ) : l.foldl f b = b := by
  induction l generalizing b with
  | nil => rfl
  | cons c cs ih => rw [List.foldl_cons, h]; exact ih b

/-- The per-cell step of the floor builder, over row-major `(x, y)`
pairs. -/
def floorStep (g : MapGen) (cfg : MapMeshConfig)
    (acc : List Vertex × List Nat) (p : Nat × Nat) :
    List Vertex × List Nat :=
  if g.is_floor p.1 p.2 then
    let world := g.cell_to_world p.1 p.2
    let half := g.cell_size * (1/2)
    addQuad acc.1 acc.2
      ⟨world.x - half, cfg.floor_height, world.z - half⟩
      ⟨world.x + half, cfg.floor_height, world.z - half⟩
      ⟨world.x + half, cfg.floor_height, world.z + half⟩
      ⟨world.x - half, cfg.floor_height, world.z + half⟩
      ⟨0, 1, 0⟩ ⟨3/10, 3/10, 35/100⟩ cfg.uv_scale cfg.uv_scale
  else acc

theorem generateFloor_eq_foldl (g : MapGen) (cfg : MapMeshConfig) :
    generateFloor g cfg = g.cellList.foldl (floorStep g cfg) ([], []) := by
  unfold generateFloor MapGen.cellList
  rw [foldl_flatMap]
  simp only [List.foldl_map]
  rfl

theorem foldl_floorStep_length (g : MapGen) (cfg : MapMeshConfig)
    (L : List (Nat × Nat)) :
    ∀ b : List Vertex × List Nat,
      (L.foldl (floorStep g cfg) b).1.length =
          b.1.length + 4 * L.countP (fun p => g.is_floor p.1 p.2) ∧
        (L.foldl (floorStep g cfg) b).2.length =
          b.2.length + 6 * L.countP (fun p => g.is_floor p.1 p.2) := by
  induction L with
  | nil => intro b; simp
  | cons p ps ih =>
    intro b
    rw [List.foldl_cons]
    obtain ⟨h1, h2⟩ := ih (floorStep g cfg b p)
    rw [h1, h2]
    by_cases hp : g.is_floor p.1 p.2 = true
    · simp [floorStep, hp, addQuad, List.countP_cons]
      omega
    · rw [Bool.not_eq_true] at hp
      simp [floorStep, hp, List.countP_cons]

theorem mem_cellList (g : MapGen) (p : Nat × Nat) :
    p ∈ g.cellList ↔ p.1 < g.width ∧ p.2 < g.height := by
  unfold MapGen.cellList
  simp only [List.mem_flatMap, List.mem_map, List.mem_range]
  constructor
  · rintro ⟨y, hy, x, hx, rfl⟩
    exact ⟨hx, hy⟩
  · intro ⟨h1, h2⟩
    exact ⟨p.2, h2, p.1, h1, rfl⟩

theorem is_floor_in_bounds (g : MapGen) (x y : Int)
    (h : g.is_floor x y = true) : g.in_bounds x y = true := by
  by_contra hb
  rw [Bool.not_eq_true] at hb
  have hg : g.get_cell x y = CellType.wall := by
    unfold MapGen.get_cell
    rw [hb]
    rfl
  unfold MapGen.is_floor at h
  rw [hg] at h
  simp at h

/-- An element of a list guarded by the `!vertices.empty()` check has a
non-empty vertex list. -/
theorem mem_emptyGuard (X m : List Vertex × List Nat)
    (hm : m ∈ if X.1.isEmpty then ([] : List (List Vertex × List Nat))
      else [X]) : m.1 ≠ [] := by
  by_cases h : X.1.isEmpty = true
  · rw [if_pos h] at hm
    simp at hm
  · rw [if_neg h] at hm
    simp at hm
    subst hm
    simpa using h

/-- C8. Surface extraction tolerates degenerate grids: the floor mesh has
exactly one quad (4 vertices, 6 indices) per `is_floor` cell, hence is
non-empty as soon as one such cell exists; on an entirely-Wall grid the
floor builder and the simple wall builder both return empty meshes; and
every buffer pair handed to the upload collaborator by `generate` has a
non-empty vertex list. -/
theorem c8_degenerate_grids (ops : GeomOps) (g : MapGen)
    (cfg : MapMeshConfig) :
    ((generateFloor g cfg).1.length = 4 * g.floorCount ∧
      (generateFloor g cfg).2.length = 6 * g.floorCount) ∧
    ((∃ x y : Int, g.is_floor x y = true) → (generateFloor g cfg).1 ≠ []) ∧
    ((∀ x y : Int, g.is_floor x y = false) →
      generateFloor g cfg = ([], []) ∧
        generateWallsSimple ops g cfg = ([], [])) ∧
    (∀ m ∈ mapMeshGenerate ops g cfg, m.1 ≠ []) := by
  have hlen := foldl_floorStep_length g cfg g.cellList ([], [])
  rw [← generateFloor_eq_foldl] at hlen
  have hcount : (generateFloor g cfg).1.length = 4 * g.floorCount ∧
      (generateFloor g cfg).2.length = 6 * g.floorCount := by
    unfold MapGen.floorCount
    constructor
    · rw [hlen.1]; simp
    · rw [hlen.2]; simp
  refine ⟨hcount, ?_, ?_, ?_⟩
  · rintro ⟨x, y, hxy⟩
    have hb := is_floor_in_bounds g x y hxy
    rw [MapGen.in_bounds_iff] at hb
    obtain ⟨hx0, hxw, hy0, hyh⟩ := hb
    have hmem : (x.toNat, y.toNat) ∈ g.cellList := by
      rw [mem_cellList]
      constructor <;> omega
    have hp : g.is_floor ((x.toNat : Nat) : Int) ((y.toNat : Nat) : Int)
        = true := by
      rwa [Int.toNat_of_nonneg hx0, Int.toNat_of_nonneg hy0]
    have hpos : 0 < g.floorCount := by
      unfold MapGen.floorCount
      rw [List.countP_pos_iff]
      exact ⟨(x.toNat, y.toNat), hmem, hp⟩
    have : 0 < (generateFloor g cfg).1.length := by
      rw [hcount.1]; omega
    exact List.ne_nil_of_length_pos this
  · intro hall
    constructor
    · unfold generateFloor
      refine foldl_fix _ _ (fun b y => ?_) _
      refine foldl_fix _ _ (fun b2 x => ?_) _
      simp [hall]
    · unfold generateWallsSimple
      refine foldl_fix _ _ (fun b y => ?_) _
      refine foldl_fix _ _ (fun b2 x => ?_) _
      simp [hall]
  · intro m hm
    unfold mapMeshGenerate at hm
    simp only [List.mem_append] at hm
    rcases hm with (hm | hm) | hm
    · exact mem_emptyGuard _ _ hm
    · exact mem_emptyGuard _ _ hm
    · revert hm
      by_cases hgc : cfg.generate_ceiling = true
      · rw [if_pos hgc]
        intro hm
        exact mem_emptyGuard _ _ hm
      · rw [if_neg hgc]
        intro hm
        simp at hm

/-- Every cell of an all-Wall list reads Wall at every index. -/
theorem getD_all_wall (l : List CellType)
    (h : ∀ c ∈ l, c = CellType.wall) (i : Nat) :
    l.getD i CellType.wall = CellType.wall := by
  by_cases hi : i < l.length
  · rw [List.getD_eq_getElem l _ hi]
    exact h _ (List.getElem_mem hi)
  · rw [List.getD_eq_default]
    omega

/-- On an all-Wall grid no coordinate is floor. -/
theorem is_floor_all_wall (g : MapGen)
    (hcells : ∀ c ∈ g.cells, c = CellType.wall) (x y : Int) :
    g.is_floor x y = false := by
  simp only [MapGen.is_floor, MapGen.get_cell]
  split
  · rw [getD_all_wall _ hcells]
    rfl
  · rfl

/-- Witness for C8: a 1×1 floor grid gives a non-empty floor mesh; a 1×1
all-Wall grid gives empty floor and simple-wall meshes. -/
theorem c8_degenerate_grids_witness :
    (let ops0 : GeomOps := ⟨fun _ => 0, fun v => v⟩
    let cfg0 : MapMeshConfig := ⟨4, 0, 4, 1/4, false, true⟩
    let gF : MapGen :=
      { width := 1, height := 1, cell_size := 1, cells := [CellType.floor],
        rooms := [], spawns := [], props := [], fillPermille := 450,
        smoothing_iterations := 5, min_room_size := 50, wall_threshold := 4,
        rng := ⟨fun _ => 0, 0⟩ }
    let gW : MapGen :=
      { width := 1, height := 1, cell_size := 1, cells := [CellType.wall],
        rooms := [], spawns := [], props := [], fillPermille := 450,
        smoothing_iterations := 5, min_room_size := 50, wall_threshold := 4,
        rng := ⟨fun _ => 0, 0⟩ }
    (generateFloor gF cfg0).1 ≠ [] ∧ generateFloor gW cfg0 = ([], []) ∧
      generateWallsSimple ops0 gW cfg0 = ([], [])) := by
  intro ops0 cfg0 gF gW
  have hwall : ∀ x y : Int, gW.is_floor x y = false :=
    is_floor_all_wall gW (by intro c hc; simpa using hc)
  have h1 := (c8_degenerate_grids ops0 gF cfg0).2.1 ⟨0, 0, by decide⟩
  have h2 := (c8_degenerate_grids ops0 gW cfg0).2.2.1 hwall
  exact ⟨h1, h2.1, h2.2⟩

/-! ## Layout generator (`map_generator.cpp`) -/

/-- Inclusive integer range `[lo, hi]` of a C `for (v = lo; v <= hi; v++)`
loop. -/
def intRangeIncl (lo hi : Int) : List Int :=
  if hi < lo then []
  else (List.range ((hi - lo).toNat + 1)).map fun (k : Nat) => lo + (k : Int)

/-- One cell of `initialize_random`: border cells become Wall, interior
cells draw Wall with probability `fill_ratio_` (a thousandths
comparison on the stream draw). -/
def MapGen.init_cell (g : MapGen) (x y : Nat) : MapGen :=
  if x = 0 || x = g.width - 1 || y = 0 || y = g.height - 1 then
    g.writeCell (g.idx (x : Int) (y : Int)) CellType.wall
  else
    let p := g.rng.next
    let c := if p.1 % 1000 < g.fillPermille then CellType.wall
      else CellType.floor
    let g1 : MapGen := { g with rng := p.2 }
    g1.writeCell (g1.idx (x : Int) (y : Int)) c

/-- `MapGenerator::initialize_random`. -/
def MapGen.initialize_random (g : MapGen) : MapGen :=
  (List.range g.height).foldl (fun acc (y : Nat) =>
    (List.range g.width).foldl (fun acc2 (x : Nat) => acc2.init_cell x y)
      acc) g

/-- The new-cell buffer of one cellular-automata pass: a copy of the grid
in which every interior cell is rewritten from the Moore neighbour count
of the prior grid `g` (double buffering: counts always read `g`, writes
go only to the new buffer). -/
def MapGen.ca_new_cells (g : MapGen) : List CellType :=
  (List.range' 1 (g.height - 2)).foldl (fun acc (y : Nat) =>
    (List.range' 1 (g.width - 2)).foldl (fun acc2 (x : Nat) =>
      let walls := g.count_wall_neighbors (x : Int) (y : Int)
      if (walls : Int) > g.wall_threshold then
        acc2.set (y * g.width + x) CellType.wall
      else if (walls : Int) < g.wall_threshold then
        acc2.set (y * g.width + x) CellType.floor
      else acc2) acc) g.cells

/-- `MapGenerator::apply_cellular_automata`. -/
def MapGen.apply_cellular_automata (g : MapGen) : MapGen :=
  { g with cells := g.ca_new_cells }

/-- The 4-connected neighbour offsets of `flood_fill_room`, in source
order. -/
def crossDeltas : List (Int × Int) :=
  [(0, -1), (1, 0), (0, 1), (-1, 0)]

/-- Queue loop of `flood_fill_room`: each dequeue marks the unvisited
floor neighbours and enqueues them. Fuel bounds the number of dequeues;
`width*height + 1` always suffices since every enqueue marks a fresh
cell. -/
def MapGen.flood_loop (g : MapGen) :
    Nat → List (Int × Int) → Int → List Int → List Int
  | 0, _, _, room_map => room_map
  | _ + 1, [], _, room_map => room_map
  | fuel + 1, c :: rest, room_id, room_map =>
    let st := crossDeltas.foldl
      (fun (st : List Int × List (Int × Int)) d =>
        let nx := c.1 + d.1
        let ny := c.2 + d.2
        if g.in_bounds nx ny && g.is_floor nx ny &&
            st.1.getD (g.idx nx ny) (-1) == -1 then
          (st.1.set (g.idx nx ny) room_id, st.2 ++ [(nx, ny)])
        else st) (room_map, rest)
    g.flood_loop fuel st.2 room_id st.1

/-- `MapGenerator::flood_fill_room`: push and mark the seed, then run the
breadth-first queue loop. -/
def MapGen.flood_fill_room (g : MapGen) (x y : Int) (room_id : Int)
    (room_map : List Int) : List Int :=
  g.flood_loop (g.width * g.height + 1) [(x, y)] room_id
    (room_map.set (g.idx x y) room_id)

/-- Accumulator of the bounding-box / centroid scan of `detect_rooms`. -/
structure RoomAcc where
  min_x : Int
  max_x : Int
  min_y : Int
  max_y : Int
  sum_x : Int
  sum_y : Int
  count : Int
  deriving DecidableEq, Repr, Inhabited

/-- Bounding box, coordinate sums and cell count of the component labelled
`rid` (the nested scan after `flood_fill_room`; the float sums of the
source are exact rationals here). -/
def roomScan (w h : Nat) (room_map : List Int) (rid : Int) : RoomAcc :=
  (List.range h).foldl (fun a (ry : Nat) =>
    (List.range w).foldl (fun a2 (rx : Nat) =>
      if room_map.getD (ry * w + rx) (-1) == rid then
        { min_x := min a2.min_x (rx : Int), max_x := max a2.max_x (rx : Int),
          min_y := min a2.min_y (ry : Int), max_y := max a2.max_y (ry : Int),
          sum_x := a2.sum_x + (rx : Int), sum_y := a2.sum_y + (ry : Int),
          count := a2.count + 1 }
      else a2) a)
    ⟨(w : Int), 0, (h : Int), 0, 0, 0, 0⟩

/-- Back-fill a discarded small component to Wall and unmark it. -/
def backfillRoom (w h : Nat) (cells : List CellType) (room_map : List Int)
    (rid : Int) : List CellType × List Int :=
  (List.range h).foldl (fun p (ry : Nat) =>
    (List.range w).foldl (fun p2 (rx : Nat) =>
      if p2.2.getD (ry * w + rx) (-1) == rid then
        (p2.1.set (ry * w + rx) CellType.wall,
          p2.2.set (ry * w + rx) (-1))
      else p2) p) (cells, room_map)

/-- State of the `detect_rooms` scan: the generator, the component label
array and the running room id. -/
structure DetectState where
  g : MapGen
  room_map : List Int
  room_id : Int

/-- Body of the `detect_rooms` scan at one cell: on an unvisited floor
cell, flood-fill its component, compute its stats, and either keep it as
a room or back-fill it to Wall when below the minimum size. -/
def detectCell (st : DetectState) (x y : Nat) : DetectState :=
  if st.g.is_floor (x : Int) (y : Int) &&
      st.room_map.getD (y * st.g.width + x) (-1) == -1 then
    let rm2 := st.g.flood_fill_room (x : Int) (y : Int) st.room_id
      st.room_map
    let a := roomScan st.g.width st.g.height rm2 st.room_id
    let room : Room :=
      { x := a.min_x, y := a.min_y, width := a.max_x - a.min_x + 1,
        height := a.max_y - a.min_y + 1,
        center := ⟨Frac.ofInt a.sum_x / Frac.ofInt a.count,
          Frac.ofInt a.sum_y / Frac.ofInt a.count⟩,
        area := a.count, is_main := false }
    if room.area ≥ st.g.min_room_size then
      { g := { st.g with rooms := st.g.rooms ++ [room] }, room_map := rm2,
        room_id := st.room_id + 1 }
    else
      let p := backfillRoom st.g.width st.g.height st.g.cells rm2
        st.room_id
      { g := { st.g with cells := p.1 }, room_map := p.2,
        room_id := st.room_id }
  else st

/-- Index selected by the `std::max_element` call over the room list:
only a strictly greater area replaces the current best, so the first
maximum is kept. -/
def maxRoomIdx (rooms : List Room) : Nat :=
  (List.range rooms.length).foldl (fun best k =>
    if (rooms.getD best default).area < (rooms.getD k default).area then k
    else best) 0

/-- Mark the largest room as main (`largest->is_main = true`). -/
def markMain (rooms : List Room) : List Room :=
  let i := maxRoomIdx rooms
  rooms.set i { rooms.getD i default with is_main := true }

/-- `MapGenerator::detect_rooms`. -/
def MapGen.detect_rooms (g : MapGen) : MapGen :=
  let st := (List.range g.height).foldl (fun a (y : Nat) =>
    (List.range g.width).foldl (fun a2 (x : Nat) => detectCell a2 x y) a)
    ⟨g, List.replicate (g.width * g.height) (-1), 0⟩
  if st.g.rooms.isEmpty then st.g
  else { st.g with rooms := markMain st.g.rooms }

/-- Truncated centroid cell x of a room (`static_cast<int>(center.x)`). -/
def Room.cellX (r : Room) : Int := r.center.x.trunc

/-- Truncated centroid cell y of a room (`static_cast<int>(center.y)`). -/
def Room.cellY (r : Room) : Int := r.center.y.trunc

/-- The best (connected, unconnected) pair scan of `connect_rooms`:
iterate over all pairs in index order and keep the pair of strictly
smallest squared centroid distance. -/
def MapGen.findBestPair (g : MapGen) (connected : List Bool) :
    Option (Frac × Nat × Nat) :=
  (List.range g.rooms.length).foldl (fun best i =>
    if !(connected.getD i false) then best
    else
      (List.range g.rooms.length).foldl (fun b2 j =>
        if connected.getD j false then b2
        else
          let ri := g.rooms.getD i default
          let rj := g.rooms.getD j default
          let dx := ri.center.x - rj.center.x
          let dy := ri.center.y - rj.center.y
          let dist := dx * dx + dy * dy
          match b2 with
          | none => some (dist, i, j)
          | some (bd, _, _) => if Frac.blt dist bd then some (dist, i, j) else b2)
        best) none

/-- `MapGenerator::create_corridor`: carve an L-shaped band of half-width
2 between the truncated centroids of the two rooms, one coin flip
choosing horizontal-first or vertical-first; every write is clipped by
the `in_bounds` guard of `set_cell`. -/
def MapGen.create_corridor (g : MapGen) (a b : Room) : MapGen :=
  let x0 := a.cellX
  let y0 := a.cellY
  let x1 := b.cellX
  let y1 := b.cellY
  let p := g.rng.next
  let g1 := { g with rng := p.2 }
  if p.1 % 2 == 0 then
    let g2 := (intRangeIncl (min x0 x1) (max x0 x1)).foldl (fun gg x =>
      (intRangeIncl (-2) 2).foldl (fun gg2 w =>
        gg2.set_cell x (y0 + w) CellType.floor) gg) g1
    (intRangeIncl (min y0 y1) (max y0 y1)).foldl (fun gg y =>
      (intRangeIncl (-2) 2).foldl (fun gg2 w =>
        gg2.set_cell (x1 + w) y CellType.floor) gg) g2
  else
    let g2 := (intRangeIncl (min y0 y1) (max y0 y1)).foldl (fun gg y =>
      (intRangeIncl (-2) 2).foldl (fun gg2 w =>
        gg2.set_cell (x0 + w) y CellType.floor) gg) g1
    (intRangeIncl (min x0 x1) (max x0 x1)).foldl (fun gg x =>
      (intRangeIncl (-2) 2).foldl (fun gg2 w =>
        gg2.set_cell x (y1 + w) CellType.floor) gg) g2

/-- The `while (connected_count < rooms_.size())` loop of
`connect_rooms`, with fuel `rooms_.size()` (one room is newly connected
per iteration). Should the pair scan ever fail — impossible while
unconnected rooms remain — the source would spin forever; the model
stops. -/
def MapGen.connect_loop (g : MapGen) (connected : List Bool) (cnt : Nat) :
    Nat → MapGen
  | 0 => g
  | fuel + 1 =>
    if cnt < g.rooms.length then
      match g.findBestPair connected with
      | some (_, bi, bj) =>
        (g.create_corridor (g.rooms.getD bi default)
            (g.rooms.getD bj default)).connect_loop
          (connected.set bj true) (cnt + 1) fuel
      | none => g
    else g

/-- `MapGenerator::connect_rooms`: room 0 starts connected; repeatedly
carve a corridor along the globally closest (connected, unconnected)
pair. -/
def MapGen.connect_rooms (g : MapGen) : MapGen :=
  if g.rooms.length < 2 then g
  else
    g.connect_loop ((List.replicate g.rooms.length false).set 0 true) 1
      g.rooms.length

/-- Swap two entries of an index list. -/
def listSwap (l : List Nat) (i j : Nat) : List Nat :=
  (l.set i (l.getD j 0)).set j (l.getD i 0)

/-- Modelled from the spec: `std::shuffle` over the room-index list. The
standard's Fisher–Yates pattern is used (one draw per position from the
last down to index 1), with the library's bounded-index distribution
modelled as `draw % (i + 1)`. -/
def shuffleList (l : List Nat) (r : Rng) : List Nat × Rng :=
  (List.range (l.length - 1)).foldl (fun st k =>
    let i := l.length - 1 - k
    let p := st.2.next
    (listSwap st.1 i (p.1 % (i + 1)), p.2)) (l, r)

/-- The candidate spawn cells of a room: floor cells of its bounding box
with zero wall neighbours, in the scan order of `place_spawns`. -/
def MapGen.spawnCandidates (g : MapGen) (room : Room) : List (Int × Int) :=
  (intRangeIncl room.y (room.y + room.height - 1)).flatMap fun y =>
    (intRangeIncl room.x (room.x + room.width - 1)).filterMap fun x =>
      if g.is_floor x y && g.count_wall_neighbors x y == 0 then
        some (x, y)
      else none

/-- `MapGenerator::place_spawns`: shuffle the rooms, then for up to
`count` rooms pick a uniformly random fully-interior floor cell, record a
spawn with a random facing, and mark the cell Spawn. -/
def MapGen.place_spawns (g : MapGen) (count : Nat) : MapGen :=
  if g.rooms.isEmpty then g
  else
    let sh := shuffleList (List.range g.rooms.length) g.rng
    let g0 := { g with rng := sh.2 }
    (List.range (min count g.rooms.length)).foldl (fun gg i =>
      let rid := sh.1.getD i 0
      let room := gg.rooms.getD rid default
      let floor_cells := gg.spawnCandidates room
      if floor_cells.isEmpty then gg
      else
        let p1 := gg.rng.next
        let c := floor_cells.getD (p1.1 % floor_cells.length) (0, 0)
        let p2 := p1.2.next
        let pos := gg.cell_to_world c.1 c.2
        let spawn : SpawnPoint :=
          { position := ⟨pos.x, 0, pos.z⟩,
            rotation := ⟨(p2.1 % 1000 : Int), 1000⟩, room_id := (rid : Int) }
        let gg1 : MapGen := { gg with
          spawns := gg.spawns ++ [spawn], rng := p2.2 }
        gg1.writeCell (gg1.idx c.1 c.2) CellType.spawn) g0

/-- The full 3×3 neighbourhood offsets scanned by the near-wall test of
`place_props` (the source loop does not skip the centre; the centre is a
floor cell, hence never a wall). -/
def nineDeltas : List (Int × Int) :=
  [(-1, -1), (0, -1), (1, -1), (-1, 0), (0, 0), (1, 0), (-1, 1), (0, 1),
    (1, 1)]

/-- Pass (a) of `place_props` at one interior cell: a floor cell next to
a wall becomes, with probability 0.02 and at least two axis-aligned floor
neighbours, a random prop. -/
def MapGen.prop_scan_cell (gg : MapGen) (x y : Nat) : MapGen :=
  if !gg.is_floor (x : Int) (y : Int) then gg
  else
    let near_wall := nineDeltas.any fun d =>
      gg.is_wall ((x : Int) + d.1) ((y : Int) + d.2)
    if !near_wall then gg
    else
      let p := gg.rng.next
      let gg1 := { gg with rng := p.2 }
      if p.1 % 1000 < 20 then
        let adjacent_floors :=
          (if gg1.is_floor ((x : Int) - 1) (y : Int) then 1 else 0) +
            (if gg1.is_floor ((x : Int) + 1) (y : Int) then 1 else 0) +
            (if gg1.is_floor (x : Int) ((y : Int) - 1) then 1 else 0) +
            (if gg1.is_floor (x : Int) ((y : Int) + 1) then 1 else 0)
        if 2 ≤ adjacent_floors then
          let pa := gg1.rng.next
          let pt := pa.2.next
          let ps := pt.2.next
          let pos := gg1.cell_to_world (x : Int) (y : Int)
          let prop : PropPlacement :=
            { position := ⟨pos.x, 0, pos.z⟩,
              rotation := ⟨(pa.1 % 1000 : Int), 1000⟩, prop_type := pt.1 % 3,
              scale := 4/5 + (⟨(ps.1 % 1000 : Int), 1000⟩ : Frac) * (2/5) }
          let gg2 : MapGen := { gg1 with
            props := gg1.props ++ [prop], rng := ps.2 }
          gg2.writeCell (gg2.idx (x : Int) (y : Int)) CellType.prop
        else gg1
      else gg1

/-- Value of `uniform_int_distribution<int>(lo, hi)` for one draw. The
column pass can instantiate it with `hi < lo` (a room of width or height
below 7), which is undefined behaviour in C++; the model returns `lo`
there. -/
def uniformIntDraw (lo hi : Int) (k : Nat) : Int :=
  if hi < lo then lo
  else lo + ((k % ((hi - lo).toNat + 1) : Nat) : Int)

/-- Column pass of `place_props` for one room: rooms of area above 500
scatter `area / 200` columns at random fully-interior positions. -/
def MapGen.column_pass (gg : MapGen) (room : Room) : MapGen :=
  if 500 < room.area then
    let num := (room.area / 200).toNat
    (List.range num).foldl (fun g2 _ =>
      let px := g2.rng.next
      let py := px.2.next
      let cx := uniformIntDraw (room.x + 3) (room.x + room.width - 4) px.1
      let cy := uniformIntDraw (room.y + 3) (room.y + room.height - 4)
        py.1
      let g3 := { g2 with rng := py.2 }
      if g3.is_floor cx cy && g3.count_wall_neighbors cx cy == 0 then
        let pos := g3.cell_to_world cx cy
        let prop : PropPlacement :=
          { position := ⟨pos.x, 0, pos.z⟩, rotation := 0, prop_type := 0,
            scale := 3/2 }
        let g4 : MapGen := { g3 with props := g3.props ++ [prop] }
        g4.writeCell (g4.idx cx cy) CellType.prop
      else g3) gg
  else gg

/-- `MapGenerator::place_props`: the interior near-wall scan followed by
the per-room column pass. -/
def MapGen.place_props (g : MapGen) : MapGen :=
  let g1 := (List.range' 2 (g.height - 4)).foldl (fun acc (y : Nat) =>
    (List.range' 2 (g.width - 4)).foldl (fun acc2 (x : Nat) =>
      acc2.prop_scan_cell x y) acc) g
  g1.rooms.foldl (fun acc room => acc.column_pass room) g1

/-- `MapGenerator::generate`: the full pipeline. The `resize` on a fresh
object makes the cell array `width*height` Walls; every cell is then
overwritten by `initialize_random`. -/
def MapGen.generate (g : MapGen) (width height : Nat) : MapGen :=
  let g0 := { g with
    width := width, height := height,
    cells := List.replicate (width * height) CellType.wall,
    rooms := ([] : List Room), spawns := ([] : List SpawnPoint),
    props := ([] : List PropPlacement) }
  let g1 := g0.initialize_random
  let g2 := (List.range g1.smoothing_iterations).foldl
    (fun gg _ => gg.apply_cellular_automata) g1
  let g3 := g2.detect_rooms
  let g4 := g3.connect_rooms
  let g5 := g4.place_spawns 4
  g5.place_props

/-- The `MapGenerator(uint32_t seed)` constructor with the default
tunables of the header; `stream` is the abstract pseudo-random stream the
seed determines. -/
def MapGen.new (stream : Nat → Nat) : MapGen :=
  { width := 0, height := 0, cell_size := 1, cells := [], rooms := [],
    spawns := [], props := [], fillPermille := 450,
    smoothing_iterations := 5, min_room_size := 50, wall_threshold := 4,
    rng := ⟨stream, 0⟩ }

/-- A generator freshly constructed from a seed's stream with the four
tunables set through the public setters. -/
def MapGen.newWith (stream : Nat → Nat) (fill : Nat) (smooth : Nat)
    (minSize : Int) (thresh : Int) : MapGen :=
  { MapGen.new stream with
    fillPermille := fill,
    smoothing_iterations := smooth, min_room_size := minSize,
    wall_threshold := thresh }

/-- C3. Determinism: two `generate` calls on generators built from the
same seed (hence the same pseudo-random stream), the same fill ratio,
smoothing iteration count, minimum room size and wall threshold, and with
the same width and height, produce identical grids, room lists, spawn
lists and prop lists. -/
theorem c3_generate_deterministic (prng : Nat → Nat → Nat)
    (seed1 seed2 fill1 fill2 smooth1 smooth2 : Nat)
    (min1 min2 thresh1 thresh2 : Int) (w1 w2 h1 h2 : Nat)
    (hs : seed1 = seed2) (hf : fill1 = fill2) (hsm : smooth1 = smooth2)
    (hm : min1 = min2) (ht : thresh1 = thresh2) (hw : w1 = w2)
    (hh : h1 = h2) :
    ((MapGen.newWith (prng seed1) fill1 smooth1 min1 thresh1).generate
        w1 h1).cells =
      ((MapGen.newWith (prng seed2) fill2 smooth2 min2 thresh2).generate
        w2 h2).cells ∧
    ((MapGen.newWith (prng seed1) fill1 smooth1 min1 thresh1).generate
        w1 h1).rooms =
      ((MapGen.newWith (prng seed2) fill2 smooth2 min2 thresh2).generate
        w2 h2).rooms ∧
    ((MapGen.newWith (prng seed1) fill1 smooth1 min1 thresh1).generate
        w1 h1).spawns =
      ((MapGen.newWith (prng seed2) fill2 smooth2 min2 thresh2).generate
        w2 h2).spawns ∧
    ((MapGen.newWith (prng seed1) fill1 smooth1 min1 thresh1).generate
        w1 h1).props =
      ((MapGen.newWith (prng seed2) fill2 smooth2 min2 thresh2).generate
        w2 h2).props := by
  subst hs hf hsm hm ht hw hh
  exact ⟨rfl, rfl, rfl, rfl⟩

/-- Witness for C3 at a concrete seed, parameter set and size. -/
theorem c3_generate_deterministic_witness :
    ((MapGen.newWith (fun _ => 0) 450 5 50 4).generate 6 6).cells =
      ((MapGen.newWith (fun _ => 0) 450 5 50 4).generate
        6 6).cells ∧
    ((MapGen.newWith (fun _ => 0) 450 5 50 4).generate 6 6).rooms =
      ((MapGen.newWith (fun _ => 0) 450 5 50 4).generate
        6 6).rooms ∧
    ((MapGen.newWith (fun _ => 0) 450 5 50 4).generate
        6 6).spawns =
      ((MapGen.newWith (fun _ => 0) 450 5 50 4).generate
        6 6).spawns ∧
    ((MapGen.newWith (fun _ => 0) 450 5 50 4).generate 6 6).props =
      ((MapGen.newWith (fun _ => 0) 450 5 50 4).generate
        6 6).props :=
  c3_generate_deterministic (fun _ _ => 0) 12345 12345 450 450 5 5 50 50
    4 4 6 6 6 6 rfl rfl rfl rfl rfl rfl rfl

/-! ## C2: the border invariant fails through corridor carving -/

/-- A concrete random stream under which an 8×8 generation run carves a
corridor through the border: the first 36 draws fill two 3-cell rooms at
rows 1 and 5, the 37th draw picks horizontal-first carving, and the rest
drive spawn shuffling and prop probability checks. -/
def c2List : List Nat :=
  [999, 999, 999, 0, 0, 0, 0, 0, 0, 0, 0, 0, 0, 0, 0, 0, 0, 0,
    0, 0, 0, 0, 0, 0, 999, 999, 999, 0, 0, 0, 0, 0, 0, 0, 0, 0,
    0, 0, 999, 999, 999, 999, 999, 999]

/-- The stream of `c2List`, zero beyond its end. -/
def c2Stream : Nat → Nat := fun n => c2List.getD n 0

/-- Counterexample to C2 as stated: with fill ratio 0.5, zero smoothing
iterations and minimum room size 1, the stream `c2Stream` yields two
rooms whose centroids sit 1 cell from the top border and 2 cells from the
left border; the corridor band of half-width 2 between them is clipped
only to the full grid (`in_bounds`), so the border cell `(2, 0)` of the
final grid is Floor, not Wall. -/
theorem c2_border_counterexample :
    ((MapGen.newWith c2Stream 500 0 1 4).generate 8 8).get_cell 2 0 =
      CellType.floor ∧
    ((MapGen.newWith c2Stream 500 0 1 4).generate 8 8).get_cell 2 0 ≠
      CellType.wall := by
  constructor
  · decide
  · decide

/-! ## Core lemmas on grid reads and writes -/

theorem List.getD_set_eq' {α : Type} (l : List α) (i : Nat) (a d : α)
    (h : i < l.length) : (l.set i a).getD i d = a := by
  rw [List.getD_eq_getElem?_getD, List.getElem?_set_self (by simpa using h)]
  rfl

theorem List.getD_set_ne' {α : Type} (l : List α) (i j : Nat) (a d : α)
    (h : i ≠ j) : (l.set i a).getD j d = l.getD j d := by
  rw [List.getD_eq_getElem?_getD, List.getElem?_set_ne h,
    ← List.getD_eq_getElem?_getD]

theorem MapGen.in_bounds_congr {g g' : MapGen} (hw : g'.width = g.width)
    (hh : g'.height = g.height) (x y : Int) :
    g'.in_bounds x y = g.in_bounds x y := by
  unfold MapGen.in_bounds
  rw [hw, hh]

theorem MapGen.idx_inj (g : MapGen) {x1 y1 x2 y2 : Int}
    (h1 : g.in_bounds x1 y1 = true) (h2 : g.in_bounds x2 y2 = true)
    (h : g.idx x1 y1 = g.idx x2 y2) : x1 = x2 ∧ y1 = y2 := by
  rw [MapGen.in_bounds_iff] at h1 h2
  unfold MapGen.idx at h
  have hx1 : x1.toNat < g.width := by omega
  have hx2 : x2.toNat < g.width := by omega
  have := rowMajor_inj hx1 hx2 h
  omega

/-- Reading after a raw in-bounds cell write (`cells_[idx] = t`): the
written cell reads `t`, all others are unchanged. `g'` is any state that
shares the written cell array and the dimensions of `g`. -/
theorem MapGen.get_cell_write {g g' : MapGen} {x0 y0 : Int} {t : CellType}
    (hc : g'.cells = g.cells.set (g.idx x0 y0) t) (hw : g'.width = g.width)
    (hh : g'.height = g.height) (hb : g.in_bounds x0 y0 = true)
    (hwf : g.WF) (x y : Int) :
    g'.get_cell x y =
      if x = x0 ∧ y = y0 then t else g.get_cell x y := by
  unfold MapGen.get_cell
  rw [MapGen.in_bounds_congr hw hh, hc]
  by_cases hxy : x = x0 ∧ y = y0
  · obtain ⟨rfl, rfl⟩ := hxy
    rw [if_pos hb, if_pos ⟨rfl, rfl⟩]
    have hidx : g'.idx x y = g.idx x y := by
      unfold MapGen.idx
      rw [hw]
    rw [hidx, List.getD_set_eq' _ _ _ _ (g.idx_lt x y hb hwf)]
  · rw [if_neg hxy]
    by_cases hbb : g.in_bounds x y = true
    · rw [if_pos hbb, if_pos hbb]
      have hidx_ne : g.idx x0 y0 ≠ g.idx x y := by
        intro he
        exact hxy ⟨((g.idx_inj hb hbb he).1).symm,
          ((g.idx_inj hb hbb he).2).symm⟩
      have hidx : g'.idx x y = g.idx x y := by
        unfold MapGen.idx
        rw [hw]
      rw [hidx, List.getD_set_ne' _ _ _ _ _ hidx_ne]
    · rw [if_neg hbb, if_neg hbb]

/-- Reading after `set_cell`. -/
theorem MapGen.get_set_cell (g : MapGen) (x0 y0 : Int) (t : CellType)
    (hwf : g.WF) (x y : Int) :
    (g.set_cell x0 y0 t).get_cell x y =
      if x = x0 ∧ y = y0 ∧ g.in_bounds x0 y0 = true then t
      else g.get_cell x y := by
  unfold MapGen.set_cell
  by_cases hb : g.in_bounds x0 y0 = true
  · rw [if_pos hb]
    have hcc : (g.writeCell (g.idx x0 y0) t).cells =
        g.cells.set (g.idx x0 y0) t := rfl
    have hthis : (g.writeCell (g.idx x0 y0) t).get_cell x y =
        if x = x0 ∧ y = y0 then t else g.get_cell x y :=
      MapGen.get_cell_write hcc rfl rfl hb hwf x y
    rw [show ({ g with cells := g.cells.set (g.idx x0 y0) t } : MapGen) =
      g.writeCell (g.idx x0 y0) t from rfl, hthis]
    by_cases hxy : x = x0 ∧ y = y0
    · rw [if_pos hxy, if_pos ⟨hxy.1, hxy.2, hb⟩]
    · rw [if_neg hxy, if_neg (by tauto)]
  · rw [if_neg hb, if_neg (by tauto)]

theorem MapGen.writeCell_get (g : MapGen) (x0 y0 : Int) (t : CellType)
    (hb : g.in_bounds x0 y0 = true) (hwf : g.WF) (x y : Int) :
    (g.writeCell (g.idx x0 y0) t).get_cell x y =
      if x = x0 ∧ y = y0 then t else g.get_cell x y := by
  have hc : (g.writeCell (g.idx x0 y0) t).cells =
      g.cells.set (g.idx x0 y0) t := rfl
  exact MapGen.get_cell_write hc rfl rfl hb hwf x y

theorem MapGen.writeCell_width (g : MapGen) (i : Nat) (t : CellType) :
    (g.writeCell i t).width = g.width := rfl

theorem MapGen.writeCell_height (g : MapGen) (i : Nat) (t : CellType) :
    (g.writeCell i t).height = g.height := rfl

theorem MapGen.writeCell_WF {g : MapGen} (hwf : g.WF) (i : Nat)
    (t : CellType) : (g.writeCell i t).WF := by
  unfold MapGen.WF at hwf ⊢
  unfold MapGen.writeCell
  rw [List.length_set]
  exact hwf

theorem MapGen.writeCell_in_bounds (g : MapGen) (i : Nat) (t : CellType)
    (x y : Int) : (g.writeCell i t).in_bounds x y = g.in_bounds x y :=
  MapGen.in_bounds_congr rfl rfl x y

theorem MapGen.set_cell_WF {g : MapGen} (hwf : g.WF) (x y : Int)
    (t : CellType) : (g.set_cell x y t).WF := by
  unfold MapGen.set_cell
  split
  · simpa [MapGen.WF] using hwf
  · exact hwf

theorem MapGen.is_floor_iff (g : MapGen) (x y : Int) :
    g.is_floor x y = true ↔
      g.get_cell x y = CellType.floor ∨ g.get_cell x y = CellType.spawn ∨
        g.get_cell x y = CellType.prop := by
  unfold MapGen.is_floor
  cases g.get_cell x y <;> simp

theorem MapGen.is_wall_iff (g : MapGen) (x y : Int) :
    g.is_wall x y = true ↔ g.get_cell x y = CellType.wall := by
  unfold MapGen.is_wall
  cases g.get_cell x y <;> simp

theorem MapGen.not_wall_iff (g : MapGen) (x y : Int) :
    g.is_wall x y = false ↔ g.is_floor x y = true := by
  unfold MapGen.is_wall MapGen.is_floor
  cases g.get_cell x y <;> simp

/-- Preservation relation along the passes that follow room detection:
dimensions, cell size and the room list are unchanged, the cell-array
length is kept, floor cells stay floor, and no wall is ever created. -/
structure Pres (g g' : MapGen) : Prop where
  width_eq : g'.width = g.width
  height_eq : g'.height = g.height
  cs_eq : g'.cell_size = g.cell_size
  rooms_eq : g'.rooms = g.rooms
  len_eq : g'.cells.length = g.cells.length
  floor_mono : ∀ x y : Int, g.is_floor x y = true → g'.is_floor x y = true
  wall_anti : ∀ x y : Int, g'.is_wall x y = true → g.is_wall x y = true

theorem Pres.refl (g : MapGen) : Pres g g :=
  ⟨rfl, rfl, rfl, rfl, rfl, fun _ _ h => h, fun _ _ h => h⟩

theorem Pres.trans {g1 g2 g3 : MapGen} (h12 : Pres g1 g2)
    (h23 : Pres g2 g3) : Pres g1 g3 := by
  refine ⟨h23.width_eq.trans h12.width_eq, h23.height_eq.trans h12.height_eq,
    h23.cs_eq.trans h12.cs_eq, h23.rooms_eq.trans h12.rooms_eq,
    h23.len_eq.trans h12.len_eq, fun x y h => ?_, fun x y h => ?_⟩
  · exact h23.floor_mono x y (h12.floor_mono x y h)
  · exact h12.wall_anti x y (h23.wall_anti x y h)

theorem Pres.count_wall_le {g g' : MapGen} (h : Pres g g') (x y : Int) :
    g'.count_wall_neighbors x y ≤ g.count_wall_neighbors x y := by
  unfold MapGen.count_wall_neighbors
  apply List.countP_mono_left
  intro d _ hd
  have hb := MapGen.in_bounds_congr h.width_eq h.height_eq (x + d.1)
    (y + d.2)
  rcases Bool.or_eq_true_iff.mp hd with hl | hr
  · rw [Bool.or_eq_true_iff]
    left
    rwa [hb] at hl
  · rw [Bool.or_eq_true_iff]
    right
    exact h.wall_anti _ _ hr

theorem Pres.count_wall_zero {g g' : MapGen} (h : Pres g g') (x y : Int)
    (h0 : g.count_wall_neighbors x y = 0) :
    g'.count_wall_neighbors x y = 0 :=
  Nat.le_zero.mp (h0 ▸ h.count_wall_le x y)

/-- Writing a non-Wall tag onto an `is_floor` cell preserves `Pres`. -/
theorem Pres.write_nonwall {g g' : MapGen} {x0 y0 : Int} {t : CellType}
    (hc : g'.cells = g.cells.set (g.idx x0 y0) t) (hw : g'.width = g.width)
    (hh : g'.height = g.height) (hcs : g'.cell_size = g.cell_size)
    (hr : g'.rooms = g.rooms) (hb : g.in_bounds x0 y0 = true)
    (hwf : g.WF) (ht : t ≠ CellType.wall) : Pres g g' := by
  have hget := MapGen.get_cell_write hc hw hh hb hwf
  refine ⟨hw, hh, hcs, hr, by rw [hc]; exact List.length_set .., fun x y hf => ?_,
    fun x y hwall => ?_⟩
  · rw [MapGen.is_floor_iff] at hf ⊢
    rw [hget x y]
    by_cases hxy : x = x0 ∧ y = y0
    · rw [if_pos hxy]
      cases t
      · exact absurd rfl ht
      · exact Or.inl rfl
      · exact Or.inr (Or.inl rfl)
      · exact Or.inr (Or.inr rfl)
    · rw [if_neg hxy]
      exact hf
  · rw [MapGen.is_wall_iff] at hwall ⊢
    rw [hget x y] at hwall
    by_cases hxy : x = x0 ∧ y = y0
    · rw [if_pos hxy] at hwall
      exact absurd hwall ht
    · rwa [if_neg hxy] at hwall

/-- Carving a cell to Floor with `set_cell` preserves `Pres`. -/
theorem Pres.set_cell_floor (g : MapGen) (x0 y0 : Int) (hwf : g.WF) :
    Pres g (g.set_cell x0 y0 CellType.floor) := by
  unfold MapGen.set_cell
  by_cases hb : g.in_bounds x0 y0 = true
  · rw [if_pos hb]
    exact Pres.write_nonwall rfl rfl rfl rfl rfl hb hwf (by simp)
  · rw [if_neg hb]
    exact Pres.refl g

theorem Pres.WF {g g' : MapGen} (h : Pres g g') (hwf : g.WF) : g'.WF := by
  unfold MapGen.WF at hwf ⊢
  rw [h.len_eq, h.width_eq, h.height_eq]
  exact hwf

/-! ## C6: the cellular-automata pass -/

/-- The per-cell step of `apply_cellular_automata`, over `(x, y)` pairs:
the neighbour count always reads the prior grid `g`, never the buffer. -/
def caStep (g : MapGen) (acc : List CellType) (p : Nat × Nat) :
    List CellType :=
  if (g.count_wall_neighbors (p.1 : Int) (p.2 : Int) : Int) >
      g.wall_threshold then
    acc.set (p.2 * g.width + p.1) CellType.wall
  else if (g.count_wall_neighbors (p.1 : Int) (p.2 : Int) : Int) <
      g.wall_threshold then
    acc.set (p.2 * g.width + p.1) CellType.floor
  else acc

/-- The interior cells visited by the pass, in loop order. -/
def caPairs (g : MapGen) : List (Nat × Nat) :=
  (List.range' 1 (g.height - 2)).flatMap fun y =>
    (List.range' 1 (g.width - 2)).map fun x => (x, y)

theorem caStep_length (g : MapGen) (l : List CellType) (p : Nat × Nat) :
    (caStep g l p).length = l.length := by
  unfold caStep
  split
  · exact List.length_set ..
  · split
    · exact List.length_set ..
    · rfl

theorem ca_new_cells_eq_foldl (g : MapGen) :
    g.ca_new_cells = (caPairs g).foldl (caStep g) g.cells := by
  unfold MapGen.ca_new_cells caPairs
  rw [foldl_flatMap]
  simp only [List.foldl_map]
  rfl

/-- The new-cell rule at one cell, reading the old value from `l`. -/
def caRule (g : MapGen) (l : List CellType) (x y : Nat) : CellType :=
  if (g.count_wall_neighbors (x : Int) (y : Int) : Int) >
      g.wall_threshold then CellType.wall
  else if (g.count_wall_neighbors (x : Int) (y : Int) : Int) <
      g.wall_threshold then CellType.floor
  else l.getD (y * g.width + x) CellType.wall

theorem caFold_getD (g : MapGen) (L : List (Nat × Nat)) :
    ∀ l : List CellType,
      (∀ p ∈ L, p.1 < g.width ∧ p.2 * g.width + p.1 < l.length) →
      ∀ xi yi : Nat, xi < g.width →
      (L.foldl (caStep g) l).getD (yi * g.width + xi) CellType.wall =
        if (xi, yi) ∈ L then caRule g l xi yi
        else l.getD (yi * g.width + xi) CellType.wall := by
  induction L with
  | nil =>
    intro l _ xi yi _
    simp
  | cons p rest ih =>
    intro l hL xi yi hxi
    rw [List.foldl_cons]
    have hp := hL p (List.mem_cons_self p rest)
    have hlen' : (caStep g l p).length = l.length := caStep_length g l p
    have hL' : ∀ q ∈ rest, q.1 < g.width ∧
        q.2 * g.width + q.1 < (caStep g l p).length := by
      intro q hq
      rw [hlen']
      exact hL q (List.mem_cons_of_mem p hq)
    rw [ih (caStep g l p) hL' xi yi hxi]
    by_cases hpe : p = (xi, yi)
    · subst hpe
      rw [if_pos (List.mem_cons_self _ _)]
      by_cases hmem : ((xi, yi) : Nat × Nat) ∈ rest
      · rw [if_pos hmem]
        unfold caRule caStep
        by_cases hc1 : (g.count_wall_neighbors (xi : Int) (yi : Int) :
            Int) > g.wall_threshold
        · simp only [if_pos hc1]
        · simp only [if_neg hc1]
          by_cases hc2 : (g.count_wall_neighbors (xi : Int) (yi : Int) :
              Int) < g.wall_threshold
          · simp only [if_pos hc2]
          · simp only [if_neg hc2]
      · rw [if_neg hmem]
        unfold caRule caStep
        by_cases hc1 : (g.count_wall_neighbors (xi : Int) (yi : Int) :
            Int) > g.wall_threshold
        · simp only [if_pos hc1]
          exact List.getD_set_eq' _ _ _ _ hp.2
        · simp only [if_neg hc1]
          by_cases hc2 : (g.count_wall_neighbors (xi : Int) (yi : Int) :
              Int) < g.wall_threshold
          · simp only [if_pos hc2]
            exact List.getD_set_eq' _ _ _ _ hp.2
          · simp only [if_neg hc2]
    · have hidx_ne : p.2 * g.width + p.1 ≠ yi * g.width + xi := by
        intro he
        have hinj := rowMajor_inj hp.1 hxi he
        apply hpe
        cases p with
        | mk pa pb =>
          simp only at hinj
          simp [hinj.1, hinj.2]
      have hstep_getD : (caStep g l p).getD (yi * g.width + xi)
          CellType.wall = l.getD (yi * g.width + xi) CellType.wall := by
        unfold caStep
        split
        · exact List.getD_set_ne' _ _ _ _ _ hidx_ne
        · split
          · exact List.getD_set_ne' _ _ _ _ _ hidx_ne
          · rfl
      by_cases hmem : ((xi, yi) : Nat × Nat) ∈ rest
      · rw [if_pos hmem, if_pos (List.mem_cons_of_mem p hmem)]
        unfold caRule
        by_cases hc1 : (g.count_wall_neighbors (xi : Int) (yi : Int) :
            Int) > g.wall_threshold
        · simp only [if_pos hc1]
        · simp only [if_neg hc1]
          by_cases hc2 : (g.count_wall_neighbors (xi : Int) (yi : Int) :
              Int) < g.wall_threshold
          · simp only [if_pos hc2]
          · simp only [if_neg hc2]
            exact hstep_getD
      · rw [if_neg hmem, hstep_getD,
          if_neg (by
            intro hc
            rcases List.mem_cons.mp hc with hc | hc
            · exact hpe hc.symm
            · exact hmem hc)]

theorem flat_idx_lt {w h px py : Nat} (hx : px < w) (hy : py < h) :
    py * w + px < w * h := by
  calc py * w + px < py * w + w := by omega
    _ = (py + 1) * w := by ring
    _ ≤ h * w := Nat.mul_le_mul_right _ (by omega)
    _ = w * h := Nat.mul_comm _ _

theorem mem_caPairs (g : MapGen) (p : Nat × Nat) :
    p ∈ caPairs g ↔
      1 ≤ p.1 ∧ p.1 < 1 + (g.width - 2) ∧ 1 ≤ p.2 ∧
        p.2 < 1 + (g.height - 2) := by
  unfold caPairs
  simp only [List.mem_flatMap, List.mem_map, List.mem_range'_1]
  constructor
  · rintro ⟨y, hy, x, hx, rfl⟩
    exact ⟨hx.1, hx.2, hy.1, hy.2⟩
  · intro ⟨h1, h2, h3, h4⟩
    exact ⟨p.2, ⟨h3, h4⟩, p.1, ⟨h1, h2⟩, rfl⟩

/-- C6. One cellular-automata pass is a function of the prior grid
snapshot: for every interior cell the new value is Wall when the prior
8-neighbour wall count (out-of-bounds counting as Wall) exceeds the
threshold, Floor when it is below, and the prior value when equal; every
non-interior cell (in particular the border) is unchanged. -/
theorem c6_cellular_automata (g : MapGen) (hwf : g.WF) (x y : Int) :
    ((1 ≤ x ∧ x ≤ (g.width : Int) - 2 ∧ 1 ≤ y ∧
        y ≤ (g.height : Int) - 2) →
      g.apply_cellular_automata.get_cell x y =
        (if (g.count_wall_neighbors x y : Int) > g.wall_threshold then
          CellType.wall
        else if (g.count_wall_neighbors x y : Int) < g.wall_threshold then
          CellType.floor
        else g.get_cell x y)) ∧
    (¬(1 ≤ x ∧ x ≤ (g.width : Int) - 2 ∧ 1 ≤ y ∧
        y ≤ (g.height : Int) - 2) →
      g.apply_cellular_automata.get_cell x y = g.get_cell x y) := by
  have hL : ∀ p ∈ caPairs g, p.1 < g.width ∧
      p.2 * g.width + p.1 < g.cells.length := by
    intro p hp
    rw [mem_caPairs] at hp
    have hx : p.1 < g.width := by omega
    have hy : p.2 < g.height := by omega
    exact ⟨hx, by rw [hwf]; exact flat_idx_lt hx hy⟩
  have hca : g.apply_cellular_automata.get_cell x y =
      (if g.in_bounds x y then
        g.ca_new_cells.getD (g.idx x y) CellType.wall
      else CellType.wall) := rfl
  constructor
  · intro ⟨h1, h2, h3, h4⟩
    have hb : g.in_bounds x y = true := by
      rw [MapGen.in_bounds_iff]
      omega
    rw [hca, if_pos hb, ca_new_cells_eq_foldl]
    have hxn : x.toNat < g.width := by omega
    have hidx : g.idx x y = y.toNat * g.width + x.toNat := rfl
    rw [hidx, caFold_getD g (caPairs g) g.cells hL x.toNat y.toNat hxn]
    have hmem : ((x.toNat, y.toNat) : Nat × Nat) ∈ caPairs g := by
      rw [mem_caPairs]
      constructor
      · omega
      · constructor
        · omega
        · constructor
          · omega
          · omega
    rw [if_pos hmem]
    unfold caRule
    have hcx : ((x.toNat : Nat) : Int) = x := Int.toNat_of_nonneg (by omega)
    have hcy : ((y.toNat : Nat) : Int) = y := Int.toNat_of_nonneg (by omega)
    rw [hcx, hcy]
    have hget : g.get_cell x y =
        g.cells.getD (y.toNat * g.width + x.toNat) CellType.wall := by
      unfold MapGen.get_cell
      rw [if_pos hb]
      rfl
    rw [hget]
  · intro hni
    by_cases hb : g.in_bounds x y = true
    · rw [hca, if_pos hb, ca_new_cells_eq_foldl]
      have hbb := hb
      rw [MapGen.in_bounds_iff] at hbb
      have hxn : x.toNat < g.width := by omega
      have hidx : g.idx x y = y.toNat * g.width + x.toNat := rfl
      rw [hidx, caFold_getD g (caPairs g) g.cells hL x.toNat y.toNat hxn]
      have hmem : ¬(((x.toNat, y.toNat) : Nat × Nat) ∈ caPairs g) := by
        rw [mem_caPairs]
        intro ⟨m1, m2, m3, m4⟩
        exact hni (by omega)
      rw [if_neg hmem]
      unfold MapGen.get_cell
      rw [if_pos hb]
      rfl
    · rw [hca, if_neg (by simpa using hb)]
      unfold MapGen.get_cell
      rw [if_neg (by simpa using hb)]

/-- Witness for C6 on a 3×3 all-Wall grid: the interior cell follows the
rule, the corner is unchanged. -/
theorem c6_cellular_automata_witness :
    (let gT : MapGen :=
      { width := 3, height := 3, cell_size := ⟨1, 1⟩,
        cells := List.replicate 9 CellType.wall, rooms := [],
        spawns := [], props := [], fillPermille := 450,
        smoothing_iterations := 5, min_room_size := 50,
        wall_threshold := 4, rng := ⟨fun _ => 0, 0⟩ }
    gT.apply_cellular_automata.get_cell 1 1 =
      (if (gT.count_wall_neighbors 1 1 : Int) > gT.wall_threshold then
        CellType.wall
      else if (gT.count_wall_neighbors 1 1 : Int) < gT.wall_threshold then
        CellType.floor
      else gT.get_cell 1 1) ∧
    gT.apply_cellular_automata.get_cell 0 0 = gT.get_cell 0 0) := by
  intro gT
  exact ⟨(c6_cellular_automata gT rfl 1 1).1 (by decide),
    (c6_cellular_automata gT rfl 0 0).2 (by decide)⟩

/-! ## Pipeline bookkeeping: the room list after detection is final -/

theorem foldl_rooms {γ : Type} (l : List γ) (g0 : MapGen)
    (f : MapGen → γ → MapGen) (hf : ∀ gg c, (f gg c).rooms = gg.rooms) :
    (l.foldl f g0).rooms = g0.rooms := by
  induction l generalizing g0 with
  | nil => rfl
  | cons c cs ih => rw [List.foldl_cons, ih, hf]

theorem MapGen.set_cell_rooms (g : MapGen) (x y : Int) (t : CellType) :
    (g.set_cell x y t).rooms = g.rooms := by
  unfold MapGen.set_cell
  split <;> rfl

theorem MapGen.create_corridor_rooms (g : MapGen) (a b : Room) :
    (g.create_corridor a b).rooms = g.rooms := by
  unfold MapGen.create_corridor
  dsimp only
  split
  · rw [foldl_rooms _ _ _ (fun gg y => foldl_rooms _ _ _
      (fun gg2 w => gg2.set_cell_rooms _ _ _)),
      foldl_rooms _ _ _ (fun gg x => foldl_rooms _ _ _
      (fun gg2 w => gg2.set_cell_rooms _ _ _))]
  · rw [foldl_rooms _ _ _ (fun gg x => foldl_rooms _ _ _
      (fun gg2 w => gg2.set_cell_rooms _ _ _)),
      foldl_rooms _ _ _ (fun gg y => foldl_rooms _ _ _
      (fun gg2 w => gg2.set_cell_rooms _ _ _))]

theorem MapGen.connect_loop_rooms (fuel : Nat) :
    ∀ (g : MapGen) (connected : List Bool) (cnt : Nat),
      (g.connect_loop connected cnt fuel).rooms = g.rooms := by
  induction fuel with
  | zero => intro g connected cnt; rfl
  | succ fuel ih =>
    intro g connected cnt
    show (MapGen.connect_loop g connected cnt (fuel + 1)).rooms = g.rooms
    unfold MapGen.connect_loop
    split
    · split
      · rw [ih, MapGen.create_corridor_rooms]
      · rfl
    · rfl

theorem MapGen.connect_rooms_rooms (g : MapGen) :
    g.connect_rooms.rooms = g.rooms := by
  unfold MapGen.connect_rooms
  split
  · rfl
  · rw [MapGen.connect_loop_rooms]

theorem MapGen.place_spawns_rooms (g : MapGen) (count : Nat) :
    (g.place_spawns count).rooms = g.rooms := by
  unfold MapGen.place_spawns
  split
  · rfl
  · dsimp only
    rw [foldl_rooms]
    intro gg i
    dsimp only
    repeat' split
    all_goals rfl

theorem MapGen.prop_scan_cell_rooms (g : MapGen) (x y : Nat) :
    (g.prop_scan_cell x y).rooms = g.rooms := by
  unfold MapGen.prop_scan_cell
  dsimp only
  repeat' split
  all_goals rfl

theorem MapGen.column_pass_rooms (g : MapGen) (room : Room) :
    (g.column_pass room).rooms = g.rooms := by
  unfold MapGen.column_pass
  split
  · dsimp only
    rw [foldl_rooms]
    intro gg i
    dsimp only
    repeat' split
    all_goals rfl
  · rfl

theorem MapGen.place_props_rooms (g : MapGen) :
    g.place_props.rooms = g.rooms := by
  unfold MapGen.place_props
  dsimp only
  rw [foldl_rooms _ _ _ (fun gg room => gg.column_pass_rooms room),
    foldl_rooms _ _ _ (fun gg y => foldl_rooms _ _ _
      (fun gg2 x => gg2.prop_scan_cell_rooms x y))]

/-! ## C7: the main-room flag -/

/-- Prefix fold of `maxRoomIdx`. -/
def maxFoldAux (rooms : List Room) (n : Nat) : Nat :=
  (List.range n).foldl (fun best k =>
    if (rooms.getD best default).area < (rooms.getD k default).area then k
    else best) 0

theorem maxFoldAux_succ (rooms : List Room) (n : Nat) :
    maxFoldAux rooms (n + 1) =
      (if (rooms.getD (maxFoldAux rooms n) default).area <
          (rooms.getD n default).area then n else maxFoldAux rooms n) := by
  unfold maxFoldAux
  rw [List.range_succ, List.foldl_append]
  rfl

theorem maxFoldAux_spec (rooms : List Room) : ∀ n : Nat,
    (maxFoldAux rooms n = 0 ∨ maxFoldAux rooms n < n) ∧
    (∀ j, j < n → (rooms.getD j default).area ≤
      (rooms.getD (maxFoldAux rooms n) default).area) ∧
    (∀ j, j < maxFoldAux rooms n → (rooms.getD j default).area <
      (rooms.getD (maxFoldAux rooms n) default).area) := by
  intro n
  induction n with
  | zero =>
    have h0 : maxFoldAux rooms 0 = 0 := rfl
    refine ⟨Or.inl rfl, fun j hj => by omega, fun j hj => ?_⟩
    rw [h0] at hj
    omega
  | succ n ih =>
    obtain ⟨hlt, hmax, hfirst⟩ := ih
    rw [maxFoldAux_succ]
    by_cases hc : (rooms.getD (maxFoldAux rooms n) default).area <
        (rooms.getD n default).area
    · rw [if_pos hc]
      refine ⟨Or.inr (by omega), fun j hj => ?_, fun j hj => ?_⟩
      · by_cases hjn : j = n
        · subst hjn
          exact le_refl _
        · exact le_of_lt (lt_of_le_of_lt (hmax j (by omega)) hc)
      · exact lt_of_le_of_lt (hmax j hj) hc
    · rw [if_neg hc]
      refine ⟨?_, fun j hj => ?_, hfirst⟩
      · rcases hlt with h | h
        · exact Or.inl h
        · exact Or.inr (by omega)
      · by_cases hjn : j = n
        · subst hjn
          omega
        · exact hmax j (by omega)

theorem maxRoomIdx_eq_aux (rooms : List Room) :
    maxRoomIdx rooms = maxFoldAux rooms rooms.length := rfl

theorem markMain_length (rooms : List Room) :
    (markMain rooms).length = rooms.length := by
  unfold markMain
  exact List.length_set ..

/-- The `max_element` flagging: the flagged index is in range, is the
unique `is_main` room, has maximal area, and is the first maximum. -/
theorem markMain_spec (rooms : List Room) (hne : rooms ≠ [])
    (hall : ∀ r ∈ rooms, r.is_main = false) :
    ∃ i, i < (markMain rooms).length ∧
      ((markMain rooms).getD i default).is_main = true ∧
      (∀ j, j < (markMain rooms).length → j ≠ i →
        ((markMain rooms).getD j default).is_main = false) ∧
      (∀ j, j < (markMain rooms).length →
        ((markMain rooms).getD j default).area ≤
          ((markMain rooms).getD i default).area) ∧
      (∀ j, j < i → ((markMain rooms).getD j default).area <
        ((markMain rooms).getD i default).area) := by
  have hlen : 0 < rooms.length := List.length_pos.mpr hne
  obtain ⟨hlt, hmax, hfirst⟩ := maxFoldAux_spec rooms rooms.length
  rw [← maxRoomIdx_eq_aux] at hlt hmax hfirst
  have hilt : maxRoomIdx rooms < rooms.length := by
    rcases hlt with h | h
    · omega
    · exact h
  refine ⟨maxRoomIdx rooms, ?_, ?_, ?_, ?_, ?_⟩
  · rw [markMain_length]; exact hilt
  · unfold markMain
    rw [List.getD_set_eq' _ _ _ _ hilt]
  · intro j hj hne'
    rw [markMain_length] at hj
    unfold markMain
    rw [List.getD_set_ne' _ _ _ _ _ (fun he => hne' he.symm)]
    exact hall _ (by
      rw [List.getD_eq_getElem _ _ hj]
      exact List.getElem_mem hj)
  · intro j hj
    rw [markMain_length] at hj
    unfold markMain
    rw [List.getD_set_eq' _ _ _ _ hilt]
    by_cases hji : j = maxRoomIdx rooms
    · subst hji
      rw [List.getD_set_eq' _ _ _ _ hilt]
    · rw [List.getD_set_ne' _ _ _ _ _ (fun he => hji he.symm)]
      exact hmax j hj
  · intro j hj
    unfold markMain
    rw [List.getD_set_eq' _ _ _ _ hilt,
      List.getD_set_ne' _ _ _ _ _ (by omega)]
    exact hfirst j hj

theorem MapGen.init_cell_rooms (g : MapGen) (x y : Nat) :
    (g.init_cell x y).rooms = g.rooms := by
  unfold MapGen.init_cell
  split <;> rfl

theorem MapGen.initialize_random_rooms (g : MapGen) :
    g.initialize_random.rooms = g.rooms := by
  unfold MapGen.initialize_random
  rw [foldl_rooms _ _ _ (fun gg y => foldl_rooms _ _ _
    (fun gg2 x => gg2.init_cell_rooms x y))]

/-- All rooms pushed by the detection scan carry `is_main = false`. -/
theorem detect_scan_all_false (g0 : MapGen)
    (h0 : ∀ r ∈ g0.rooms, r.is_main = false) :
    ∀ r ∈ ((List.range g0.height).foldl (fun a (y : Nat) =>
      (List.range g0.width).foldl (fun a2 (x : Nat) => detectCell a2 x y) a)
      (⟨g0, List.replicate (g0.width * g0.height) (-1), 0⟩ :
        DetectState)).g.rooms, r.is_main = false := by
  refine foldl_preserves
    (fun st : DetectState => ∀ r ∈ st.g.rooms, r.is_main = false) _
    (fun st y hst => ?_) _ _ h0
  refine foldl_preserves
    (fun st : DetectState => ∀ r ∈ st.g.rooms, r.is_main = false) _
    (fun st2 x hst2 => ?_) _ _ hst
  unfold detectCell
  dsimp only
  split
  · split
    · intro r hr
      simp only [List.mem_append, List.mem_singleton] at hr
      rcases hr with hr | hr
      · exact hst2 r hr
      · rw [hr]
    · exact hst2
  · exact hst2

/-- The state after the field resets (`resize`, list clears) at the top
of `generate`. -/
def MapGen.resetState (g : MapGen) (width height : Nat) : MapGen :=
  { g with
    width := width, height := height,
    cells := List.replicate (width * height) CellType.wall,
    rooms := ([] : List Room), spawns := ([] : List SpawnPoint),
    props := ([] : List PropPlacement) }

/-- The state handed to `detect_rooms` by `generate`: random fill
followed by the smoothing iterations. -/
def MapGen.detectInput (g : MapGen) (w h : Nat) : MapGen :=
  (List.range (g.resetState w h).initialize_random.smoothing_iterations).foldl
    (fun gg _ => gg.apply_cellular_automata)
    (g.resetState w h).initialize_random

/-- `generate` decomposed into its pipeline stages. -/
theorem MapGen.generate_eq_stages (g : MapGen) (w h : Nat) :
    g.generate w h =
      (((g.detectInput w h).detect_rooms.connect_rooms).place_spawns
        4).place_props := rfl

theorem MapGen.detectInput_rooms (g : MapGen) (w h : Nat) :
    (g.detectInput w h).rooms = [] := by
  unfold MapGen.detectInput
  rw [foldl_rooms (List.range
      (g.resetState w h).initialize_random.smoothing_iterations)
      (g.resetState w h).initialize_random
      (fun gg _ => gg.apply_cellular_automata) (fun gg i => rfl),
    MapGen.initialize_random_rooms]
  rfl

theorem MapGen.generate_rooms_eq (g : MapGen) (w h : Nat) :
    ∃ gd : MapGen, gd.rooms = [] ∧
      (g.generate w h).rooms = gd.detect_rooms.rooms := by
  refine ⟨g.detectInput w h, g.detectInput_rooms w h, ?_⟩
  rw [MapGen.generate_eq_stages, MapGen.place_props_rooms,
    MapGen.place_spawns_rooms, MapGen.connect_rooms_rooms]

/-- The rooms of `detect_rooms` on a room-less input state: the scanned
list, `markMain`-flagged when non-empty. -/
theorem detect_rooms_c7 (gd : MapGen) (h0 : gd.rooms = [])
    (hne : gd.detect_rooms.rooms ≠ []) :
    ∃ i, i < gd.detect_rooms.rooms.length ∧
      (gd.detect_rooms.rooms.getD i default).is_main = true ∧
      (∀ j, j < gd.detect_rooms.rooms.length → j ≠ i →
        (gd.detect_rooms.rooms.getD j default).is_main = false) ∧
      (∀ j, j < gd.detect_rooms.rooms.length →
        (gd.detect_rooms.rooms.getD j default).area ≤
          (gd.detect_rooms.rooms.getD i default).area) ∧
      (∀ j, j < i → (gd.detect_rooms.rooms.getD j default).area <
        (gd.detect_rooms.rooms.getD i default).area) := by
  have hscan_all := detect_scan_all_false gd (by rw [h0]; intro r hr; simp at hr)
  revert hne
  unfold MapGen.detect_rooms
  dsimp only
  split
  · next hempty =>
    intro hne
    exact absurd (List.isEmpty_iff.mp hempty) hne
  · next hnempty =>
    intro hne
    have hne' : (((List.range gd.height).foldl (fun a (y : Nat) =>
        (List.range gd.width).foldl (fun a2 (x : Nat) => detectCell a2 x y)
          a) (⟨gd, List.replicate (gd.width * gd.height) (-1), 0⟩ :
            DetectState)).g.rooms) ≠ [] := by
      intro hc
      exact hnempty (by rw [hc]; rfl)
    exact markMain_spec _ hne' hscan_all

/-- C7. Whenever the generated room list is non-empty there is an index
`i` holding the single `is_main` room; its area is maximal, and every
earlier room has strictly smaller area (ties keep the first maximum). -/
theorem c7_main_room (g : MapGen) (w h : Nat)
    (hne : (g.generate w h).rooms ≠ []) :
    ∃ i, i < (g.generate w h).rooms.length ∧
      ((g.generate w h).rooms.getD i default).is_main = true ∧
      (∀ j, j < (g.generate w h).rooms.length → j ≠ i →
        ((g.generate w h).rooms.getD j default).is_main = false) ∧
      (∀ j, j < (g.generate w h).rooms.length →
        ((g.generate w h).rooms.getD j default).area ≤
          ((g.generate w h).rooms.getD i default).area) ∧
      (∀ j, j < i → ((g.generate w h).rooms.getD j default).area <
        ((g.generate w h).rooms.getD i default).area) := by
  obtain ⟨gd, h0, heq⟩ := g.generate_rooms_eq w h
  rw [heq] at hne ⊢
  exact detect_rooms_c7 gd h0 hne

/-- Witness for C7 on the concrete 8×8 run of `c2Stream`: rooms are
detected and the flag obeys the first-maximum rule. -/
theorem c7_main_room_witness :
    ((MapGen.newWith c2Stream 500 0 1 4).generate 8 8).rooms ≠ [] ∧
    (∃ i, i < ((MapGen.newWith c2Stream 500 0 1 4).generate
        8 8).rooms.length ∧
      (((MapGen.newWith c2Stream 500 0 1 4).generate 8 8).rooms.getD i
        default).is_main = true ∧
      (∀ j, j < ((MapGen.newWith c2Stream 500 0 1 4).generate
          8 8).rooms.length → j ≠ i →
        (((MapGen.newWith c2Stream 500 0 1 4).generate 8 8).rooms.getD j
          default).is_main = false) ∧
      (∀ j, j < ((MapGen.newWith c2Stream 500 0 1 4).generate
          8 8).rooms.length →
        (((MapGen.newWith c2Stream 500 0 1 4).generate 8 8).rooms.getD j
          default).area ≤
        (((MapGen.newWith c2Stream 500 0 1 4).generate 8 8).rooms.getD i
          default).area) ∧
      (∀ j, j < i →
        (((MapGen.newWith c2Stream 500 0 1 4).generate 8 8).rooms.getD j
          default).area <
        (((MapGen.newWith c2Stream 500 0 1 4).generate 8 8).rooms.getD i
          default).area)) :=
  ⟨by decide, c7_main_room (MapGen.newWith c2Stream 500 0 1 4) 8 8
    (by decide)⟩

/-! ## Characterising corridor carving -/

theorem MapGen.set_cell_width (g : MapGen) (x y : Int) (t : CellType) :
    (g.set_cell x y t).width = g.width := by
  unfold MapGen.set_cell
  split <;> rfl

theorem MapGen.set_cell_height (g : MapGen) (x y : Int) (t : CellType) :
    (g.set_cell x y t).height = g.height := by
  unfold MapGen.set_cell
  split <;> rfl

theorem MapGen.set_cell_cell_size (g : MapGen) (x y : Int) (t : CellType) :
    (g.set_cell x y t).cell_size = g.cell_size := by
  unfold MapGen.set_cell
  split <;> rfl

theorem MapGen.get_cell_congr {g g' : MapGen} (hw : g'.width = g.width)
    (hh : g'.height = g.height) (hc : g'.cells = g.cells) (x y : Int) :
    g'.get_cell x y = g.get_cell x y := by
  unfold MapGen.get_cell
  rw [MapGen.in_bounds_congr hw hh, hc]
  have : g'.idx x y = g.idx x y := by
    unfold MapGen.idx
    rw [hw]
  rw [this]

/-- `Pres` between states that share dimensions and cells. -/
theorem Pres.same {g g' : MapGen} (hw : g'.width = g.width)
    (hh : g'.height = g.height) (hcs : g'.cell_size = g.cell_size)
    (hr : g'.rooms = g.rooms) (hc : g'.cells = g.cells) : Pres g g' := by
  refine ⟨hw, hh, hcs, hr, by rw [hc], fun x y hf => ?_, fun x y hwall => ?_⟩
  · rw [MapGen.is_floor] at hf ⊢
    rw [MapGen.get_cell_congr hw hh hc]
    exact hf
  · rw [MapGen.is_wall] at hwall ⊢
    rw [MapGen.get_cell_congr hw hh hc] at hwall
    exact hwall

theorem getD_mem_of_lt {α : Type} (l : List α) (i : Nat) (d : α)
    (h : i < l.length) : l.getD i d ∈ l := by
  rw [List.getD_eq_getElem _ _ h]
  exact List.getElem_mem h

theorem mem_intRangeIncl {lo hi v : Int} :
    v ∈ intRangeIncl lo hi ↔ lo ≤ v ∧ v ≤ hi := by
  unfold intRangeIncl
  split
  · next h =>
    simp only [List.not_mem_nil, false_iff]
    omega
  · next h =>
    simp only [List.mem_map, List.mem_range]
    constructor
    · rintro ⟨k, hk, rfl⟩
      omega
    · intro ⟨h1, h2⟩
      exact ⟨(v - lo).toNat, by omega, by omega⟩

/-- Fold of Floor `set_cell` writes over a list of cells (the shape of
each corridor leg). -/
def carveFold (g : MapGen) (ps : List (Int × Int)) : MapGen :=
  ps.foldl (fun gg p => gg.set_cell p.1 p.2 CellType.floor) g

theorem carveFold_WF {g : MapGen} (hwf : g.WF) (ps : List (Int × Int)) :
    (carveFold g ps).WF := by
  unfold carveFold
  exact foldl_preserves MapGen.WF _
    (fun gg p hgg => MapGen.set_cell_WF hgg _ _ _) _ _ hwf

theorem carveFold_width (g : MapGen) (ps : List (Int × Int)) :
    (carveFold g ps).width = g.width := by
  unfold carveFold
  exact foldl_preserves (fun (gg : MapGen) => gg.width = g.width)
    (fun (gg : MapGen) (p : Int × Int) =>
      gg.set_cell p.1 p.2 CellType.floor)
    (fun gg p hgg => by dsimp only; rw [MapGen.set_cell_width]; exact hgg) _ _ rfl

theorem carveFold_height (g : MapGen) (ps : List (Int × Int)) :
    (carveFold g ps).height = g.height := by
  unfold carveFold
  exact foldl_preserves (fun (gg : MapGen) => gg.height = g.height)
    (fun (gg : MapGen) (p : Int × Int) =>
      gg.set_cell p.1 p.2 CellType.floor)
    (fun gg p hgg => by dsimp only; rw [MapGen.set_cell_height]; exact hgg) _ _ rfl

theorem carveFold_pres {g : MapGen} (hwf : g.WF) (ps : List (Int × Int)) :
    Pres g (carveFold g ps) := by
  unfold carveFold
  exact foldl_preserves (fun gg => Pres g gg) _
    (fun gg p hgg =>
      hgg.trans (Pres.set_cell_floor gg p.1 p.2 (hgg.WF hwf))) _ _
    (Pres.refl g)

/-- Reading after a carve fold: cells in the list (and in bounds) read
Floor, every other cell is unchanged. -/
theorem carveFold_get (ps : List (Int × Int)) : ∀ (g : MapGen), g.WF →
    ∀ x y : Int, (carveFold g ps).get_cell x y =
      if (x, y) ∈ ps ∧ g.in_bounds x y = true then CellType.floor
      else g.get_cell x y := by
  induction ps with
  | nil =>
    intro g hwf x y
    simp [carveFold]
  | cons p rest ih =>
    intro g hwf x y
    have hstep : carveFold g (p :: rest) =
        carveFold (g.set_cell p.1 p.2 CellType.floor) rest := rfl
    rw [hstep, ih _ (MapGen.set_cell_WF hwf _ _ _) x y]
    have hb_eq : (g.set_cell p.1 p.2 CellType.floor).in_bounds x y =
        g.in_bounds x y :=
      MapGen.in_bounds_congr (g.set_cell_width _ _ _)
        (g.set_cell_height _ _ _) x y
    rw [hb_eq, MapGen.get_set_cell g p.1 p.2 CellType.floor hwf x y]
    by_cases h1 : (x, y) ∈ rest ∧ g.in_bounds x y = true
    · rw [if_pos h1, if_pos ⟨List.mem_cons_of_mem p h1.1, h1.2⟩]
    · rw [if_neg h1]
      by_cases h2 : x = p.1 ∧ y = p.2 ∧ g.in_bounds p.1 p.2 = true
      · rw [if_pos h2]
        have hxy : (x, y) = p := by
          cases p
          simp [h2.1, h2.2.1]
        have hbxy : g.in_bounds x y = true := by
          rw [h2.1, h2.2.1]
          exact h2.2.2
        rw [if_pos ⟨by rw [hxy]; exact List.mem_cons_self p rest, hbxy⟩]
      · rw [if_neg h2]
        rw [if_neg (by
          intro ⟨hm, hbxy⟩
          rcases List.mem_cons.mp hm with hm | hm
          · apply h2
            cases p
            simp only [Prod.mk.injEq] at hm
            refine ⟨hm.1, hm.2, ?_⟩
            rw [← hm.1, ← hm.2]
            exact hbxy
          · exact h1 ⟨hm, hbxy⟩)]

/-- The horizontal band of a corridor leg: `x` runs over the range,
`w` over `[-2, 2]`, carving `(x, y0 + w)`. -/
def bandH (y0 xlo xhi : Int) : List (Int × Int) :=
  (intRangeIncl xlo xhi).flatMap fun x =>
    (intRangeIncl (-2) 2).map fun w => (x, y0 + w)

/-- The vertical band of a corridor leg: `y` runs over the range,
`w` over `[-2, 2]`, carving `(x0 + w, y)`. -/
def bandV (x0 ylo yhi : Int) : List (Int × Int) :=
  (intRangeIncl ylo yhi).flatMap fun y =>
    (intRangeIncl (-2) 2).map fun w => (x0 + w, y)

theorem mem_bandH {y0 xlo xhi : Int} {p : Int × Int} :
    p ∈ bandH y0 xlo xhi ↔
      xlo ≤ p.1 ∧ p.1 ≤ xhi ∧ y0 - 2 ≤ p.2 ∧ p.2 ≤ y0 + 2 := by
  unfold bandH
  simp only [List.mem_flatMap, List.mem_map, mem_intRangeIncl]
  constructor
  · rintro ⟨x, hx, w, hw, rfl⟩
    simp only
    omega
  · intro ⟨h1, h2, h3, h4⟩
    refine ⟨p.1, ⟨h1, h2⟩, p.2 - y0, by omega, ?_⟩
    have hyy : y0 + (p.2 - y0) = p.2 := by omega
    rw [hyy]

theorem mem_bandV {x0 ylo yhi : Int} {p : Int × Int} :
    p ∈ bandV x0 ylo yhi ↔
      ylo ≤ p.2 ∧ p.2 ≤ yhi ∧ x0 - 2 ≤ p.1 ∧ p.1 ≤ x0 + 2 := by
  unfold bandV
  simp only [List.mem_flatMap, List.mem_map, mem_intRangeIncl]
  constructor
  · rintro ⟨y, hy, w, hw, rfl⟩
    simp only
    omega
  · intro ⟨h1, h2, h3, h4⟩
    refine ⟨p.2, ⟨h1, h2⟩, p.1 - x0, by omega, ?_⟩
    have hxx : x0 + (p.1 - x0) = p.1 := by omega
    rw [hxx]

/-- `create_corridor` decomposed as two carve folds over the bands, after
the coin flip consumes one draw. -/
theorem MapGen.create_corridor_eq (g : MapGen) (a b : Room) :
    g.create_corridor a b =
      if (g.rng.next.1 % 2 == 0) = true then
        carveFold (carveFold { g with rng := g.rng.next.2 }
          (bandH a.cellY (min a.cellX b.cellX) (max a.cellX b.cellX)))
          (bandV b.cellX (min a.cellY b.cellY) (max a.cellY b.cellY))
      else
        carveFold (carveFold { g with rng := g.rng.next.2 }
          (bandV a.cellX (min a.cellY b.cellY) (max a.cellY b.cellY)))
          (bandH b.cellY (min a.cellX b.cellX) (max a.cellX b.cellX)) := by
  unfold MapGen.create_corridor carveFold bandH bandV
  dsimp only
  split
  · rw [foldl_flatMap, foldl_flatMap]
    simp only [List.foldl_map]
  · rw [foldl_flatMap, foldl_flatMap]
    simp only [List.foldl_map]

/-! ## The border through the pipeline -/

/-- Every in-bounds border cell is Wall. -/
def BorderWall (g : MapGen) : Prop :=
  ∀ x y : Int, g.in_bounds x y = true →
    (x = 0 ∨ x = (g.width : Int) - 1 ∨ y = 0 ∨ y = (g.height : Int) - 1) →
    g.is_wall x y = true

/-- A property preserved by every fold step over list members is
preserved by the fold. -/
theorem foldl_preserves_mem {β γ : Type} (P : β → Prop) (f : β → γ → β)
    (l : List γ) (h : ∀ b c, c ∈ l → P b → P (f b c)) :
    ∀ b, P b → P (l.foldl f b) := by
  induction l with
  | nil => intro b hb; exact hb
  | cons c cs ih =>
    intro b hb
    exact ih (fun b2 c2 hc2 hb2 => h b2 c2 (List.mem_cons_of_mem c hc2)
      hb2) _ (h b c (List.mem_cons_self c cs) hb)

theorem MapGen.resetState_borderwall (g : MapGen) (w h : Nat) :
    BorderWall (g.resetState w h) ∧ (g.resetState w h).WF ∧
      (g.resetState w h).width = w ∧ (g.resetState w h).height = h := by
  refine ⟨fun x y hb hbd => ?_, ?_, rfl, rfl⟩
  · rw [MapGen.is_wall_iff]
    unfold MapGen.get_cell
    rw [if_pos hb]
    exact getD_all_wall _ (fun c hc => (List.eq_of_mem_replicate hc)) _
  · unfold MapGen.WF MapGen.resetState
    exact List.length_replicate ..

/-- The bundled invariant carried through `initialize_random`. -/
def InitInv (W H : Nat) (g : MapGen) : Prop :=
  g.width = W ∧ g.height = H ∧ g.WF ∧ BorderWall g

theorem MapGen.init_cell_inv {W H : Nat} (g : MapGen) (x y : Nat)
    (hx : x < W) (hy : y < H) (hinv : InitInv W H g) :
    InitInv W H (g.init_cell x y) := by
  obtain ⟨hw, hh, hwf, hbw⟩ := hinv
  have hb : g.in_bounds x y = true := by
    rw [MapGen.in_bounds_iff]
    omega
  unfold MapGen.init_cell
  by_cases hcond : (x = 0 || x = g.width - 1 || y = 0 ||
      y = g.height - 1) = true
  · rw [if_pos hcond]
    refine ⟨hw, hh, MapGen.writeCell_WF hwf _ _, fun x' y' hb' hbd' => ?_⟩
    rw [MapGen.writeCell_in_bounds] at hb'
    rw [MapGen.is_wall_iff, MapGen.writeCell_get g x y CellType.wall hb
      hwf x' y']
    by_cases hxy : x' = (x : Int) ∧ y' = (y : Int)
    · rw [if_pos hxy]
    · rw [if_neg hxy, ← MapGen.is_wall_iff]
      exact hbw x' y' hb' hbd'
  · rw [if_neg hcond]
    dsimp only
    simp only [Bool.or_eq_true, decide_eq_true_eq, not_or] at hcond
    obtain ⟨⟨⟨hx0, hxw⟩, hy0⟩, hyh⟩ := hcond
    have hb1 : ({ g with rng := g.rng.next.2 } : MapGen).in_bounds x y =
        true := by
      rwa [MapGen.in_bounds_congr rfl rfl]
    have hwf1 : ({ g with rng := g.rng.next.2 } : MapGen).WF := hwf
    refine ⟨hw, hh, MapGen.writeCell_WF hwf1 _ _,
      fun x' y' hb' hbd' => ?_⟩
    rw [MapGen.writeCell_in_bounds] at hb'
    have hb'' : g.in_bounds x' y' = true := by
      rwa [MapGen.in_bounds_congr rfl rfl] at hb'
    rw [MapGen.is_wall_iff,
      MapGen.writeCell_get ({ g with rng := g.rng.next.2 } : MapGen)
        x y _ hb1 hwf1 x' y']
    have hxy : ¬(x' = (x : Int) ∧ y' = (y : Int)) := by
      intro ⟨hex, hey⟩
      subst hex hey
      have hbd : (x : Int) = 0 ∨ (x : Int) = (g.width : Int) - 1 ∨
          (y : Int) = 0 ∨ (y : Int) = (g.height : Int) - 1 := hbd'
      rcases hbd with hc | hc | hc | hc <;> omega
    rw [if_neg hxy, ← MapGen.is_wall_iff]
    exact hbw x' y' hb'' hbd'

theorem MapGen.initialize_random_inv (g : MapGen)
    (hinv : InitInv g.width g.height g) :
    InitInv g.width g.height g.initialize_random := by
  unfold MapGen.initialize_random
  refine foldl_preserves_mem (InitInv g.width g.height) _ _
    (fun acc y hy hacc => ?_) _ hinv
  rw [List.mem_range] at hy
  refine foldl_preserves_mem (InitInv g.width g.height) _ _
    (fun acc2 x hx hacc2 => ?_) _ hacc
  rw [List.mem_range] at hx
  exact acc2.init_cell_inv x y hx hy hacc2

/-! ## Border preservation through the remaining pipeline stages -/

theorem ca_new_cells_length (g : MapGen) :
    g.ca_new_cells.length = g.cells.length := by
  rw [ca_new_cells_eq_foldl]
  exact foldl_preserves
    (fun (l : List CellType) => l.length = g.cells.length) (caStep g)
    (fun l p hl => by
      show (caStep g l p).length = g.cells.length
      rw [caStep_length]
      exact hl) _ _ rfl

theorem MapGen.ca_WF {g : MapGen} (hwf : g.WF) :
    g.apply_cellular_automata.WF := by
  show g.ca_new_cells.length = g.width * g.height
  rw [ca_new_cells_length]
  exact hwf

/-- A non-interior cell (in particular every border cell) is unchanged by
one cellular-automata pass. -/
theorem ca_get_noninterior (g : MapGen) (hwf : g.WF) (x y : Int)
    (hni : ¬(1 ≤ x ∧ x ≤ (g.width : Int) - 2 ∧ 1 ≤ y ∧
      y ≤ (g.height : Int) - 2)) :
    g.apply_cellular_automata.get_cell x y = g.get_cell x y := by
  have hL : ∀ p ∈ caPairs g, p.1 < g.width ∧
      p.2 * g.width + p.1 < g.cells.length := by
    intro p hp
    rw [mem_caPairs] at hp
    have hx : p.1 < g.width := by omega
    have hy : p.2 < g.height := by omega
    exact ⟨hx, by rw [hwf]; exact flat_idx_lt hx hy⟩
  have hca : g.apply_cellular_automata.get_cell x y =
      (if g.in_bounds x y then
        g.ca_new_cells.getD (g.idx x y) CellType.wall
      else CellType.wall) := rfl
  by_cases hb : g.in_bounds x y = true
  · rw [hca, if_pos hb, ca_new_cells_eq_foldl]
    have hbb := hb
    rw [MapGen.in_bounds_iff] at hbb
    have hxn : x.toNat < g.width := by omega
    have hidx : g.idx x y = y.toNat * g.width + x.toNat := rfl
    rw [hidx, caFold_getD g (caPairs g) g.cells hL x.toNat y.toNat hxn]
    have hmem : ¬(((x.toNat, y.toNat) : Nat × Nat) ∈ caPairs g) := by
      rw [mem_caPairs]
      intro ⟨m1, m2, m3, m4⟩
      exact hni (by omega)
    rw [if_neg hmem]
    unfold MapGen.get_cell
    rw [if_pos hb]
    rfl
  · rw [hca, if_neg (by simpa using hb)]
    unfold MapGen.get_cell
    rw [if_neg (by simpa using hb)]

theorem MapGen.ca_inv {W H : Nat} {g : MapGen} (hinv : InitInv W H g) :
    InitInv W H g.apply_cellular_automata := by
  obtain ⟨hw, hh, hwf, hbw⟩ := hinv
  refine ⟨hw, hh, MapGen.ca_WF hwf, fun x y hb hbd => ?_⟩
  have hb' : g.in_bounds x y = true := hb
  have hbd' : x = 0 ∨ x = (g.width : Int) - 1 ∨ y = 0 ∨
      y = (g.height : Int) - 1 := hbd
  have hni : ¬(1 ≤ x ∧ x ≤ (g.width : Int) - 2 ∧ 1 ≤ y ∧
      y ≤ (g.height : Int) - 2) := by
    rw [MapGen.in_bounds_iff] at hb'
    rcases hbd' with hc | hc | hc | hc <;> omega
  rw [MapGen.is_wall_iff, ca_get_noninterior g hwf x y hni,
    ← MapGen.is_wall_iff]
  exact hbw x y hb' hbd'

theorem MapGen.ca_iter_inv {W H : Nat} (n : Nat) {g : MapGen}
    (hinv : InitInv W H g) :
    InitInv W H ((List.range n).foldl
      (fun gg _ => gg.apply_cellular_automata) g) :=
  foldl_preserves (InitInv W H) (fun gg _ => gg.apply_cellular_automata)
    (fun gg _ hgg => MapGen.ca_inv hgg) _ _ hinv

theorem MapGen.detectInput_inv (g : MapGen) (w h : Nat) :
    InitInv w h (g.detectInput w h) := by
  have h1 := g.resetState_borderwall w h
  have h2 : InitInv w h (g.resetState w h) :=
    ⟨h1.2.2.1, h1.2.2.2, h1.2.1, h1.1⟩
  have h3 : InitInv w h (g.resetState w h).initialize_random :=
    (g.resetState w h).initialize_random_inv h2
  unfold MapGen.detectInput
  exact MapGen.ca_iter_inv _ h3

/-- Every cell of the back-filled array is the original value or Wall,
and the length is unchanged. -/
theorem backfill_ok (w h : Nat) (cells : List CellType) (rm : List Int)
    (rid : Int) :
    (backfillRoom w h cells rm rid).1.length = cells.length ∧
      ∀ i : Nat, (backfillRoom w h cells rm rid).1.getD i CellType.wall =
          cells.getD i CellType.wall ∨
        (backfillRoom w h cells rm rid).1.getD i CellType.wall =
          CellType.wall := by
  unfold backfillRoom
  refine foldl_preserves (fun (p : List CellType × List Int) =>
      p.1.length = cells.length ∧ ∀ i : Nat,
        p.1.getD i CellType.wall = cells.getD i CellType.wall ∨
        p.1.getD i CellType.wall = CellType.wall) _
    (fun p ry hp => ?_) _ _ ⟨rfl, fun i => Or.inl rfl⟩
  refine foldl_preserves (fun (p : List CellType × List Int) =>
      p.1.length = cells.length ∧ ∀ i : Nat,
        p.1.getD i CellType.wall = cells.getD i CellType.wall ∨
        p.1.getD i CellType.wall = CellType.wall) _
    (fun p2 rx hp2 => ?_) _ _ hp
  dsimp only
  split
  · refine ⟨?_, fun i => ?_⟩
    · dsimp only
      rw [List.length_set]
      exact hp2.1
    · dsimp only
      by_cases hi : ry * w + rx = i
      · subst hi
        by_cases hlt : ry * w + rx < p2.1.length
        · exact Or.inr (List.getD_set_eq' _ _ _ _ hlt)
        · refine Or.inr ?_
          rw [List.getD_eq_default]
          rw [List.length_set]
          omega
      · rw [List.getD_set_ne' _ _ _ _ _ hi]
        exact hp2.2 i
  · exact hp2

/-- Replacing the cell array by one that is pointwise old-or-Wall keeps
every border cell Wall. -/
theorem borderwall_of_backok {g : MapGen} {cs : List CellType}
    (hpt : ∀ i, cs.getD i CellType.wall = g.cells.getD i CellType.wall ∨
      cs.getD i CellType.wall = CellType.wall)
    (hbw : BorderWall g) : BorderWall { g with cells := cs } := by
  intro x y hb hbd
  have hb' : g.in_bounds x y = true := hb
  have hbd' : x = 0 ∨ x = (g.width : Int) - 1 ∨ y = 0 ∨
      y = (g.height : Int) - 1 := hbd
  have hwall := hbw x y hb' hbd'
  rw [MapGen.is_wall_iff] at hwall ⊢
  unfold MapGen.get_cell at hwall ⊢
  rw [if_pos hb'] at hwall
  rw [if_pos hb]
  rcases hpt (g.idx x y) with hc | hc
  · exact hc.trans hwall
  · exact hc

theorem detectCell_inv {W H : Nat} (st : DetectState) (x y : Nat)
    (hinv : InitInv W H st.g) : InitInv W H (detectCell st x y).g := by
  obtain ⟨hw, hh, hwf, hbw⟩ := hinv
  unfold detectCell
  split
  · dsimp only
    split
    · exact ⟨hw, hh, hwf, fun x' y' hb hbd => hbw x' y' hb hbd⟩
    · refine ⟨hw, hh, ?_, ?_⟩
      · show (backfillRoom st.g.width st.g.height st.g.cells
          (st.g.flood_fill_room (x : Int) (y : Int) st.room_id
            st.room_map) st.room_id).1.length = st.g.width * st.g.height
        rw [(backfill_ok st.g.width st.g.height st.g.cells
          (st.g.flood_fill_room (x : Int) (y : Int) st.room_id
            st.room_map) st.room_id).1]
        exact hwf
      · exact borderwall_of_backok
          (backfill_ok st.g.width st.g.height st.g.cells
            (st.g.flood_fill_room (x : Int) (y : Int) st.room_id
              st.room_map) st.room_id).2 hbw
  · exact ⟨hw, hh, hwf, hbw⟩

theorem MapGen.detect_rooms_inv {W H : Nat} {g : MapGen}
    (hinv : InitInv W H g) : InitInv W H g.detect_rooms := by
  unfold MapGen.detect_rooms
  dsimp only
  have hst : InitInv W H (((List.range g.height).foldl (fun a (y : Nat) =>
      (List.range g.width).foldl (fun a2 (x : Nat) => detectCell a2 x y) a)
      (⟨g, List.replicate (g.width * g.height) (-1), 0⟩ :
        DetectState)).g) := by
    refine foldl_preserves (fun (st : DetectState) => InitInv W H st.g) _
      (fun st y hs => ?_) _ _ hinv
    exact foldl_preserves (fun (st : DetectState) => InitInv W H st.g) _
      (fun st2 x hs2 => detectCell_inv st2 x y hs2) _ _ hs
  split
  · exact hst
  · exact ⟨hst.1, hst.2.1, hst.2.2.1,
      fun x y hb hbd => hst.2.2.2 x y hb hbd⟩

/-! ## The best-pair scan of `connect_rooms` -/

/-- One candidate comparison of the best-pair scan (the inner `j` loop
body of `connect_rooms`). -/
def bpInner (g : MapGen) (connected : List Bool) (i : Nat)
    (b2 : Option (Frac × Nat × Nat)) (j : Nat) :
    Option (Frac × Nat × Nat) :=
  if connected.getD j false then b2
  else
    let ri := g.rooms.getD i default
    let rj := g.rooms.getD j default
    let dx := ri.center.x - rj.center.x
    let dy := ri.center.y - rj.center.y
    let dist := dx * dx + dy * dy
    match b2 with
    | none => some (dist, i, j)
    | some (bd, _, _) => if Frac.blt dist bd then some (dist, i, j) else b2

/-- The outer `i` loop body of the best-pair scan. -/
def bpOuter (g : MapGen) (connected : List Bool)
    (best : Option (Frac × Nat × Nat)) (i : Nat) :
    Option (Frac × Nat × Nat) :=
  if !(connected.getD i false) then best
  else (List.range g.rooms.length).foldl (bpInner g connected i) best

theorem findBestPair_eq (g : MapGen) (connected : List Bool) :
    g.findBestPair connected =
      (List.range g.rooms.length).foldl (bpOuter g connected) none := rfl

/-- Soundness predicate of the scan: any returned pair is a valid
(connected, unconnected) index pair. -/
def BPSound (g : MapGen) (connected : List Bool)
    (b : Option (Frac × Nat × Nat)) : Prop :=
  ∀ d i j, b = some (d, i, j) → i < g.rooms.length ∧
    j < g.rooms.length ∧ connected.getD i false = true ∧
    connected.getD j false = false

theorem bpInner_sound (g : MapGen) (connected : List Bool) (i : Nat)
    (hi : i < g.rooms.length) (hci : connected.getD i false = true)
    (b : Option (Frac × Nat × Nat)) (j : Nat) (hj : j < g.rooms.length)
    (hb : BPSound g connected b) :
    BPSound g connected (bpInner g connected i b j) := by
  unfold bpInner
  split
  · exact hb
  · next hcj =>
    rw [Bool.not_eq_true] at hcj
    dsimp only
    cases b with
    | none =>
      intro d' i' j' he
      simp only [Option.some.injEq, Prod.mk.injEq] at he
      obtain ⟨-, hi', hj'⟩ := he
      subst hi' hj'
      exact ⟨hi, hj, hci, hcj⟩
    | some v =>
      obtain ⟨bd, bi0, bj0⟩ := v
      dsimp only
      split
      · intro d' i' j' he
        simp only [Option.some.injEq, Prod.mk.injEq] at he
        obtain ⟨-, hi', hj'⟩ := he
        subst hi' hj'
        exact ⟨hi, hj, hci, hcj⟩
      · exact hb

theorem bpOuter_sound (g : MapGen) (connected : List Bool)
    (b : Option (Frac × Nat × Nat)) (i : Nat) (hi : i < g.rooms.length)
    (hb : BPSound g connected b) :
    BPSound g connected (bpOuter g connected b i) := by
  unfold bpOuter
  split
  · exact hb
  · next hci =>
    have hci' : connected.getD i false = true := by
      revert hci
      cases connected.getD i false <;> simp
    refine foldl_preserves_mem (BPSound g connected) _
      (List.range g.rooms.length) (fun b2 j hj hb2 => ?_) b hb
    rw [List.mem_range] at hj
    exact bpInner_sound g connected i hi hci' b2 j hj hb2

theorem MapGen.findBestPair_sound (g : MapGen) (connected : List Bool)
    (d : Frac) (bi bj : Nat)
    (h : g.findBestPair connected = some (d, bi, bj)) :
    bi < g.rooms.length ∧ bj < g.rooms.length ∧
      connected.getD bi false = true ∧
      connected.getD bj false = false := by
  have hs : BPSound g connected ((List.range g.rooms.length).foldl
      (bpOuter g connected) none) :=
    foldl_preserves_mem (BPSound g connected) (bpOuter g connected) _
      (fun b i hi hb => bpOuter_sound g connected b i
        (List.mem_range.mp hi) hb) none (fun d' i' j' he => by cases he)
  rw [findBestPair_eq] at h
  exact hs d bi bj h

/-! ## Corridor carving keeps the border when centroids stay 3 cells in -/

/-- The amended centroid margin: every room centroid cell is at least 3
cells from every border. -/
def Margin (W H : Nat) (rooms : List Room) : Prop :=
  ∀ r ∈ rooms, 3 ≤ r.cellX ∧ r.cellX ≤ (W : Int) - 4 ∧
    3 ≤ r.cellY ∧ r.cellY ≤ (H : Int) - 4

theorem carve_borderwall {g : MapGen} (hwf : g.WF) (hbw : BorderWall g)
    (ps : List (Int × Int))
    (hint : ∀ p ∈ ps, 1 ≤ p.1 ∧ p.1 ≤ (g.width : Int) - 2 ∧
      1 ≤ p.2 ∧ p.2 ≤ (g.height : Int) - 2) :
    BorderWall (carveFold g ps) := by
  intro x y hb hbd
  have hb' : g.in_bounds x y = true := by
    rwa [MapGen.in_bounds_congr (carveFold_width g ps)
      (carveFold_height g ps)] at hb
  have hbd' : x = 0 ∨ x = (g.width : Int) - 1 ∨ y = 0 ∨
      y = (g.height : Int) - 1 := by
    rwa [carveFold_width, carveFold_height] at hbd
  have hne : ¬((x, y) ∈ ps ∧ g.in_bounds x y = true) := by
    intro ⟨hmem, hbm⟩
    obtain ⟨h1, h2, h3, h4⟩ := hint (x, y) hmem
    have h1' : 1 ≤ x := h1
    have h2' : x ≤ (g.width : Int) - 2 := h2
    have h3' : 1 ≤ y := h3
    have h4' : y ≤ (g.height : Int) - 2 := h4
    rcases hbd' with hc | hc | hc | hc <;> omega
  rw [MapGen.is_wall_iff, carveFold_get ps g hwf x y, if_neg hne,
    ← MapGen.is_wall_iff]
  exact hbw x y hb' hbd'

theorem carve_inv {W H : Nat} {g : MapGen} (hinv : InitInv W H g)
    (ps : List (Int × Int))
    (hint : ∀ p ∈ ps, 1 ≤ p.1 ∧ p.1 ≤ (W : Int) - 2 ∧ 1 ≤ p.2 ∧
      p.2 ≤ (H : Int) - 2) :
    InitInv W H (carveFold g ps) := by
  obtain ⟨hw, hh, hwf, hbw⟩ := hinv
  refine ⟨(carveFold_width g ps).trans hw, (carveFold_height g ps).trans hh,
    carveFold_WF hwf ps, carve_borderwall hwf hbw ps ?_⟩
  intro p hp
  rw [hw, hh]
  exact hint p hp

theorem MapGen.create_corridor_inv {W H : Nat} {g : MapGen} {a b : Room}
    (hinv : InitInv W H g)
    (ha : 3 ≤ a.cellX ∧ a.cellX ≤ (W : Int) - 4 ∧ 3 ≤ a.cellY ∧
      a.cellY ≤ (H : Int) - 4)
    (hb : 3 ≤ b.cellX ∧ b.cellX ≤ (W : Int) - 4 ∧ 3 ≤ b.cellY ∧
      b.cellY ≤ (H : Int) - 4) :
    InitInv W H (g.create_corridor a b) := by
  obtain ⟨ha1, ha2, ha3, ha4⟩ := ha
  obtain ⟨hb1, hb2, hb3, hb4⟩ := hb
  have hinv1 : InitInv W H ({ g with rng := g.rng.next.2 } : MapGen) :=
    ⟨hinv.1, hinv.2.1, hinv.2.2.1,
      fun x y hbb hbd => hinv.2.2.2 x y hbb hbd⟩
  rw [MapGen.create_corridor_eq]
  split
  · refine carve_inv (carve_inv hinv1 _ fun p hp => ?_) _ fun p hp => ?_
    · rw [mem_bandH] at hp
      obtain ⟨hp1, hp2, hp3, hp4⟩ := hp
      refine ⟨?_, ?_, ?_, ?_⟩ <;> omega
    · rw [mem_bandV] at hp
      obtain ⟨hp1, hp2, hp3, hp4⟩ := hp
      refine ⟨?_, ?_, ?_, ?_⟩ <;> omega
  · refine carve_inv (carve_inv hinv1 _ fun p hp => ?_) _ fun p hp => ?_
    · rw [mem_bandV] at hp
      obtain ⟨hp1, hp2, hp3, hp4⟩ := hp
      refine ⟨?_, ?_, ?_, ?_⟩ <;> omega
    · rw [mem_bandH] at hp
      obtain ⟨hp1, hp2, hp3, hp4⟩ := hp
      refine ⟨?_, ?_, ?_, ?_⟩ <;> omega

theorem MapGen.connect_loop_inv {W H : Nat} (fuel : Nat) :
    ∀ (g : MapGen) (connected : List Bool) (cnt : Nat),
      InitInv W H g → Margin W H g.rooms →
      InitInv W H (g.connect_loop connected cnt fuel) := by
  induction fuel with
  | zero =>
    intro g c cnt hinv _
    exact hinv
  | succ fuel ih =>
    intro g c cnt hinv hm
    show InitInv W H (MapGen.connect_loop g c cnt (fuel + 1))
    unfold MapGen.connect_loop
    split
    · split
      · rename_i d bi bj heq
        have hs := g.findBestPair_sound c d bi bj heq
        have ha := hm _ (getD_mem_of_lt g.rooms bi default hs.1)
        have hb := hm _ (getD_mem_of_lt g.rooms bj default hs.2.1)
        have hcor : InitInv W H (g.create_corridor
            (g.rooms.getD bi default) (g.rooms.getD bj default)) :=
          MapGen.create_corridor_inv hinv ha hb
        have hrooms := g.create_corridor_rooms (g.rooms.getD bi default)
          (g.rooms.getD bj default)
        refine ih _ _ _ hcor ?_
        rw [hrooms]
        exact hm
      · exact hinv
    · exact hinv

theorem MapGen.connect_rooms_inv {W H : Nat} {g : MapGen}
    (hinv : InitInv W H g) (hm : Margin W H g.rooms) :
    InitInv W H g.connect_rooms := by
  unfold MapGen.connect_rooms
  split
  · exact hinv
  · exact MapGen.connect_loop_inv _ _ _ _ hinv hm

/-! ## Spawn and prop placement keep the border: all writes hit floor -/

theorem mem_spawnCandidates {g : MapGen} {room : Room} {p : Int × Int}
    (hp : p ∈ g.spawnCandidates room) :
    g.is_floor p.1 p.2 = true ∧ g.count_wall_neighbors p.1 p.2 = 0 := by
  unfold MapGen.spawnCandidates at hp
  rw [List.mem_flatMap] at hp
  obtain ⟨y, hy, hp⟩ := hp
  rw [List.mem_filterMap] at hp
  obtain ⟨x, hx, hxp⟩ := hp
  by_cases hc : (g.is_floor x y && g.count_wall_neighbors x y == 0) =
      true
  · rw [if_pos hc] at hxp
    have hpe : p = (x, y) := by
      injection hxp with h
      exact h.symm
    subst hpe
    rw [Bool.and_eq_true] at hc
    exact ⟨hc.1, by simpa using hc.2⟩
  · rw [if_neg hc] at hxp
    cases hxp

theorem rng_inv {W H : Nat} {g : MapGen} (hinv : InitInv W H g)
    (r : Rng) : InitInv W H ({ g with rng := r } : MapGen) :=
  ⟨hinv.1, hinv.2.1, hinv.2.2.1, fun a b hb hbd => hinv.2.2.2 a b hb hbd⟩

/-- Writing any tag onto a floor cell keeps every border cell Wall: a
floor cell is never a border cell while the border invariant holds. -/
theorem borderwall_write_floor {g : MapGen} (hwf : g.WF)
    (hbw : BorderWall g) {x0 y0 : Int} (hf : g.is_floor x0 y0 = true)
    (t : CellType) : BorderWall (g.writeCell (g.idx x0 y0) t) := by
  intro x y hb hbd
  have hb0 : g.in_bounds x0 y0 = true := is_floor_in_bounds g x0 y0 hf
  have hb' : g.in_bounds x y = true := by
    rwa [MapGen.writeCell_in_bounds] at hb
  have hbd' : x = 0 ∨ x = (g.width : Int) - 1 ∨ y = 0 ∨
      y = (g.height : Int) - 1 := hbd
  rw [MapGen.is_wall_iff, MapGen.writeCell_get g x0 y0 t hb0 hwf x y]
  have hxy : ¬(x = x0 ∧ y = y0) := by
    intro ⟨hex, hey⟩
    have hwall := hbw x y hb' hbd'
    rw [MapGen.is_wall_iff] at hwall
    rw [MapGen.is_floor_iff, ← hex, ← hey] at hf
    rcases hf with hF | hF | hF <;> rw [hwall] at hF <;>
      exact absurd hF (by decide)
  rw [if_neg hxy, ← MapGen.is_wall_iff]
  exact hbw x y hb' hbd'

theorem write_floor_inv {W H : Nat} {g : MapGen} (hinv : InitInv W H g)
    {x0 y0 : Int} (hf : g.is_floor x0 y0 = true) (t : CellType) :
    InitInv W H (g.writeCell (g.idx x0 y0) t) :=
  ⟨hinv.1, hinv.2.1, MapGen.writeCell_WF hinv.2.2.1 _ _,
    borderwall_write_floor hinv.2.2.1 hinv.2.2.2 hf t⟩

theorem spawn_write_inv {W H : Nat} {gg : MapGen} (hinv : InitInv W H gg)
    (sp : SpawnPoint) (r : Rng) (c : Int × Int)
    (hf : gg.is_floor c.1 c.2 = true) :
    InitInv W H
      (({ gg with spawns := gg.spawns ++ [sp], rng := r } :
        MapGen).writeCell
        (({ gg with spawns := gg.spawns ++ [sp], rng := r } :
          MapGen).idx c.1 c.2) CellType.spawn) := by
  have hinv1 : InitInv W H ({ gg with
      spawns := gg.spawns ++ [sp], rng := r } : MapGen) :=
    ⟨hinv.1, hinv.2.1, hinv.2.2.1,
      fun a b hb hbd => hinv.2.2.2 a b hb hbd⟩
  have hf1 : ({ gg with spawns := gg.spawns ++ [sp], rng := r } :
      MapGen).is_floor c.1 c.2 = true := hf
  exact write_floor_inv hinv1 hf1 CellType.spawn

/-- One iteration of the spawn-placement loop preserves the invariant. -/
theorem spawn_step_inv {W H : Nat} {gg : MapGen} (hinv : InitInv W H gg)
    (room : Room) (rid : Nat) :
    InitInv W H
      (if (gg.spawnCandidates room).isEmpty then gg
       else
        let p1 := gg.rng.next
        let c := (gg.spawnCandidates room).getD
          (p1.1 % (gg.spawnCandidates room).length) (0, 0)
        let p2 := p1.2.next
        let pos := gg.cell_to_world c.1 c.2
        let spawn : SpawnPoint :=
          { position := ⟨pos.x, 0, pos.z⟩,
            rotation := ⟨(p2.1 % 1000 : Int), 1000⟩,
            room_id := (rid : Int) }
        let gg1 : MapGen := { gg with
          spawns := gg.spawns ++ [spawn], rng := p2.2 }
        gg1.writeCell (gg1.idx c.1 c.2) CellType.spawn) := by
  split
  · exact hinv
  · next hne =>
    dsimp only
    have hne' : gg.spawnCandidates room ≠ [] := by
      intro hc
      exact hne (by rw [hc]; rfl)
    have hlen : 0 < (gg.spawnCandidates room).length :=
      Nat.pos_of_ne_zero
        (fun h0 => hne' (List.eq_nil_of_length_eq_zero h0))
    have hmem : (gg.spawnCandidates room).getD
        (gg.rng.next.1 % (gg.spawnCandidates room).length) (0, 0) ∈
        gg.spawnCandidates room :=
      getD_mem_of_lt _ _ _ (Nat.mod_lt _ hlen)
    have hfc := mem_spawnCandidates hmem
    exact spawn_write_inv hinv _ _ _ hfc.1

theorem MapGen.place_spawns_inv {W H : Nat} {g : MapGen}
    (hinv : InitInv W H g) (count : Nat) :
    InitInv W H (g.place_spawns count) := by
  unfold MapGen.place_spawns
  split
  · exact hinv
  · dsimp only
    refine foldl_preserves (InitInv W H) _ (fun gg i hgg => ?_) _ _
      (rng_inv hinv _)
    exact spawn_step_inv hgg _ _

theorem prop_write_inv {W H : Nat} {gg : MapGen} (hinv : InitInv W H gg)
    (pr : PropPlacement) (r : Rng) (x y : Int)
    (hf : gg.is_floor x y = true) :
    InitInv W H
      (({ gg with props := gg.props ++ [pr], rng := r } :
        MapGen).writeCell
        (({ gg with props := gg.props ++ [pr], rng := r } :
          MapGen).idx x y) CellType.prop) := by
  have hinv1 : InitInv W H ({ gg with
      props := gg.props ++ [pr], rng := r } : MapGen) :=
    ⟨hinv.1, hinv.2.1, hinv.2.2.1,
      fun a b hb hbd => hinv.2.2.2 a b hb hbd⟩
  have hf1 : ({ gg with props := gg.props ++ [pr], rng := r } :
      MapGen).is_floor x y = true := hf
  exact write_floor_inv hinv1 hf1 CellType.prop

/-- The guarded prop write at one scan cell preserves the invariant,
whatever the adjacent-floor count is. -/
theorem prop_branch_inv {W H : Nat} {g1 : MapGen} (hinv : InitInv W H g1)
    (x y : Int) (hf : g1.is_floor x y = true) (n : Nat)
    (pr : PropPlacement) (r : Rng) :
    InitInv W H (if 2 ≤ n then
        ({ g1 with props := g1.props ++ [pr], rng := r } :
          MapGen).writeCell
          (({ g1 with props := g1.props ++ [pr], rng := r } :
            MapGen).idx x y) CellType.prop
      else g1) := by
  split
  · exact prop_write_inv hinv pr r x y hf
  · exact hinv

theorem MapGen.prop_scan_cell_inv {W H : Nat} {gg : MapGen}
    (hinv : InitInv W H gg) (x y : Nat) :
    InitInv W H (gg.prop_scan_cell x y) := by
  unfold MapGen.prop_scan_cell
  split
  · exact hinv
  · next hfl =>
    have hf : gg.is_floor (x : Int) (y : Int) = true := by
      revert hfl
      cases gg.is_floor (x : Int) (y : Int) <;> simp
    dsimp only
    split
    · exact hinv
    · split
      · have hf1 : ({ gg with rng := gg.rng.next.2 } :
            MapGen).is_floor (x : Int) (y : Int) = true := hf
        exact prop_branch_inv (rng_inv hinv _) _ _ hf1 _ _ _
      · exact rng_inv hinv _

theorem MapGen.column_pass_inv {W H : Nat} {gg : MapGen}
    (hinv : InitInv W H gg) (room : Room) :
    InitInv W H (gg.column_pass room) := by
  unfold MapGen.column_pass
  split
  · dsimp only
    refine foldl_preserves (InitInv W H) _ (fun g2 k hg2 => ?_) _ _ hinv
    dsimp only
    split
    · next hc =>
      rw [Bool.and_eq_true] at hc
      exact prop_write_inv (rng_inv hg2 _) _ _ _ _ hc.1
    · exact rng_inv hg2 _
  · exact hinv

theorem MapGen.place_props_inv {W H : Nat} {g : MapGen}
    (hinv : InitInv W H g) : InitInv W H g.place_props := by
  unfold MapGen.place_props
  dsimp only
  refine foldl_preserves (InitInv W H) _ (fun acc room hacc =>
    MapGen.column_pass_inv hacc room) _ _ ?_
  refine foldl_preserves (InitInv W H) _ (fun acc y hacc => ?_) _ _ hinv
  exact foldl_preserves (InitInv W H) _ (fun acc2 x hacc2 =>
    MapGen.prop_scan_cell_inv hacc2 x y) _ _ hacc

/-- C2 (amended). Every border cell of a generated grid is Wall provided
every detected room centroid cell keeps a margin of 3 cells from every
border (so that the half-width-2 corridor bands, which `create_corridor`
clips only against the full grid, never touch the border). The original
claim, without the margin proviso, is refuted by
`c2_border_counterexample`. -/
theorem c2_border_amended (g : MapGen) (w h : Nat)
    (hm : ∀ r ∈ (g.generate w h).rooms, 3 ≤ r.cellX ∧
      r.cellX ≤ (w : Int) - 4 ∧ 3 ≤ r.cellY ∧ r.cellY ≤ (h : Int) - 4)
    (x y : Int) (hb : (g.generate w h).in_bounds x y = true)
    (hbd : x = 0 ∨ x = (w : Int) - 1 ∨ y = 0 ∨ y = (h : Int) - 1) :
    (g.generate w h).is_wall x y = true := by
  have hd := MapGen.detect_rooms_inv (g.detectInput_inv w h)
  have hrooms : (g.generate w h).rooms =
      (g.detectInput w h).detect_rooms.rooms := by
    rw [MapGen.generate_eq_stages, MapGen.place_props_rooms,
      MapGen.place_spawns_rooms, MapGen.connect_rooms_rooms]
  have hm' : Margin w h (g.detectInput w h).detect_rooms.rooms := by
    intro r hr
    exact hm r (by rw [hrooms]; exact hr)
  have hp := MapGen.place_props_inv
    (MapGen.place_spawns_inv (MapGen.connect_rooms_inv hd hm') 4)
  obtain ⟨hw, hh, hwf, hbw⟩ := hp
  rw [MapGen.generate_eq_stages]
  refine hbw x y ?_ ?_
  · rw [MapGen.generate_eq_stages] at hb
    exact hb
  · rw [hw, hh]
    exact hbd

/-- Witness for the amended C2: an all-wall 5×5 run (fill ratio 1) has
no rooms, the margin proviso holds vacuously, and the corner is Wall. -/
theorem c2_border_amended_witness :
    (∀ r ∈ ((MapGen.newWith (fun _ => 0) 1000 0 1 4).generate 5 5).rooms,
        3 ≤ r.cellX ∧ r.cellX ≤ ((5 : Nat) : Int) - 4 ∧ 3 ≤ r.cellY ∧
        r.cellY ≤ ((5 : Nat) : Int) - 4) ∧
    ((MapGen.newWith (fun _ => 0) 1000 0 1 4).generate 5 5).in_bounds 0 0
      = true ∧
    ((MapGen.newWith (fun _ => 0) 1000 0 1 4).generate 5 5).is_wall 0 0
      = true :=
  ⟨by decide, by decide,
    c2_border_amended (MapGen.newWith (fun _ => 0) 1000 0 1 4) 5 5
      (by decide) 0 0 (by decide) (Or.inl rfl)⟩

/-! ## C5: spawn validity -/

theorem foldl_spawns {γ : Type} (l : List γ) (g0 : MapGen)
    (f : MapGen → γ → MapGen)
    (hf : ∀ gg c, (f gg c).spawns = gg.spawns) :
    (l.foldl f g0).spawns = g0.spawns := by
  induction l generalizing g0 with
  | nil => rfl
  | cons c cs ih => rw [List.foldl_cons, ih, hf]

theorem MapGen.set_cell_spawns (g : MapGen) (x y : Int) (t : CellType) :
    (g.set_cell x y t).spawns = g.spawns := by
  unfold MapGen.set_cell
  split <;> rfl

theorem MapGen.create_corridor_spawns (g : MapGen) (a b : Room) :
    (g.create_corridor a b).spawns = g.spawns := by
  unfold MapGen.create_corridor
  dsimp only
  split
  · rw [foldl_spawns _ _ _ (fun gg y => foldl_spawns _ _ _
      (fun gg2 w => gg2.set_cell_spawns _ _ _)),
      foldl_spawns _ _ _ (fun gg x => foldl_spawns _ _ _
      (fun gg2 w => gg2.set_cell_spawns _ _ _))]
  · rw [foldl_spawns _ _ _ (fun gg x => foldl_spawns _ _ _
      (fun gg2 w => gg2.set_cell_spawns _ _ _)),
      foldl_spawns _ _ _ (fun gg y => foldl_spawns _ _ _
      (fun gg2 w => gg2.set_cell_spawns _ _ _))]

theorem MapGen.connect_loop_spawns (fuel : Nat) :
    ∀ (g : MapGen) (connected : List Bool) (cnt : Nat),
      (g.connect_loop connected cnt fuel).spawns = g.spawns := by
  induction fuel with
  | zero =>
    intro g connected cnt
    rfl
  | succ fuel ih =>
    intro g connected cnt
    show (MapGen.connect_loop g connected cnt (fuel + 1)).spawns = g.spawns
    unfold MapGen.connect_loop
    split
    · split
      · rw [ih, MapGen.create_corridor_spawns]
      · rfl
    · rfl

theorem MapGen.connect_rooms_spawns (g : MapGen) :
    g.connect_rooms.spawns = g.spawns := by
  unfold MapGen.connect_rooms
  split
  · rfl
  · rw [MapGen.connect_loop_spawns]

theorem MapGen.init_cell_spawns (g : MapGen) (x y : Nat) :
    (g.init_cell x y).spawns = g.spawns := by
  unfold MapGen.init_cell
  split <;> rfl

theorem MapGen.initialize_random_spawns (g : MapGen) :
    g.initialize_random.spawns = g.spawns := by
  unfold MapGen.initialize_random
  refine foldl_spawns _ _ _ (fun gg y => ?_)
  exact foldl_spawns _ _ _ (fun gg2 x => gg2.init_cell_spawns x y)

theorem detectCell_spawns (st : DetectState) (x y : Nat) :
    (detectCell st x y).g.spawns = st.g.spawns := by
  unfold detectCell
  split
  · dsimp only
    split
    · rfl
    · rfl
  · rfl

theorem MapGen.detect_rooms_spawns (g : MapGen) :
    g.detect_rooms.spawns = g.spawns := by
  unfold MapGen.detect_rooms
  dsimp only
  have hst : (((List.range g.height).foldl (fun a (y : Nat) =>
      (List.range g.width).foldl (fun a2 (x : Nat) => detectCell a2 x y) a)
      (⟨g, List.replicate (g.width * g.height) (-1), 0⟩ :
        DetectState)).g).spawns = g.spawns := by
    refine foldl_preserves
      (fun (st : DetectState) => st.g.spawns = g.spawns) _
      (fun st y hs => ?_) _ _ rfl
    refine foldl_preserves
      (fun (st : DetectState) => st.g.spawns = g.spawns) _
      (fun st2 x hs2 => ?_) _ _ hs
    show (detectCell st2 x y).g.spawns = g.spawns
    rw [detectCell_spawns]
    exact hs2
  split
  · exact hst
  · exact hst

theorem MapGen.detectInput_spawns (g : MapGen) (w h : Nat) :
    (g.detectInput w h).spawns = [] := by
  unfold MapGen.detectInput
  rw [foldl_spawns (List.range
      (g.resetState w h).initialize_random.smoothing_iterations)
      (g.resetState w h).initialize_random
      (fun gg _ => gg.apply_cellular_automata) (fun gg i => rfl),
    MapGen.initialize_random_spawns]
  rfl

theorem MapGen.create_corridor_WF {g : MapGen} (hwf : g.WF) (a b : Room) :
    (g.create_corridor a b).WF := by
  rw [MapGen.create_corridor_eq]
  have hwf1 : ({ g with rng := g.rng.next.2 } : MapGen).WF := hwf
  split
  · exact carveFold_WF (carveFold_WF hwf1 _) _
  · exact carveFold_WF (carveFold_WF hwf1 _) _

theorem MapGen.connect_loop_WF (fuel : Nat) :
    ∀ (g : MapGen) (connected : List Bool) (cnt : Nat), g.WF →
      (g.connect_loop connected cnt fuel).WF := by
  induction fuel with
  | zero =>
    intro g connected cnt hwf
    exact hwf
  | succ fuel ih =>
    intro g connected cnt hwf
    show (MapGen.connect_loop g connected cnt (fuel + 1)).WF
    unfold MapGen.connect_loop
    split
    · split
      · exact ih _ _ _ (MapGen.create_corridor_WF hwf _ _)
      · exact hwf
    · exact hwf

theorem MapGen.connect_rooms_WF {g : MapGen} (hwf : g.WF) :
    g.connect_rooms.WF := by
  unfold MapGen.connect_rooms
  split
  · exact hwf
  · exact MapGen.connect_loop_WF _ _ _ _ hwf

/-- Spawn validity in a given state: every recorded spawn position is the
world position of a walkable cell with zero wall neighbours. -/
def SpawnsOK (gg : MapGen) : Prop :=
  ∀ sp ∈ gg.spawns, ∃ cx cy : Int,
    sp.position = ⟨(gg.cell_to_world cx cy).x, 0,
      (gg.cell_to_world cx cy).z⟩ ∧
    gg.is_floor cx cy = true ∧ gg.count_wall_neighbors cx cy = 0

theorem SpawnsOK.pres {g g' : MapGen} (h : Pres g g')
    (hsp : g'.spawns = g.spawns) (hok : SpawnsOK g) : SpawnsOK g' := by
  intro sp hmem
  rw [hsp] at hmem
  obtain ⟨cx, cy, hpos, hfl, hcnt⟩ := hok sp hmem
  have hcw : g'.cell_to_world cx cy = g.cell_to_world cx cy := by
    unfold MapGen.cell_to_world
    rw [h.width_eq, h.height_eq, h.cs_eq]
  refine ⟨cx, cy, ?_, h.floor_mono _ _ hfl, h.count_wall_zero _ _ hcnt⟩
  rw [hcw]
  exact hpos

/-- The record-append step of `place_spawns`, before the cell write. -/
def spawnAppend (gg : MapGen) (cx cy : Int) (rot : Frac) (ridv : Int)
    (r : Rng) : MapGen :=
  { gg with
    spawns := gg.spawns ++
      [{
          position := ⟨(gg.cell_to_world cx cy).x, 0,
            (gg.cell_to_world cx cy).z⟩,
          rotation := rot,
          room_id := ridv }],
    rng := r }

theorem spawn_append_ok {gg : MapGen} (hwf : gg.WF) (hok : SpawnsOK gg)
    {cx cy : Int} (hfl : gg.is_floor cx cy = true)
    (hcnt : gg.count_wall_neighbors cx cy = 0) (rot : Frac) (ridv : Int)
    (r : Rng) :
    ((spawnAppend gg cx cy rot ridv r).writeCell
      ((spawnAppend gg cx cy rot ridv r).idx cx cy) CellType.spawn).WF ∧
    SpawnsOK ((spawnAppend gg cx cy rot ridv r).writeCell
      ((spawnAppend gg cx cy rot ridv r).idx cx cy) CellType.spawn) := by
  have hb : gg.in_bounds cx cy = true := is_floor_in_bounds gg cx cy hfl
  have hb1 : (spawnAppend gg cx cy rot ridv r).in_bounds cx cy = true := hb
  have hwf1 : (spawnAppend gg cx cy rot ridv r).WF := hwf
  have hget := MapGen.writeCell_get (spawnAppend gg cx cy rot ridv r)
    cx cy CellType.spawn hb1 hwf1
  have hpres1 : Pres gg (spawnAppend gg cx cy rot ridv r) :=
    Pres.same rfl rfl rfl rfl rfl
  have hc : ((spawnAppend gg cx cy rot ridv r).writeCell
      ((spawnAppend gg cx cy rot ridv r).idx cx cy)
      CellType.spawn).cells =
      (spawnAppend gg cx cy rot ridv r).cells.set
        ((spawnAppend gg cx cy rot ridv r).idx cx cy) CellType.spawn :=
    rfl
  have hpres : Pres gg ((spawnAppend gg cx cy rot ridv r).writeCell
      ((spawnAppend gg cx cy rot ridv r).idx cx cy) CellType.spawn) :=
    hpres1.trans (Pres.write_nonwall hc rfl rfl rfl rfl hb1 hwf1
      (by decide))
  refine ⟨hpres.WF hwf, ?_⟩
  intro sp hmem
  rcases List.mem_append.mp hmem with hold | hnew
  · obtain ⟨dx, dy, hpos, hflo, hcnt0⟩ := hok sp hold
    have hcw : ((spawnAppend gg cx cy rot ridv r).writeCell
        ((spawnAppend gg cx cy rot ridv r).idx cx cy)
        CellType.spawn).cell_to_world dx dy =
        gg.cell_to_world dx dy := by
      unfold MapGen.cell_to_world
      rw [hpres.width_eq, hpres.height_eq, hpres.cs_eq]
    refine ⟨dx, dy, ?_, hpres.floor_mono _ _ hflo,
      hpres.count_wall_zero _ _ hcnt0⟩
    rw [hcw]
    exact hpos
  · have hspe : sp = {
        position := ⟨(gg.cell_to_world cx cy).x, 0,
          (gg.cell_to_world cx cy).z⟩,
        rotation := rot,
        room_id := ridv } := by
      simpa using hnew
    subst hspe
    have hcw : ((spawnAppend gg cx cy rot ridv r).writeCell
        ((spawnAppend gg cx cy rot ridv r).idx cx cy)
        CellType.spawn).cell_to_world cx cy =
        gg.cell_to_world cx cy := by
      unfold MapGen.cell_to_world
      rw [hpres.width_eq, hpres.height_eq, hpres.cs_eq]
    refine ⟨cx, cy, ?_, ?_, hpres.count_wall_zero _ _ hcnt⟩
    · rw [hcw]
    · rw [MapGen.is_floor_iff, hget cx cy, if_pos ⟨rfl, rfl⟩]
      exact Or.inr (Or.inl rfl)

/-- One iteration of the spawn-placement loop, as a named function. -/
def spawnStep (gg : MapGen) (room : Room) (rid : Nat) : MapGen :=
  if (gg.spawnCandidates room).isEmpty then gg
  else
    let p1 := gg.rng.next
    let c := (gg.spawnCandidates room).getD
      (p1.1 % (gg.spawnCandidates room).length) (0, 0)
    let p2 := p1.2.next
    let pos := gg.cell_to_world c.1 c.2
    let spawn : SpawnPoint :=
      { position := ⟨pos.x, 0, pos.z⟩,
        rotation := ⟨(p2.1 % 1000 : Int), 1000⟩, room_id := (rid : Int) }
    let gg1 : MapGen := { gg with
      spawns := gg.spawns ++ [spawn], rng := p2.2 }
    gg1.writeCell (gg1.idx c.1 c.2) CellType.spawn

theorem spawn_step_ok {gg : MapGen} (hwf : gg.WF) (hok : SpawnsOK gg)
    (room : Room) (rid : Nat) :
    (spawnStep gg room rid).WF ∧ SpawnsOK (spawnStep gg room rid) := by
  unfold spawnStep
  split
  · exact ⟨hwf, hok⟩
  · next hne =>
    dsimp only
    have hne' : gg.spawnCandidates room ≠ [] := fun hc =>
      hne (by rw [hc]; rfl)
    have hlen : 0 < (gg.spawnCandidates room).length :=
      Nat.pos_of_ne_zero
        (fun h0 => hne' (List.eq_nil_of_length_eq_zero h0))
    have hmem : (gg.spawnCandidates room).getD
        (gg.rng.next.1 % (gg.spawnCandidates room).length) (0, 0) ∈
        gg.spawnCandidates room :=
      getD_mem_of_lt _ _ _ (Nat.mod_lt _ hlen)
    exact spawn_append_ok hwf hok (mem_spawnCandidates hmem).1
      (mem_spawnCandidates hmem).2 _ _ _

theorem place_spawns_ok {g : MapGen} (hwf : g.WF) (hok : SpawnsOK g)
    (count : Nat) :
    (g.place_spawns count).WF ∧ SpawnsOK (g.place_spawns count) := by
  unfold MapGen.place_spawns
  split
  · exact ⟨hwf, hok⟩
  · dsimp only
    refine foldl_preserves (fun gg => gg.WF ∧ SpawnsOK gg) _
      (fun gg i hgg => spawn_step_ok hgg.1 hgg.2 _ _) _ _ ?_
    exact ⟨hwf, fun sp hsp => hok sp hsp⟩

/-- The prop write of `place_props`, as a named function. -/
def propWrite (g1 : MapGen) (x y : Int) (pr : PropPlacement) (r : Rng) :
    MapGen :=
  ({ g1 with props := g1.props ++ [pr], rng := r } : MapGen).writeCell
    (({ g1 with props := g1.props ++ [pr], rng := r } : MapGen).idx x y)
    CellType.prop

theorem propWrite_pres {g1 : MapGen} (hwf : g1.WF) {x y : Int}
    (hf : g1.is_floor x y = true) (pr : PropPlacement) (r : Rng) :
    Pres g1 (propWrite g1 x y pr r) ∧
      (propWrite g1 x y pr r).spawns = g1.spawns := by
  have hb : g1.in_bounds x y = true := is_floor_in_bounds g1 x y hf
  have hmid : Pres g1 ({ g1 with
      props := g1.props ++ [pr], rng := r } : MapGen) :=
    Pres.same rfl rfl rfl rfl rfl
  have hb1 : ({ g1 with props := g1.props ++ [pr], rng := r } :
      MapGen).in_bounds x y = true := hb
  have hwf1 : ({ g1 with props := g1.props ++ [pr], rng := r } :
      MapGen).WF := hwf
  have hc : (propWrite g1 x y pr r).cells =
      ({ g1 with props := g1.props ++ [pr], rng := r } :
        MapGen).cells.set
        (({ g1 with props := g1.props ++ [pr], rng := r } :
          MapGen).idx x y) CellType.prop := rfl
  exact ⟨hmid.trans (Pres.write_nonwall hc rfl rfl rfl rfl hb1 hwf1
    (by decide)), rfl⟩

theorem prop_branch_pres {g1 : MapGen} (hwf : g1.WF) {x y : Int}
    (hf : g1.is_floor x y = true) (n : Nat) (pr : PropPlacement)
    (r : Rng) :
    Pres g1 (if 2 ≤ n then propWrite g1 x y pr r else g1) ∧
      (if 2 ≤ n then propWrite g1 x y pr r else g1).spawns =
        g1.spawns := by
  split
  · exact propWrite_pres hwf hf pr r
  · exact ⟨Pres.refl g1, rfl⟩

theorem prop_scan_cell_pres {gg : MapGen} (hwf : gg.WF) (x y : Nat) :
    Pres gg (gg.prop_scan_cell x y) ∧
      (gg.prop_scan_cell x y).spawns = gg.spawns := by
  unfold MapGen.prop_scan_cell
  split
  · exact ⟨Pres.refl gg, rfl⟩
  · next hfl =>
    have hf : gg.is_floor (x : Int) (y : Int) = true := by
      revert hfl
      cases gg.is_floor (x : Int) (y : Int) <;> simp
    dsimp only
    split
    · exact ⟨Pres.refl gg, rfl⟩
    · split
      · have hf1 : ({ gg with rng := gg.rng.next.2 } : MapGen).is_floor
            (x : Int) (y : Int) = true := hf
        have hwf1 : ({ gg with rng := gg.rng.next.2 } : MapGen).WF := hwf
        have hmid : Pres gg ({ gg with rng := gg.rng.next.2 } :
            MapGen) := Pres.same rfl rfl rfl rfl rfl
        exact ⟨hmid.trans (prop_branch_pres hwf1 hf1 _ _ _).1,
          (prop_branch_pres hwf1 hf1 _ _ _).2⟩
      · exact ⟨Pres.same rfl rfl rfl rfl rfl, rfl⟩

theorem column_pass_pres {gg : MapGen} (hwf : gg.WF) (room : Room) :
    Pres gg (gg.column_pass room) ∧
      (gg.column_pass room).spawns = gg.spawns := by
  unfold MapGen.column_pass
  split
  · dsimp only
    refine foldl_preserves
      (fun g2 => Pres gg g2 ∧ g2.spawns = gg.spawns) _
      (fun g2 k hg2 => ?_) _ _ ⟨Pres.refl gg, rfl⟩
    dsimp only
    split
    · next hcond =>
      rw [Bool.and_eq_true] at hcond
      have hg3 : Pres gg ({ g2 with rng := g2.rng.next.2.next.2 } :
          MapGen) := hg2.1.trans (Pres.same rfl rfl rfl rfl rfl)
      have hwf3 : ({ g2 with rng := g2.rng.next.2.next.2 } :
          MapGen).WF := hg2.1.WF hwf
      exact ⟨hg3.trans (propWrite_pres hwf3 hcond.1 _ _).1,
        ((propWrite_pres hwf3 hcond.1 _ _).2).trans hg2.2⟩
    · exact ⟨hg2.1.trans (Pres.same rfl rfl rfl rfl rfl), hg2.2⟩
  · exact ⟨Pres.refl gg, rfl⟩

theorem place_props_pres {g : MapGen} (hwf : g.WF) :
    Pres g g.place_props ∧ g.place_props.spawns = g.spawns := by
  unfold MapGen.place_props
  dsimp only
  have hscan : Pres g ((List.range' 2 (g.height - 4)).foldl
      (fun acc (y : Nat) => (List.range' 2 (g.width - 4)).foldl
        (fun acc2 (x : Nat) => acc2.prop_scan_cell x y) acc) g) ∧
      ((List.range' 2 (g.height - 4)).foldl
      (fun acc (y : Nat) => (List.range' 2 (g.width - 4)).foldl
        (fun acc2 (x : Nat) => acc2.prop_scan_cell x y) acc) g).spawns =
      g.spawns := by
    refine foldl_preserves
      (fun gacc => Pres g gacc ∧ gacc.spawns = g.spawns) _
      (fun acc y hacc => ?_) _ _ ⟨Pres.refl g, rfl⟩
    refine foldl_preserves
      (fun gacc => Pres g gacc ∧ gacc.spawns = g.spawns) _
      (fun acc2 x hacc2 => ?_) _ _ hacc
    exact ⟨hacc2.1.trans (prop_scan_cell_pres (hacc2.1.WF hwf) x y).1,
      ((prop_scan_cell_pres (hacc2.1.WF hwf) x y).2).trans hacc2.2⟩
  refine foldl_preserves
    (fun gacc => Pres g gacc ∧ gacc.spawns = g.spawns) _
    (fun acc room2 hacc => ?_) _ _ hscan
  exact ⟨hacc.1.trans (column_pass_pres (hacc.1.WF hwf) room2).1,
    ((column_pass_pres (hacc.1.WF hwf) room2).2).trans hacc.2⟩

theorem MapGen.generate_spawnsOK (g : MapGen) (w h : Nat) :
    SpawnsOK (g.generate w h) := by
  have hd := MapGen.detect_rooms_inv (g.detectInput_inv w h)
  have hwf4 : ((g.detectInput w h).detect_rooms.connect_rooms).WF :=
    MapGen.connect_rooms_WF hd.2.2.1
  have hsp4 : ((g.detectInput w h).detect_rooms.connect_rooms).spawns =
      [] := by
    rw [MapGen.connect_rooms_spawns, MapGen.detect_rooms_spawns,
      MapGen.detectInput_spawns]
  have hok4 : SpawnsOK ((g.detectInput w h).detect_rooms.connect_rooms)
      := by
    intro sp hsp
    rw [hsp4] at hsp
    cases hsp
  have h5 := place_spawns_ok hwf4 hok4 4
  have h6 := place_props_pres h5.1
  rw [MapGen.generate_eq_stages]
  exact SpawnsOK.pres h6.1 h6.2 h5.2

/-- Counterexample to C5 as literally stated: a run that emits a spawn
whose cell, in the final grid, is tagged Spawn (and so not Floor) — the
placement itself retags the chosen cell, so no emitted spawn ever sits on
a Floor-tagged cell. -/
theorem c5_spawn_counterexample :
    ((MapGen.newWith (fun _ => 0) 0 0 1 4).generate 8 8).spawns ≠ [] ∧
    (((MapGen.newWith (fun _ => 0) 0 0 1 4).generate 8 8).spawns.getD 0
        default).position =
      ⟨(((MapGen.newWith (fun _ => 0) 0 0 1 4).generate
          8 8).cell_to_world 2 2).x, 0,
        (((MapGen.newWith (fun _ => 0) 0 0 1 4).generate
          8 8).cell_to_world 2 2).z⟩ ∧
    ((MapGen.newWith (fun _ => 0) 0 0 1 4).generate 8 8).get_cell 2 2 =
      CellType.spawn ∧
    ((MapGen.newWith (fun _ => 0) 0 0 1 4).generate 8 8).get_cell 2 2 ≠
      CellType.floor :=
  ⟨by decide, by decide, by decide, by decide⟩

/-- C5 (amended). Every emitted spawn point sits at the world position
of a walkable cell (`is_floor`: Floor, Spawn or Prop — the placement
itself retags the cell Spawn, so the strict Floor-tag reading fails)
whose 8-neighbourhood contains zero Wall cells, out-of-bounds counting
as Wall, in the final post-generation grid. -/
theorem c5_spawn_valid (g : MapGen) (w h : Nat) (sp : SpawnPoint)
    (hsp : sp ∈ (g.generate w h).spawns) :
    ∃ cx cy : Int,
      sp.position = ⟨((g.generate w h).cell_to_world cx cy).x, 0,
        ((g.generate w h).cell_to_world cx cy).z⟩ ∧
      (g.generate w h).is_floor cx cy = true ∧
      (g.generate w h).count_wall_neighbors cx cy = 0 :=
  MapGen.generate_spawnsOK g w h sp hsp

/-- Witness for the amended C5 on a concrete all-floor 8×8 run that
emits one spawn. -/
theorem c5_spawn_valid_witness :
    ((MapGen.newWith (fun _ => 0) 0 0 1 4).generate 8 8).spawns.getD 0
        default ∈
      ((MapGen.newWith (fun _ => 0) 0 0 1 4).generate 8 8).spawns ∧
    (∃ cx cy : Int,
      (((MapGen.newWith (fun _ => 0) 0 0 1 4).generate 8 8).spawns.getD
          0 default).position =
        ⟨(((MapGen.newWith (fun _ => 0) 0 0 1 4).generate
            8 8).cell_to_world cx cy).x, 0,
          (((MapGen.newWith (fun _ => 0) 0 0 1 4).generate
            8 8).cell_to_world cx cy).z⟩ ∧
      ((MapGen.newWith (fun _ => 0) 0 0 1 4).generate 8 8).is_floor cx cy
        = true ∧
      ((MapGen.newWith (fun _ => 0) 0 0 1 4).generate
        8 8).count_wall_neighbors cx cy = 0) :=
  ⟨by decide, c5_spawn_valid (MapGen.newWith (fun _ => 0) 0 0 1 4) 8 8 _
    (by decide)⟩

/-! ## C1: floor-connectivity of room centroids -/

/-- One 4-connected step between walkable cells. -/
def floorAdj (G : MapGen) (p q : Int × Int) : Prop :=
  G.is_floor p.1 p.2 = true ∧ G.is_floor q.1 q.2 = true ∧
    (p.1 - q.1).natAbs + (p.2 - q.2).natAbs = 1

/-- Floor-only 4-connected reachability (the relation a flood fill over
floor cells computes). -/
def Reach (G : MapGen) : (Int × Int) → (Int × Int) → Prop :=
  Relation.ReflTransGen (floorAdj G)

theorem floorAdj_symm (G : MapGen) : Symmetric (floorAdj G) := by
  intro p q hpq
  obtain ⟨h1, h2, h3⟩ := hpq
  exact ⟨h2, h1, by omega⟩

theorem reach_symm (G : MapGen) {p q : Int × Int} (h : Reach G p q) :
    Reach G q p :=
  (Relation.ReflTransGen.symmetric (floorAdj_symm G)) h

theorem reach_mono {g g' : MapGen} (h : Pres g g') {p q : Int × Int}
    (hr : Reach g p q) : Reach g' p q :=
  Relation.ReflTransGen.mono (fun a b hab =>
    ⟨h.floor_mono _ _ hab.1, h.floor_mono _ _ hab.2.1, hab.2.2⟩) hr

theorem reach_steps_right (G : MapGen) (y : Int) :
    ∀ (n : Nat) (a b : Int), b = a + n →
      (∀ t : Int, a ≤ t → t ≤ b → G.is_floor t y = true) →
      Reach G (a, y) (b, y) := by
  intro n
  induction n with
  | zero =>
    intro a b hb h
    have hba : b = a := by omega
    subst hba
    exact Relation.ReflTransGen.refl
  | succ n ih =>
    intro a b hb h
    have h1 : Reach G (a, y) (a + n, y) :=
      ih a (a + n) rfl (fun t ht1 ht2 => h t ht1 (by omega))
    refine Relation.ReflTransGen.tail h1
      ⟨h (a + n) (by omega) (by omega), h b (by omega) (by omega), ?_⟩
    show ((a + (n : Int)) - b).natAbs + (y - y).natAbs = 1
    omega

theorem reach_horizontal (G : MapGen) (y a b : Int)
    (h : ∀ t : Int, min a b ≤ t → t ≤ max a b →
      G.is_floor t y = true) :
    Reach G (a, y) (b, y) := by
  rcases le_total a b with hab | hba
  · exact reach_steps_right G y (b - a).toNat a b (by omega)
      (fun t h1 h2 => h t (by omega) (by omega))
  · exact reach_symm G (reach_steps_right G y (a - b).toNat b a (by omega)
      (fun t h1 h2 => h t (by omega) (by omega)))

theorem reach_steps_up (G : MapGen) (x : Int) :
    ∀ (n : Nat) (a b : Int), b = a + n →
      (∀ t : Int, a ≤ t → t ≤ b → G.is_floor x t = true) →
      Reach G (x, a) (x, b) := by
  intro n
  induction n with
  | zero =>
    intro a b hb h
    have hba : b = a := by omega
    subst hba
    exact Relation.ReflTransGen.refl
  | succ n ih =>
    intro a b hb h
    have h1 : Reach G (x, a) (x, a + n) :=
      ih a (a + n) rfl (fun t ht1 ht2 => h t ht1 (by omega))
    refine Relation.ReflTransGen.tail h1
      ⟨h (a + n) (by omega) (by omega), h b (by omega) (by omega), ?_⟩
    show (x - x).natAbs + ((a + (n : Int)) - b).natAbs = 1
    omega

theorem reach_vertical (G : MapGen) (x a b : Int)
    (h : ∀ t : Int, min a b ≤ t → t ≤ max a b →
      G.is_floor x t = true) :
    Reach G (x, a) (x, b) := by
  rcases le_total a b with hab | hba
  · exact reach_steps_up G x (b - a).toNat a b (by omega)
      (fun t h1 h2 => h t (by omega) (by omega))
  · exact reach_symm G (reach_steps_up G x (a - b).toNat b a (by omega)
      (fun t h1 h2 => h t (by omega) (by omega)))

/-! Counting the connected flags. -/

theorem countP_false_replicate (n : Nat) :
    (List.replicate n false).countP (fun b => b) = 0 := by
  induction n with
  | zero => rfl
  | succ n ih =>
    rw [List.replicate_succ, List.countP_cons]
    simp [ih]

theorem getD_replicate_false (n i : Nat) :
    (List.replicate n false).getD i false = false := by
  by_cases h : i < n
  · rw [List.getD_eq_getElem _ _ (by simpa using h)]
    exact List.getElem_replicate ..
  · rw [List.getD_eq_default]
    rw [List.length_replicate]
    omega

theorem getD_true_of_countP_full :
    ∀ l : List Bool, l.countP (fun b => b) = l.length →
      ∀ i : Nat, i < l.length → l.getD i false = true := by
  intro l
  induction l with
  | nil =>
    intro _ i hi
    simp at hi
  | cons a t ih =>
    intro hcnt i hi
    rw [List.countP_cons, List.length_cons] at hcnt
    have hle : t.countP (fun b => b) ≤ t.length :=
      List.countP_le_length _
    by_cases ha : a = true
    · have hone : (if (fun (b : Bool) => b) a = true then 1 else 0) =
          1 := by
        rw [ha]
        rfl
      rw [hone] at hcnt
      have ht : t.countP (fun b => b) = t.length := by omega
      cases i with
      | zero => exact ha
      | succ j =>
        rw [List.length_cons] at hi
        exact ih ht j (by omega)
    · have ha' : a = false := by
        revert ha
        cases a <;> simp
      have hzero : (if (fun (b : Bool) => b) a = true then 1 else 0) =
          0 := by
        rw [ha']
        rfl
      rw [hzero] at hcnt
      omega

theorem exists_false_of_countP_lt :
    ∀ l : List Bool, l.countP (fun b => b) < l.length →
      ∃ j : Nat, j < l.length ∧ l.getD j false = false := by
  intro l
  induction l with
  | nil =>
    intro h
    simp at h
  | cons a t ih =>
    intro hcnt
    rw [List.countP_cons, List.length_cons] at hcnt
    by_cases ha : a = true
    · have hone : (if (fun (b : Bool) => b) a = true then 1 else 0) =
          1 := by
        rw [ha]
        rfl
      rw [hone] at hcnt
      obtain ⟨j, hj, hjv⟩ := ih (by omega)
      exact ⟨j + 1, by simpa using hj, hjv⟩
    · have ha' : a = false := by
        revert ha
        cases a <;> simp
      exact ⟨0, by simp, ha'⟩

theorem exists_true_of_countP_pos :
    ∀ l : List Bool, 0 < l.countP (fun b => b) →
      ∃ i : Nat, i < l.length ∧ l.getD i false = true := by
  intro l
  induction l with
  | nil =>
    intro h
    simp at h
  | cons a t ih =>
    intro hcnt
    by_cases ha : a = true
    · exact ⟨0, by simp, ha⟩
    · rw [List.countP_cons, if_neg (by simpa using ha)] at hcnt
      obtain ⟨i, hi, hiv⟩ := ih (by omega)
      exact ⟨i + 1, by simpa using hi, hiv⟩

theorem countP_set_true :
    ∀ (l : List Bool) (j : Nat), j < l.length →
      l.getD j false = false →
      (l.set j true).countP (fun b => b) =
        l.countP (fun b => b) + 1 := by
  intro l
  induction l with
  | nil =>
    intro j hj
    simp at hj
  | cons a t ih =>
    intro j hj hv
    cases j with
    | zero =>
      have ha : a = false := hv
      rw [List.set_cons_zero, List.countP_cons, List.countP_cons, ha]
      simp
    | succ k =>
      rw [List.length_cons] at hj
      rw [List.set_cons_succ, List.countP_cons, List.countP_cons,
        ih k (by omega) hv]
      omega

/-! Corridor carving: dimension, `Pres` and the carved L-path. -/

theorem MapGen.create_corridor_width (g : MapGen) (a b : Room) :
    (g.create_corridor a b).width = g.width := by
  rw [MapGen.create_corridor_eq]
  split
  · rw [carveFold_width, carveFold_width]
  · rw [carveFold_width, carveFold_width]

theorem MapGen.create_corridor_height (g : MapGen) (a b : Room) :
    (g.create_corridor a b).height = g.height := by
  rw [MapGen.create_corridor_eq]
  split
  · rw [carveFold_height, carveFold_height]
  · rw [carveFold_height, carveFold_height]

theorem MapGen.create_corridor_pres {g : MapGen} (hwf : g.WF)
    (a b : Room) : Pres g (g.create_corridor a b) := by
  rw [MapGen.create_corridor_eq]
  have hwf1 : ({ g with rng := g.rng.next.2 } : MapGen).WF := hwf
  have h0 : Pres g ({ g with rng := g.rng.next.2 } : MapGen) :=
    Pres.same rfl rfl rfl rfl rfl
  split
  · exact h0.trans ((carveFold_pres hwf1 _).trans
      (carveFold_pres (carveFold_WF hwf1 _) _))
  · exact h0.trans ((carveFold_pres hwf1 _).trans
      (carveFold_pres (carveFold_WF hwf1 _) _))

/-- The truncated centroid cell of a room. -/
def roomCell (r : Room) : Int × Int := (r.cellX, r.cellY)

/-- The corridor carved between two rooms with in-grid centroid cells
contains a Floor L-path joining the centroid cells. -/
theorem create_corridor_reach {g : MapGen} (hwf : g.WF) {a b : Room}
    (ha : 1 ≤ a.cellX ∧ a.cellX ≤ (g.width : Int) - 2 ∧ 1 ≤ a.cellY ∧
      a.cellY ≤ (g.height : Int) - 2)
    (hb : 1 ≤ b.cellX ∧ b.cellX ≤ (g.width : Int) - 2 ∧ 1 ≤ b.cellY ∧
      b.cellY ≤ (g.height : Int) - 2) :
    Reach (g.create_corridor a b) (roomCell a) (roomCell b) := by
  obtain ⟨ha1, ha2, ha3, ha4⟩ := ha
  obtain ⟨hb1, hb2, hb3, hb4⟩ := hb
  have hwf1 : ({ g with rng := g.rng.next.2 } : MapGen).WF := hwf
  have hib : ∀ x y : Int,
      ({ g with rng := g.rng.next.2 } : MapGen).in_bounds x y =
        g.in_bounds x y := fun x y => rfl
  rw [MapGen.create_corridor_eq]
  split
  · -- horizontal leg at a.cellY, then vertical leg at b.cellX
    have hwfM : (carveFold ({ g with rng := g.rng.next.2 } : MapGen)
        (bandH a.cellY (min a.cellX b.cellX)
          (max a.cellX b.cellX))).WF := carveFold_WF hwf1 _
    have hfH : ∀ t : Int, min a.cellX b.cellX ≤ t →
        t ≤ max a.cellX b.cellX →
        (carveFold ({ g with rng := g.rng.next.2 } : MapGen)
          (bandH a.cellY (min a.cellX b.cellX)
            (max a.cellX b.cellX))).is_floor t a.cellY = true := by
      intro t h1 h2
      rw [MapGen.is_floor_iff, carveFold_get _ _ hwf1 t a.cellY,
        if_pos ⟨by rw [mem_bandH]; exact ⟨h1, h2, by omega, by omega⟩,
          by rw [hib, MapGen.in_bounds_iff]; omega⟩]
      exact Or.inl rfl
    have hfV : ∀ t : Int, min a.cellY b.cellY ≤ t →
        t ≤ max a.cellY b.cellY →
        (carveFold (carveFold ({ g with rng := g.rng.next.2 } : MapGen)
          (bandH a.cellY (min a.cellX b.cellX) (max a.cellX b.cellX)))
          (bandV b.cellX (min a.cellY b.cellY)
            (max a.cellY b.cellY))).is_floor b.cellX t = true := by
      intro t h1 h2
      rw [MapGen.is_floor_iff, carveFold_get _ _ hwfM b.cellX t,
        if_pos ⟨by rw [mem_bandV]; exact ⟨h1, h2, by omega, by omega⟩,
          by rw [MapGen.in_bounds_congr (carveFold_width _ _)
              (carveFold_height _ _), hib, MapGen.in_bounds_iff]
             omega⟩]
      exact Or.inl rfl
    have hfH2 : ∀ t : Int, min a.cellX b.cellX ≤ t →
        t ≤ max a.cellX b.cellX →
        (carveFold (carveFold ({ g with rng := g.rng.next.2 } : MapGen)
          (bandH a.cellY (min a.cellX b.cellX) (max a.cellX b.cellX)))
          (bandV b.cellX (min a.cellY b.cellY)
            (max a.cellY b.cellY))).is_floor t a.cellY = true :=
      fun t h1 h2 => (carveFold_pres hwfM _).floor_mono _ _ (hfH t h1 h2)
    exact Relation.ReflTransGen.trans
      (reach_horizontal _ a.cellY a.cellX b.cellX hfH2)
      (reach_vertical _ b.cellX a.cellY b.cellY hfV)
  · -- vertical leg at a.cellX, then horizontal leg at b.cellY
    have hwfM : (carveFold ({ g with rng := g.rng.next.2 } : MapGen)
        (bandV a.cellX (min a.cellY b.cellY)
          (max a.cellY b.cellY))).WF := carveFold_WF hwf1 _
    have hfV : ∀ t : Int, min a.cellY b.cellY ≤ t →
        t ≤ max a.cellY b.cellY →
        (carveFold ({ g with rng := g.rng.next.2 } : MapGen)
          (bandV a.cellX (min a.cellY b.cellY)
            (max a.cellY b.cellY))).is_floor a.cellX t = true := by
      intro t h1 h2
      rw [MapGen.is_floor_iff, carveFold_get _ _ hwf1 a.cellX t,
        if_pos ⟨by rw [mem_bandV]; exact ⟨h1, h2, by omega, by omega⟩,
          by rw [hib, MapGen.in_bounds_iff]; omega⟩]
      exact Or.inl rfl
    have hfH : ∀ t : Int, min a.cellX b.cellX ≤ t →
        t ≤ max a.cellX b.cellX →
        (carveFold (carveFold ({ g with rng := g.rng.next.2 } : MapGen)
          (bandV a.cellX (min a.cellY b.cellY) (max a.cellY b.cellY)))
          (bandH b.cellY (min a.cellX b.cellX)
            (max a.cellX b.cellX))).is_floor t b.cellY = true := by
      intro t h1 h2
      rw [MapGen.is_floor_iff, carveFold_get _ _ hwfM t b.cellY,
        if_pos ⟨by rw [mem_bandH]; exact ⟨h1, h2, by omega, by omega⟩,
          by rw [MapGen.in_bounds_congr (carveFold_width _ _)
              (carveFold_height _ _), hib, MapGen.in_bounds_iff]
             omega⟩]
      exact Or.inl rfl
    have hfV2 : ∀ t : Int, min a.cellY b.cellY ≤ t →
        t ≤ max a.cellY b.cellY →
        (carveFold (carveFold ({ g with rng := g.rng.next.2 } : MapGen)
          (bandV a.cellX (min a.cellY b.cellY) (max a.cellY b.cellY)))
          (bandH b.cellY (min a.cellX b.cellX)
            (max a.cellX b.cellX))).is_floor a.cellX t = true :=
      fun t h1 h2 => (carveFold_pres hwfM _).floor_mono _ _ (hfV t h1 h2)
    exact Relation.ReflTransGen.trans
      (reach_vertical _ a.cellX a.cellY b.cellY hfV2)
      (reach_horizontal _ b.cellY a.cellX b.cellX hfH)

/-! ## The connection loop always finds a pair and connects everything -/

theorem foldl_isSome_keep {γ : Type}
    (f : Option (Frac × Nat × Nat) → γ → Option (Frac × Nat × Nat))
    (hkeep : ∀ b c, b.isSome = true → (f b c).isSome = true)
    (l : List γ) (b : Option (Frac × Nat × Nat))
    (hb : b.isSome = true) : (l.foldl f b).isSome = true :=
  foldl_preserves (fun x => x.isSome = true) f hkeep l b hb

theorem foldl_isSome_hit {γ : Type}
    (f : Option (Frac × Nat × Nat) → γ → Option (Frac × Nat × Nat))
    (hkeep : ∀ b c, b.isSome = true → (f b c).isSome = true) :
    ∀ (l : List γ) (c0 : γ), c0 ∈ l →
      (∀ b, (f b c0).isSome = true) →
      ∀ b, (l.foldl f b).isSome = true := by
  intro l
  induction l with
  | nil =>
    intro c0 hc0
    cases hc0
  | cons c cs ih =>
    intro c0 hc0 hhit b
    rcases List.mem_cons.mp hc0 with he | hm
    · subst he
      rw [List.foldl_cons]
      exact foldl_isSome_keep f hkeep cs (f b c0) (hhit b)
    · rw [List.foldl_cons]
      exact ih c0 hm hhit (f b c)

theorem bpInner_keep (g : MapGen) (connected : List Bool) (i : Nat) :
    ∀ b j, b.isSome = true →
      (bpInner g connected i b j).isSome = true := by
  intro b j hb
  unfold bpInner
  split
  · exact hb
  · dsimp only
    cases b with
    | none => simp at hb
    | some v =>
      obtain ⟨bd, bi0, bj0⟩ := v
      dsimp only
      split
      · rfl
      · rfl

theorem bpInner_hit (g : MapGen) (connected : List Bool) (i j : Nat)
    (hcj : connected.getD j false = false) :
    ∀ b, (bpInner g connected i b j).isSome = true := by
  intro b
  unfold bpInner
  rw [if_neg (by rw [hcj]; exact Bool.false_ne_true)]
  dsimp only
  cases b with
  | none => rfl
  | some v =>
    obtain ⟨bd, bi0, bj0⟩ := v
    dsimp only
    split
    · rfl
    · rfl

theorem bpOuter_keep (g : MapGen) (connected : List Bool) :
    ∀ b i, b.isSome = true →
      (bpOuter g connected b i).isSome = true := by
  intro b i hb
  unfold bpOuter
  split
  · exact hb
  · exact foldl_isSome_keep _
      (fun b2 j hb2 => bpInner_keep g connected i b2 j hb2) _ b hb

theorem bpOuter_hit (g : MapGen) (connected : List Bool) (i : Nat)
    (hci : connected.getD i false = true) {j0 : Nat}
    (hj0 : j0 < g.rooms.length)
    (hcj : connected.getD j0 false = false) :
    ∀ b, (bpOuter g connected b i).isSome = true := by
  intro b
  unfold bpOuter
  have hcond : ¬((!(connected.getD i false)) = true) := by
    rw [hci]
    decide
  rw [if_neg hcond]
  exact foldl_isSome_hit _
    (fun b2 j hb2 => bpInner_keep g connected i b2 j hb2)
    (List.range g.rooms.length) j0 (List.mem_range.mpr hj0)
    (bpInner_hit g connected i j0 hcj) b

/-- While an unconnected room remains (and some room is connected), the
best-pair scan returns a pair. -/
theorem MapGen.findBestPair_some (g : MapGen) (connected : List Bool)
    {i0 j0 : Nat} (hi0 : i0 < g.rooms.length)
    (hci : connected.getD i0 false = true)
    (hj0 : j0 < g.rooms.length)
    (hcj : connected.getD j0 false = false) :
    (g.findBestPair connected).isSome = true := by
  rw [findBestPair_eq]
  exact foldl_isSome_hit _
    (fun b i hb => bpOuter_keep g connected b i hb)
    (List.range g.rooms.length) i0 (List.mem_range.mpr hi0)
    (bpOuter_hit g connected i0 hci hj0 hcj) none

/-- Main loop invariant: while the connected flags count `cnt` rooms and
every connected pair of centroid cells is floor-connected, running the
loop to completion connects every pair of centroid cells. -/
theorem connect_loop_reach (W H : Nat) :
    ∀ (fuel : Nat) (g : MapGen) (connected : List Bool) (cnt : Nat),
      g.WF → g.width = W → g.height = H →
      (∀ r ∈ g.rooms, 1 ≤ r.cellX ∧ r.cellX ≤ (W : Int) - 2 ∧
        1 ≤ r.cellY ∧ r.cellY ≤ (H : Int) - 2) →
      connected.length = g.rooms.length →
      connected.countP (fun b => b) = cnt →
      1 ≤ cnt →
      g.rooms.length ≤ fuel + cnt →
      (∀ k l : Nat, k < g.rooms.length → l < g.rooms.length →
        connected.getD k false = true → connected.getD l false = true →
        Reach g (roomCell (g.rooms.getD k default))
          (roomCell (g.rooms.getD l default))) →
      ∀ k l : Nat, k < g.rooms.length → l < g.rooms.length →
        Reach (g.connect_loop connected cnt fuel)
          (roomCell (g.rooms.getD k default))
          (roomCell (g.rooms.getD l default)) := by
  intro fuel
  induction fuel with
  | zero =>
    intro g connected cnt hwf hwW hhH hbnd hlen hcntP hcnt1 hfuel hpair
      k l hk hl
    have hle : connected.countP (fun b => b) ≤ connected.length :=
      List.countP_le_length _
    have hfull : connected.countP (fun b => b) = connected.length := by
      omega
    have hall : ∀ m : Nat, m < g.rooms.length →
        connected.getD m false = true := fun m hm =>
      getD_true_of_countP_full connected hfull m (by omega)
    exact hpair k l hk hl (hall k hk) (hall l hl)
  | succ fuel ih =>
    intro g connected cnt hwf hwW hhH hbnd hlen hcntP hcnt1 hfuel hpair
      k l hk hl
    show Reach (MapGen.connect_loop g connected cnt (fuel + 1)) _ _
    unfold MapGen.connect_loop
    split
    · next hlt =>
      obtain ⟨i0, hi0l, hi0⟩ := exists_true_of_countP_pos connected
        (by omega)
      obtain ⟨j0, hj0l, hj0⟩ := exists_false_of_countP_lt connected
        (by omega)
      have hsome := g.findBestPair_some connected
        (show i0 < g.rooms.length by omega) hi0
        (show j0 < g.rooms.length by omega) hj0
      split
      · rename_i d bi bj heq
        obtain ⟨hbi, hbj, hcbi, hcbj⟩ :=
          g.findBestPair_sound connected d bi bj heq
        have ha := hbnd _ (getD_mem_of_lt g.rooms bi default hbi)
        have hbb := hbnd _ (getD_mem_of_lt g.rooms bj default hbj)
        have hpres : Pres g (g.create_corridor (g.rooms.getD bi default)
            (g.rooms.getD bj default)) :=
          MapGen.create_corridor_pres hwf _ _
        have hreachAB : Reach (g.create_corridor
            (g.rooms.getD bi default) (g.rooms.getD bj default))
            (roomCell (g.rooms.getD bi default))
            (roomCell (g.rooms.getD bj default)) := by
          refine create_corridor_reach hwf ?_ ?_
          · rw [hwW, hhH]
            exact ha
          · rw [hwW, hhH]
            exact hbb
        have hrooms := g.create_corridor_rooms (g.rooms.getD bi default)
          (g.rooms.getD bj default)
        have hpairs' : ∀ k' l' : Nat,
            k' < (g.create_corridor (g.rooms.getD bi default)
              (g.rooms.getD bj default)).rooms.length →
            l' < (g.create_corridor (g.rooms.getD bi default)
              (g.rooms.getD bj default)).rooms.length →
            (connected.set bj true).getD k' false = true →
            (connected.set bj true).getD l' false = true →
            Reach (g.create_corridor (g.rooms.getD bi default)
              (g.rooms.getD bj default))
              (roomCell ((g.create_corridor (g.rooms.getD bi default)
                (g.rooms.getD bj default)).rooms.getD k' default))
              (roomCell ((g.create_corridor (g.rooms.getD bi default)
                (g.rooms.getD bj default)).rooms.getD l' default)) := by
          intro k' l' hk' hl' hck' hcl'
          rw [hrooms] at hk' hl' ⊢
          have hconn : ∀ m : Nat,
              (connected.set bj true).getD m false = true →
              m = bj ∨ connected.getD m false = true := by
            intro m hcm
            by_cases hmb : m = bj
            · exact Or.inl hmb
            · right
              rw [List.getD_set_ne' _ _ _ _ _
                (fun h => hmb h.symm)] at hcm
              exact hcm
          have hold : ∀ a' b' : Nat, a' < g.rooms.length →
              b' < g.rooms.length → connected.getD a' false = true →
              connected.getD b' false = true →
              Reach (g.create_corridor (g.rooms.getD bi default)
                (g.rooms.getD bj default))
                (roomCell (g.rooms.getD a' default))
                (roomCell (g.rooms.getD b' default)) :=
            fun a' b' ha' hb' hca' hcb' =>
              reach_mono hpres (hpair a' b' ha' hb' hca' hcb')
          rcases hconn k' hck' with hkbj | hkc
          · rcases hconn l' hcl' with hlbj | hlc
            · subst hkbj
              subst hlbj
              exact Relation.ReflTransGen.refl
            · subst hkbj
              exact Relation.ReflTransGen.trans
                (reach_symm _ hreachAB) (hold bi l' hbi hl' hcbi hlc)
          · rcases hconn l' hcl' with hlbj | hlc
            · subst hlbj
              exact Relation.ReflTransGen.trans
                (hold k' bi hk' hbi hkc hcbi) hreachAB
            · exact hold k' l' hk' hl' hkc hlc
        have happly := ih (g.create_corridor (g.rooms.getD bi default)
            (g.rooms.getD bj default)) (connected.set bj true) (cnt + 1)
          (MapGen.create_corridor_WF hwf _ _)
          ((MapGen.create_corridor_width _ _ _).trans hwW)
          ((MapGen.create_corridor_height _ _ _).trans hhH)
          (by rw [hrooms]; exact hbnd)
          (by rw [List.length_set, hrooms]; exact hlen)
          (by rw [countP_set_true connected bj (by omega) hcbj, hcntP])
          (by omega)
          (by rw [hrooms]; omega)
          hpairs' k l (by rw [hrooms]; exact hk)
          (by rw [hrooms]; exact hl)
        rw [hrooms] at happly
        exact happly
      · rename_i hnone
        rw [hnone] at hsome
        simp at hsome
    · next hge =>
      have hle : connected.countP (fun b => b) ≤ connected.length :=
        List.countP_le_length _
      have hfull : connected.countP (fun b => b) = connected.length := by
        omega
      have hall : ∀ m : Nat, m < g.rooms.length →
          connected.getD m false = true := fun m hm =>
        getD_true_of_countP_full connected hfull m (by omega)
      exact hpair k l hk hl (hall k hk) (hall l hl)

theorem MapGen.connect_rooms_reach {g : MapGen} (hwf : g.WF)
    (hbnd : ∀ r ∈ g.rooms, 1 ≤ r.cellX ∧
      r.cellX ≤ (g.width : Int) - 2 ∧ 1 ≤ r.cellY ∧
      r.cellY ≤ (g.height : Int) - 2) :
    ∀ k l : Nat, k < g.rooms.length → l < g.rooms.length →
      Reach g.connect_rooms (roomCell (g.rooms.getD k default))
        (roomCell (g.rooms.getD l default)) := by
  intro k l hk hl
  unfold MapGen.connect_rooms
  split
  · next hlen2 =>
    have hkl : k = 0 ∧ l = 0 := by omega
    obtain ⟨rfl, rfl⟩ := hkl
    exact Relation.ReflTransGen.refl
  · next hlen2 =>
    refine connect_loop_reach g.width g.height g.rooms.length g
      ((List.replicate g.rooms.length false).set 0 true) 1 hwf rfl rfl
      hbnd ?_ ?_ (by omega) (by omega) ?_ k l hk hl
    · rw [List.length_set, List.length_replicate]
    · rw [countP_set_true (List.replicate g.rooms.length false) 0
        (by rw [List.length_replicate]; omega)
        (getD_replicate_false _ _), countP_false_replicate]
    · intro k' l' hk' hl' hck' hcl'
      have hk0 : k' = 0 := by
        by_contra hne
        rw [List.getD_set_ne' _ _ _ _ _ (fun h => hne h.symm),
          getD_replicate_false] at hck'
        exact Bool.false_ne_true hck'
      have hl0 : l' = 0 := by
        by_contra hne
        rw [List.getD_set_ne' _ _ _ _ _ (fun h => hne h.symm),
          getD_replicate_false] at hcl'
        exact Bool.false_ne_true hcl'
      subst hk0
      subst hl0
      exact Relation.ReflTransGen.refl

/-! ## Detected room centroids are interior while the border is Wall -/

/-- A floor cell is never on the border while the border invariant
holds. -/
theorem floor_interior {g : MapGen} (hbw : BorderWall g) {px py : Nat}
    (hx : px < g.width) (hy : py < g.height)
    (hf : g.is_floor (px : Int) (py : Int) = true) :
    1 ≤ (px : Int) ∧ (px : Int) ≤ (g.width : Int) - 2 ∧
      1 ≤ (py : Int) ∧ (py : Int) ≤ (g.height : Int) - 2 := by
  have hb : g.in_bounds (px : Int) (py : Int) = true := by
    rw [MapGen.in_bounds_iff]
    omega
  have hnw : g.is_wall (px : Int) (py : Int) = false := by
    rw [MapGen.not_wall_iff]
    exact hf
  have hnb : ¬((px : Int) = 0 ∨ (px : Int) = (g.width : Int) - 1 ∨
      (py : Int) = 0 ∨ (py : Int) = (g.height : Int) - 1) := by
    intro hbd
    have hww := hbw _ _ hb hbd
    rw [hww] at hnw
    simp at hnw
  push_neg at hnb
  obtain ⟨h1, h2, h3, h4⟩ := hnb
  omega

/-- The body of the queue step of `flood_fill_room`, named. -/
def floodStep (g : MapGen) (c : Int × Int) (rid : Int)
    (st : List Int × List (Int × Int)) (d : Int × Int) :
    List Int × List (Int × Int) :=
  let nx := c.1 + d.1
  let ny := c.2 + d.2
  if g.in_bounds nx ny && g.is_floor nx ny &&
      st.1.getD (g.idx nx ny) (-1) == -1 then
    (st.1.set (g.idx nx ny) rid, st.2 ++ [(nx, ny)])
  else st

theorem flood_loop_cons (g : MapGen) (fuel : Nat) (c : Int × Int)
    (rest : List (Int × Int)) (rid : Int) (rm : List Int) :
    g.flood_loop (fuel + 1) (c :: rest) rid rm =
      g.flood_loop fuel
        ((crossDeltas.foldl (floodStep g c rid) (rm, rest)).2) rid
        ((crossDeltas.foldl (floodStep g c rid) (rm, rest)).1) := rfl

theorem floodStep_length (g : MapGen) (c : Int × Int) (rid : Int)
    (st : List Int × List (Int × Int)) (d : Int × Int) :
    (floodStep g c rid st d).1.length = st.1.length := by
  unfold floodStep
  dsimp only
  split
  · exact List.length_set ..
  · rfl

theorem flood_loop_length (g : MapGen) (rid : Int) :
    ∀ (fuel : Nat) (queue : List (Int × Int)) (rm : List Int),
      (g.flood_loop fuel queue rid rm).length = rm.length := by
  intro fuel
  induction fuel with
  | zero =>
    intro queue rm
    rfl
  | succ fuel ih =>
    intro queue rm
    cases queue with
    | nil => rfl
    | cons c rest =>
      rw [flood_loop_cons, ih]
      exact foldl_preserves (fun (st : List Int × List (Int × Int)) =>
        st.1.length = rm.length) _ (fun st d hst => by
          show (floodStep g c rid st d).1.length = rm.length
          rw [floodStep_length]
          exact hst) _ _ rfl

theorem flood_fill_length (g : MapGen) (x y rid : Int) (rm : List Int) :
    (g.flood_fill_room x y rid rm).length = rm.length := by
  unfold MapGen.flood_fill_room
  rw [flood_loop_length, List.length_set]

theorem floodStep_keep (g : MapGen) (c : Int × Int) (rid : Int)
    (I : Nat) (v : Int) (hv : v ≠ -1) :
    ∀ (st : List Int × List (Int × Int)) (d : Int × Int),
      st.1.getD I (-1) = v →
      (floodStep g c rid st d).1.getD I (-1) = v := by
  intro st d hst
  unfold floodStep
  dsimp only
  split
  · next hcond =>
    dsimp only
    by_cases hidx : g.idx (c.1 + d.1) (c.2 + d.2) = I
    · simp only [Bool.and_eq_true] at hcond
      have hguard := hcond.2
      rw [hidx, hst] at hguard
      have hveq : v = -1 := by simpa using hguard
      exact absurd hveq hv
    · rw [List.getD_set_ne' _ _ _ _ _ hidx]
      exact hst
  · exact hst

theorem flood_loop_keep (g : MapGen) (rid : Int) (I : Nat) (v : Int)
    (hv : v ≠ -1) :
    ∀ (fuel : Nat) (queue : List (Int × Int)) (rm : List Int),
      rm.getD I (-1) = v →
      (g.flood_loop fuel queue rid rm).getD I (-1) = v := by
  intro fuel
  induction fuel with
  | zero =>
    intro queue rm hmk
    exact hmk
  | succ fuel ih =>
    intro queue rm hmk
    cases queue with
    | nil => exact hmk
    | cons c rest =>
      rw [flood_loop_cons]
      refine ih _ _ ?_
      exact foldl_preserves
        (fun (st : List Int × List (Int × Int)) => st.1.getD I (-1) = v)
        (floodStep g c rid)
        (fun st d hst => floodStep_keep g c rid I v hv st d hst)
        crossDeltas (rm, rest) hmk

theorem flood_fill_seed {g : MapGen} {rm : List Int} {x y : Int}
    {rid : Int} (hb : g.in_bounds x y = true)
    (hlen : rm.length = g.width * g.height) (hrid : rid ≠ -1) :
    (g.flood_fill_room x y rid rm).getD (g.idx x y) (-1) = rid := by
  unfold MapGen.flood_fill_room
  refine flood_loop_keep g rid (g.idx x y) rid hrid _ _ _ ?_
  have hidxlt : g.idx x y < rm.length := by
    rw [hlen]
    rw [MapGen.in_bounds_iff] at hb
    have hxn : x.toNat < g.width := by omega
    have hyn : y.toNat < g.height := by omega
    exact flat_idx_lt hxn hyn
  exact List.getD_set_eq' _ _ _ _ hidxlt

theorem floodStep_RMOK (g : MapGen) (c : Int × Int) (rid : Int) :
    ∀ (st : List Int × List (Int × Int)) (d : Int × Int),
      (∀ px py : Nat, px < g.width → py < g.height →
        st.1.getD (py * g.width + px) (-1) ≠ -1 →
        g.is_floor (px : Int) (py : Int) = true) →
      ∀ px py : Nat, px < g.width → py < g.height →
        (floodStep g c rid st d).1.getD (py * g.width + px) (-1) ≠ -1 →
        g.is_floor (px : Int) (py : Int) = true := by
  intro st d hst px py hx hy hne
  unfold floodStep at hne
  dsimp only at hne
  by_cases hcond : (g.in_bounds (c.1 + d.1) (c.2 + d.2) &&
      g.is_floor (c.1 + d.1) (c.2 + d.2) &&
      st.1.getD (g.idx (c.1 + d.1) (c.2 + d.2)) (-1) == -1) = true
  · rw [if_pos hcond] at hne
    dsimp only at hne
    simp only [Bool.and_eq_true] at hcond
    obtain ⟨⟨hbn, hfn⟩, hguard⟩ := hcond
    by_cases hidx : g.idx (c.1 + d.1) (c.2 + d.2) = py * g.width + px
    · have hbb := hbn
      rw [MapGen.in_bounds_iff] at hbb
      have hxn : (c.1 + d.1).toNat < g.width := by omega
      have hidx' : (c.2 + d.2).toNat * g.width + (c.1 + d.1).toNat =
          py * g.width + px := hidx
      have hinj := rowMajor_inj hxn hx hidx'
      have hex : c.1 + d.1 = (px : Int) := by omega
      have hey : c.2 + d.2 = (py : Int) := by omega
      rw [← hex, ← hey]
      exact hfn
    · rw [List.getD_set_ne' _ _ _ _ _ hidx] at hne
      exact hst px py hx hy hne
  · rw [if_neg hcond] at hne
    exact hst px py hx hy hne

theorem flood_loop_RMOK (g : MapGen) (rid : Int) :
    ∀ (fuel : Nat) (queue : List (Int × Int)) (rm : List Int),
      (∀ px py : Nat, px < g.width → py < g.height →
        rm.getD (py * g.width + px) (-1) ≠ -1 →
        g.is_floor (px : Int) (py : Int) = true) →
      ∀ px py : Nat, px < g.width → py < g.height →
        (g.flood_loop fuel queue rid rm).getD (py * g.width + px) (-1) ≠
          -1 → g.is_floor (px : Int) (py : Int) = true := by
  intro fuel
  induction fuel with
  | zero =>
    intro queue rm hrm
    exact hrm
  | succ fuel ih =>
    intro queue rm hrm
    cases queue with
    | nil => exact hrm
    | cons c rest =>
      intro px py hx hy hne
      rw [flood_loop_cons] at hne
      refine ih _ _ ?_ px py hx hy hne
      exact foldl_preserves
        (fun (st : List Int × List (Int × Int)) =>
          ∀ qx qy : Nat, qx < g.width → qy < g.height →
            st.1.getD (qy * g.width + qx) (-1) ≠ -1 →
            g.is_floor (qx : Int) (qy : Int) = true)
        (floodStep g c rid)
        (fun st d hst => floodStep_RMOK g c rid st d hst)
        crossDeltas (rm, rest) hrm

theorem flood_fill_RMOK {g : MapGen} {rm : List Int} {x y : Int}
    (rid : Int)
    (hrm : ∀ px py : Nat, px < g.width → py < g.height →
      rm.getD (py * g.width + px) (-1) ≠ -1 →
      g.is_floor (px : Int) (py : Int) = true)
    (hf : g.is_floor x y = true) :
    ∀ px py : Nat, px < g.width → py < g.height →
      (g.flood_fill_room x y rid rm).getD (py * g.width + px) (-1) ≠ -1 →
      g.is_floor (px : Int) (py : Int) = true := by
  unfold MapGen.flood_fill_room
  refine flood_loop_RMOK g rid _ _ _ ?_
  intro px py hx hy hne
  by_cases hidx : g.idx x y = py * g.width + px
  · have hb := is_floor_in_bounds g x y hf
    rw [MapGen.in_bounds_iff] at hb
    have hxn : x.toNat < g.width := by omega
    have hidx' : y.toNat * g.width + x.toNat = py * g.width + px := hidx
    have hinj := rowMajor_inj hxn hx hidx'
    have hex : x = (px : Int) := by omega
    have hey : y = (py : Int) := by omega
    rw [← hex, ← hey]
    exact hf
  · rw [List.getD_set_ne' _ _ _ _ _ hidx] at hne
    exact hrm px py hx hy hne

/-! The bounding-box / centroid scan, flattened. -/

/-- One cell of the centroid scan, named. -/
def scanStep (w : Nat) (room_map : List Int) (rid : Int) (a : RoomAcc)
    (p : Nat × Nat) : RoomAcc :=
  if room_map.getD (p.2 * w + p.1) (-1) == rid then
    { min_x := min a.min_x (p.1 : Int), max_x := max a.max_x (p.1 : Int),
      min_y := min a.min_y (p.2 : Int), max_y := max a.max_y (p.2 : Int),
      sum_x := a.sum_x + (p.1 : Int), sum_y := a.sum_y + (p.2 : Int),
      count := a.count + 1 }
  else a

/-- The cells visited by the scan, in loop order. -/
def scanPairs (w h : Nat) : List (Nat × Nat) :=
  (List.range h).flatMap fun ry => (List.range w).map fun rx => (rx, ry)

theorem roomScan_eq_flat (w h : Nat) (rm : List Int) (rid : Int) :
    roomScan w h rm rid = (scanPairs w h).foldl (scanStep w rm rid)
      ⟨(w : Int), 0, (h : Int), 0, 0, 0, 0⟩ := by
  unfold roomScan scanPairs
  rw [foldl_flatMap]
  simp only [List.foldl_map]
  rfl

theorem mem_scanPairs {w h : Nat} {p : Nat × Nat} :
    p ∈ scanPairs w h ↔ p.1 < w ∧ p.2 < h := by
  unfold scanPairs
  simp only [List.mem_flatMap, List.mem_map, List.mem_range]
  constructor
  · rintro ⟨ry, hry, rx, hrx, rfl⟩
    exact ⟨hrx, hry⟩
  · intro ⟨h1, h2⟩
    exact ⟨p.2, h2, p.1, h1, rfl⟩

theorem foldl_count_ge_one {γ : Type} (f : RoomAcc → γ → RoomAcc)
    (hmono : ∀ a c, a.count ≤ (f a c).count) :
    ∀ (l : List γ) (c0 : γ), c0 ∈ l →
      (∀ a, 0 ≤ a.count → 1 ≤ (f a c0).count) →
      ∀ a : RoomAcc, 0 ≤ a.count → 1 ≤ (l.foldl f a).count := by
  intro l
  induction l with
  | nil =>
    intro c0 hc0
    cases hc0
  | cons c cs ih =>
    intro c0 hc0 hbump a ha
    rcases List.mem_cons.mp hc0 with he | hm
    · subst he
      rw [List.foldl_cons]
      exact foldl_preserves (fun x : RoomAcc => 1 ≤ x.count) f
        (fun b c2 hb => le_trans hb (hmono b c2)) cs (f a c0)
        (hbump a ha)
    · rw [List.foldl_cons]
      exact ih c0 hm hbump (f a c) (le_trans ha (hmono a c))

theorem roomScan_count_pos {w h : Nat} {rm : List Int} {rid : Int}
    {px py : Nat} (hx : px < w) (hy : py < h)
    (hmark : rm.getD (py * w + px) (-1) = rid) :
    1 ≤ (roomScan w h rm rid).count := by
  rw [roomScan_eq_flat]
  refine foldl_count_ge_one (scanStep w rm rid) ?_ (scanPairs w h)
    (px, py) (mem_scanPairs.mpr ⟨hx, hy⟩) ?_ _ (le_refl 0)
  · intro a c
    unfold scanStep
    split
    · dsimp only
      omega
    · omega
  · intro a ha
    unfold scanStep
    rw [if_pos (show (rm.getD ((px, py).2 * w + (px, py).1) (-1) ==
        rid) = true by simpa using hmark)]
    dsimp only
    omega

theorem roomScan_inv {g : MapGen} (hbw : BorderWall g) {rm : List Int}
    {rid : Int} (hrid : rid ≠ -1)
    (hmark : ∀ px py : Nat, px < g.width → py < g.height →
      rm.getD (py * g.width + px) (-1) ≠ -1 →
      g.is_floor (px : Int) (py : Int) = true) :
    0 ≤ (roomScan g.width g.height rm rid).count ∧
    (roomScan g.width g.height rm rid).count * 1 ≤
      (roomScan g.width g.height rm rid).sum_x ∧
    (roomScan g.width g.height rm rid).sum_x ≤
      (roomScan g.width g.height rm rid).count *
        ((g.width : Int) - 2) ∧
    (roomScan g.width g.height rm rid).count * 1 ≤
      (roomScan g.width g.height rm rid).sum_y ∧
    (roomScan g.width g.height rm rid).sum_y ≤
      (roomScan g.width g.height rm rid).count *
        ((g.height : Int) - 2) := by
  rw [roomScan_eq_flat]
  refine foldl_preserves_mem (fun a : RoomAcc =>
      0 ≤ a.count ∧ a.count * 1 ≤ a.sum_x ∧
      a.sum_x ≤ a.count * ((g.width : Int) - 2) ∧
      a.count * 1 ≤ a.sum_y ∧
      a.sum_y ≤ a.count * ((g.height : Int) - 2))
    (scanStep g.width rm rid) (scanPairs g.width g.height)
    (fun a p hp ha => ?_) _ ?_
  · obtain ⟨hpx, hpy⟩ := mem_scanPairs.mp hp
    unfold scanStep
    split
    · next hcond =>
      dsimp only
      have hmm : rm.getD (p.2 * g.width + p.1) (-1) = rid := by
        simpa using hcond
      have hfl : g.is_floor (p.1 : Int) (p.2 : Int) = true :=
        hmark p.1 p.2 hpx hpy (by rw [hmm]; exact hrid)
      obtain ⟨hi1, hi2, hi3, hi4⟩ := floor_interior hbw hpx hpy hfl
      obtain ⟨c0, s1, s2, s3, s4⟩ := ha
      have e2 : (a.count + 1) * ((g.width : Int) - 2) =
          a.count * ((g.width : Int) - 2) + ((g.width : Int) - 2) := by
        ring
      have e3 : (a.count + 1) * ((g.height : Int) - 2) =
          a.count * ((g.height : Int) - 2) + ((g.height : Int) - 2) := by
        ring
      refine ⟨by omega, by omega, ?_, by omega, ?_⟩
      · rw [e2]
        omega
      · rw [e3]
        omega
    · exact ha
  · refine ⟨le_refl 0, ?_, ?_, ?_, ?_⟩ <;> simp

/-- Truncation of an exact nonnegative average respects the bounds of
the averaged values. -/
theorem Frac.trunc_div_bounds {s c lo hi : Int} (hc : 0 < c)
    (hlo : 0 ≤ lo) (h1 : c * lo ≤ s) (h2 : s ≤ c * hi) :
    lo ≤ (Frac.ofInt s / Frac.ofInt c).trunc ∧
      (Frac.ofInt s / Frac.ofInt c).trunc ≤ hi := by
  have hs : 0 ≤ s := le_trans (mul_nonneg hc.le hlo) h1
  have hhi : 0 ≤ hi := by nlinarith
  have hnum : (Frac.ofInt s / Frac.ofInt c).num = s := by
    show s * 1 = s
    ring
  have hden : (Frac.ofInt s / Frac.ofInt c).den = c := by
    show 1 * c = c
    ring
  unfold Frac.trunc
  rw [hnum, hden, if_pos hs]
  have hcn : 0 < c.toNat := by omega
  constructor
  · have hmul : lo.toNat * c.toNat ≤ s.toNat := by
      have hc1 : ((lo.toNat * c.toNat : Nat) : Int) = lo * c := by
        rw [Nat.cast_mul, Int.toNat_of_nonneg hlo,
          Int.toNat_of_nonneg hc.le]
      have hle2 : ((lo.toNat * c.toNat : Nat) : Int) ≤
          ((s.toNat : Nat) : Int) := by
        rw [hc1, Int.toNat_of_nonneg hs, mul_comm]
        exact h1
      exact_mod_cast hle2
    have hdiv : lo.toNat ≤ s.toNat / c.toNat :=
      (Nat.le_div_iff_mul_le hcn).mpr hmul
    have hfin : (lo.toNat : Int) ≤ ((s.toNat / c.toNat : Nat) : Int) :=
      by exact_mod_cast hdiv
    rwa [Int.toNat_of_nonneg hlo] at hfin
  · have hmul : s.toNat ≤ c.toNat * hi.toNat := by
      have hc1 : ((c.toNat * hi.toNat : Nat) : Int) = c * hi := by
        rw [Nat.cast_mul, Int.toNat_of_nonneg hc.le,
          Int.toNat_of_nonneg hhi]
      have hle2 : ((s.toNat : Nat) : Int) ≤
          ((c.toNat * hi.toNat : Nat) : Int) := by
        rw [hc1, Int.toNat_of_nonneg hs]
        exact h2
      exact_mod_cast hle2
    have hdiv : s.toNat / c.toNat ≤ hi.toNat := by
      have h3 : s.toNat / c.toNat ≤ (c.toNat * hi.toNat) / c.toNat :=
        Nat.div_le_div_right hmul
      rwa [Nat.mul_div_cancel_left _ hcn] at h3
    have hfin : ((s.toNat / c.toNat : Nat) : Int) ≤ (hi.toNat : Int) :=
      by exact_mod_cast hdiv
    rwa [Int.toNat_of_nonneg hhi] at hfin

/-- Joint characterization of the back-fill: each flat index either
keeps both its cell and its label, or is walled and unmarked. -/
theorem backfill_joint (w h : Nat) (cells : List CellType)
    (rm : List Int) (rid : Int) :
    ∀ i : Nat,
      ((backfillRoom w h cells rm rid).1.getD i CellType.wall =
          cells.getD i CellType.wall ∧
        (backfillRoom w h cells rm rid).2.getD i (-1) =
          rm.getD i (-1)) ∨
      ((backfillRoom w h cells rm rid).1.getD i CellType.wall =
          CellType.wall ∧
        (backfillRoom w h cells rm rid).2.getD i (-1) = -1) := by
  unfold backfillRoom
  refine foldl_preserves (fun (p : List CellType × List Int) =>
      ∀ i : Nat,
        (p.1.getD i CellType.wall = cells.getD i CellType.wall ∧
          p.2.getD i (-1) = rm.getD i (-1)) ∨
        (p.1.getD i CellType.wall = CellType.wall ∧
          p.2.getD i (-1) = -1)) _
    (fun p ry hp => ?_) _ _ (fun i => Or.inl ⟨rfl, rfl⟩)
  refine foldl_preserves (fun (p : List CellType × List Int) =>
      ∀ i : Nat,
        (p.1.getD i CellType.wall = cells.getD i CellType.wall ∧
          p.2.getD i (-1) = rm.getD i (-1)) ∨
        (p.1.getD i CellType.wall = CellType.wall ∧
          p.2.getD i (-1) = -1)) _
    (fun p2 rx hp2 => ?_) _ _ hp
  dsimp only
  split
  · intro i
    dsimp only
    by_cases hi : ry * w + rx = i
    · subst hi
      right
      constructor
      · by_cases hlt : ry * w + rx < p2.1.length
        · exact List.getD_set_eq' _ _ _ _ hlt
        · rw [List.getD_eq_default]
          rw [List.length_set]
          omega
      · by_cases hlt : ry * w + rx < p2.2.length
        · exact List.getD_set_eq' _ _ _ _ hlt
        · rw [List.getD_eq_default]
          rw [List.length_set]
          omega
    · rw [List.getD_set_ne' _ _ _ _ _ hi,
        List.getD_set_ne' _ _ _ _ _ hi]
      exact hp2 i
  · exact hp2

theorem backfill_rm_length (w h : Nat) (cells : List CellType)
    (rm : List Int) (rid : Int) :
    (backfillRoom w h cells rm rid).2.length = rm.length := by
  unfold backfillRoom
  refine foldl_preserves (fun (p : List CellType × List Int) =>
      p.2.length = rm.length) _ (fun p ry hp => ?_) _ _ rfl
  refine foldl_preserves (fun (p : List CellType × List Int) =>
      p.2.length = rm.length) _ (fun p2 rx hp2 => ?_) _ _ hp
  dsimp only
  split
  · dsimp only
    rw [List.length_set]
    exact hp2
  · exact hp2

theorem getD_replicate_neg (n i : Nat) :
    (List.replicate n (-1 : Int)).getD i (-1) = -1 := by
  by_cases h : i < n
  · rw [List.getD_eq_getElem _ _ (by simpa using h)]
    exact List.getElem_replicate ..
  · rw [List.getD_eq_default]
    rw [List.length_replicate]
    omega

/-- The invariant of the room-detection scan: generator invariant,
non-negative room id, grid-sized label array marking only floor cells,
and interior centroid cells for every recorded room. -/
def DetInv (W H : Nat) (st : DetectState) : Prop :=
  InitInv W H st.g ∧ 0 ≤ st.room_id ∧
  st.room_map.length = W * H ∧
  (∀ px py : Nat, px < st.g.width → py < st.g.height →
    st.room_map.getD (py * st.g.width + px) (-1) ≠ -1 →
    st.g.is_floor (px : Int) (py : Int) = true) ∧
  (∀ r ∈ st.g.rooms, 1 ≤ r.cellX ∧ r.cellX ≤ (W : Int) - 2 ∧
    1 ≤ r.cellY ∧ r.cellY ≤ (H : Int) - 2)

theorem detectCell_detinv {W H : Nat} (st : DetectState) (x y : Nat)
    (hinv : DetInv W H st) : DetInv W H (detectCell st x y) := by
  obtain ⟨hii, hrid, hrml, hrmok, hrooms⟩ := hinv
  unfold detectCell
  split
  · next hguard =>
    simp only [Bool.and_eq_true] at hguard
    obtain ⟨hfl, hunm⟩ := hguard
    have hrm2ok := flood_fill_RMOK st.room_id hrmok hfl
    have hxw : x < st.g.width := by
      have hbx := is_floor_in_bounds st.g (x : Int) (y : Int) hfl
      rw [MapGen.in_bounds_iff] at hbx
      omega
    have hyh : y < st.g.height := by
      have hbx := is_floor_in_bounds st.g (x : Int) (y : Int) hfl
      rw [MapGen.in_bounds_iff] at hbx
      omega
    dsimp only
    split
    · next harea =>
      refine ⟨⟨hii.1, hii.2.1, hii.2.2.1,
        fun a b hb hbd => hii.2.2.2 a b hb hbd⟩,
        (show (0 : Int) ≤ st.room_id + 1 by omega), ?_, ?_, ?_⟩
      · show (st.g.flood_fill_room (x : Int) (y : Int) st.room_id
          st.room_map).length = W * H
        rw [flood_fill_length]
        exact hrml
      · exact hrm2ok
      · intro r hr
        rcases List.mem_append.mp hr with hold | hnew
        · exact hrooms r hold
        · have hre := List.mem_singleton.mp hnew
          subst hre
          have hlen2 : st.room_map.length =
              st.g.width * st.g.height := by
            rw [hrml, hii.1, hii.2.1]
          have hseed := flood_fill_seed
            (is_floor_in_bounds st.g (x : Int) (y : Int) hfl) hlen2
            (show st.room_id ≠ -1 by omega)
          have hseed' : (st.g.flood_fill_room (x : Int) (y : Int)
              st.room_id st.room_map).getD (y * st.g.width + x) (-1) =
              st.room_id := hseed
          have hcnt := roomScan_count_pos hxw hyh hseed'
          obtain ⟨sc0, sx1, sx2, sy1, sy2⟩ :=
            roomScan_inv hii.2.2.2 (show st.room_id ≠ -1 by omega)
              hrm2ok
          have hcpos : 0 < (roomScan st.g.width st.g.height
              (st.g.flood_fill_room (x : Int) (y : Int) st.room_id
                st.room_map) st.room_id).count := by omega
          have hbx := Frac.trunc_div_bounds hcpos (by omega) sx1 sx2
          have hby := Frac.trunc_div_bounds hcpos (by omega) sy1 sy2
          refine ⟨hbx.1, ?_, hby.1, ?_⟩
          · rw [← hii.1]
            exact hbx.2
          · rw [← hii.2.1]
            exact hby.2
    · next harea =>
      refine ⟨⟨hii.1, hii.2.1, ?_, ?_⟩, hrid, ?_, ?_, ?_⟩
      · show (backfillRoom st.g.width st.g.height st.g.cells
          (st.g.flood_fill_room (x : Int) (y : Int) st.room_id
            st.room_map) st.room_id).1.length =
          st.g.width * st.g.height
        rw [(backfill_ok st.g.width st.g.height st.g.cells
          (st.g.flood_fill_room (x : Int) (y : Int) st.room_id
            st.room_map) st.room_id).1]
        exact hii.2.2.1
      · exact borderwall_of_backok
          (backfill_ok st.g.width st.g.height st.g.cells
            (st.g.flood_fill_room (x : Int) (y : Int) st.room_id
              st.room_map) st.room_id).2 hii.2.2.2
      · show (backfillRoom st.g.width st.g.height st.g.cells
          (st.g.flood_fill_room (x : Int) (y : Int) st.room_id
            st.room_map) st.room_id).2.length = W * H
        rw [backfill_rm_length, flood_fill_length]
        exact hrml
      · intro px py hpx hpy hne
        have hpx' : px < st.g.width := hpx
        have hpy' : py < st.g.height := hpy
        have hne' : (backfillRoom st.g.width st.g.height st.g.cells
            (st.g.flood_fill_room (x : Int) (y : Int) st.room_id
              st.room_map) st.room_id).2.getD
            (py * st.g.width + px) (-1) ≠ -1 := hne
        rcases backfill_joint st.g.width st.g.height st.g.cells
            (st.g.flood_fill_room (x : Int) (y : Int) st.room_id
              st.room_map) st.room_id (py * st.g.width + px) with
          ⟨hcell, hrmv⟩ | ⟨hcell, hrmv⟩
        · have hfl2 : st.g.is_floor (px : Int) (py : Int) = true := by
            refine hrm2ok px py hpx' hpy' ?_
            rw [← hrmv]
            exact hne'
          have hbpx : st.g.in_bounds (px : Int) (py : Int) = true := by
            rw [MapGen.in_bounds_iff]
            omega
          rw [MapGen.is_floor_iff] at hfl2 ⊢
          have hgnew : ({ st.g with cells := (backfillRoom st.g.width
              st.g.height st.g.cells (st.g.flood_fill_room (x : Int)
                (y : Int) st.room_id st.room_map) st.room_id).1 } :
              MapGen).get_cell (px : Int) (py : Int) =
              st.g.get_cell (px : Int) (py : Int) := by
            unfold MapGen.get_cell
            have hbnew : ({ st.g with cells := (backfillRoom st.g.width
                st.g.height st.g.cells (st.g.flood_fill_room (x : Int)
                  (y : Int) st.room_id st.room_map) st.room_id).1 } :
                MapGen).in_bounds (px : Int) (py : Int) =
                st.g.in_bounds (px : Int) (py : Int) := rfl
            rw [hbnew, if_pos hbpx, if_pos hbpx]
            exact hcell
          rw [hgnew]
          exact hfl2
        · exact absurd hrmv hne'
      · intro r hr
        exact hrooms r hr
  · exact ⟨hii, hrid, hrml, hrmok, hrooms⟩

/-- Every room detected from a room-less state with a Wall border has an
interior centroid cell. -/
theorem MapGen.detect_rooms_interior {W H : Nat} {g : MapGen}
    (hinv : InitInv W H g) (h0 : g.rooms = []) :
    ∀ r ∈ g.detect_rooms.rooms, 1 ≤ r.cellX ∧
      r.cellX ≤ (W : Int) - 2 ∧ 1 ≤ r.cellY ∧
      r.cellY ≤ (H : Int) - 2 := by
  unfold MapGen.detect_rooms
  dsimp only
  have hst : DetInv W H ((List.range g.height).foldl (fun a (y : Nat) =>
      (List.range g.width).foldl (fun a2 (x : Nat) => detectCell a2 x y)
        a) (⟨g, List.replicate (g.width * g.height) (-1), 0⟩ :
          DetectState)) := by
    refine foldl_preserves (DetInv W H) _ (fun st y hs => ?_) _ _ ?_
    · exact foldl_preserves (DetInv W H) _
        (fun st2 x hs2 => detectCell_detinv st2 x y hs2) _ _ hs
    · refine ⟨hinv, le_refl 0, ?_, ?_, ?_⟩
      · rw [List.length_replicate, hinv.1, hinv.2.1]
      · intro px py hpx hpy hne
        exact absurd (getD_replicate_neg _ _) hne
      · intro r hr
        rw [h0] at hr
        cases hr
  split
  · exact hst.2.2.2.2
  · next hnemp =>
    intro r hr
    have hne2 : ¬(((List.range g.height).foldl (fun a (y : Nat) =>
        (List.range g.width).foldl (fun a2 (x : Nat) =>
          detectCell a2 x y) a) (⟨g, List.replicate
            (g.width * g.height) (-1), 0⟩ :
          DetectState)).g.rooms = []) := by
      intro hc
      exact hnemp (by rw [hc]; rfl)
    rcases List.mem_or_eq_of_mem_set hr with hmem | hre
    · exact hst.2.2.2.2 r hmem
    · have hlenpos : 0 < (((List.range g.height).foldl (fun a (y : Nat)
          => (List.range g.width).foldl (fun a2 (x : Nat) =>
            detectCell a2 x y) a) (⟨g, List.replicate
              (g.width * g.height) (-1), 0⟩ :
            DetectState)).g.rooms).length := by
        rcases Nat.eq_zero_or_pos (((List.range g.height).foldl
            (fun a (y : Nat) => (List.range g.width).foldl
              (fun a2 (x : Nat) => detectCell a2 x y) a)
            (⟨g, List.replicate (g.width * g.height) (-1), 0⟩ :
              DetectState)).g.rooms).length with hz | hp
        · exact absurd (List.eq_nil_of_length_eq_zero hz) hne2
        · exact hp
      have hidxlt : maxRoomIdx (((List.range g.height).foldl
          (fun a (y : Nat) => (List.range g.width).foldl
            (fun a2 (x : Nat) => detectCell a2 x y) a)
          (⟨g, List.replicate (g.width * g.height) (-1), 0⟩ :
            DetectState)).g.rooms) < (((List.range g.height).foldl
          (fun a (y : Nat) => (List.range g.width).foldl
            (fun a2 (x : Nat) => detectCell a2 x y) a)
          (⟨g, List.replicate (g.width * g.height) (-1), 0⟩ :
            DetectState)).g.rooms).length := by
        rw [maxRoomIdx_eq_aux]
        rcases (maxFoldAux_spec _ _).1 with hzz | hlt
        · rw [hzz]
          exact hlenpos
        · exact hlt
      have hmem2 := getD_mem_of_lt _ _ default hidxlt
      have hbnd := hst.2.2.2.2 _ hmem2
      rw [hre]
      exact hbnd
  
/-- `Pres` along one spawn-placement iteration. -/
theorem spawn_append_pres {gg : MapGen} (hwf : gg.WF) {cx cy : Int}
    (hfl : gg.is_floor cx cy = true) (rot : Frac) (ridv : Int)
    (r : Rng) :
    Pres gg ((spawnAppend gg cx cy rot ridv r).writeCell
      ((spawnAppend gg cx cy rot ridv r).idx cx cy)
      CellType.spawn) := by
  have hb : gg.in_bounds cx cy = true := is_floor_in_bounds gg cx cy hfl
  have hb1 : (spawnAppend gg cx cy rot ridv r).in_bounds cx cy = true :=
    hb
  have hwf1 : (spawnAppend gg cx cy rot ridv r).WF := hwf
  have hc : ((spawnAppend gg cx cy rot ridv r).writeCell
      ((spawnAppend gg cx cy rot ridv r).idx cx cy)
      CellType.spawn).cells =
      (spawnAppend gg cx cy rot ridv r).cells.set
        ((spawnAppend gg cx cy rot ridv r).idx cx cy) CellType.spawn :=
    rfl
  exact (Pres.same rfl rfl rfl rfl rfl).trans
    (Pres.write_nonwall hc rfl rfl rfl rfl hb1 hwf1 (by decide))

theorem spawnStep_pres {gg : MapGen} (hwf : gg.WF) (room : Room)
    (rid : Nat) : Pres gg (spawnStep gg room rid) := by
  unfold spawnStep
  split
  · exact Pres.refl gg
  · next hne =>
    dsimp only
    have hne' : gg.spawnCandidates room ≠ [] := fun hc =>
      hne (by rw [hc]; rfl)
    have hlen : 0 < (gg.spawnCandidates room).length :=
      Nat.pos_of_ne_zero
        (fun h0 => hne' (List.eq_nil_of_length_eq_zero h0))
    have hmem : (gg.spawnCandidates room).getD
        (gg.rng.next.1 % (gg.spawnCandidates room).length) (0, 0) ∈
        gg.spawnCandidates room :=
      getD_mem_of_lt _ _ _ (Nat.mod_lt _ hlen)
    exact spawn_append_pres hwf (mem_spawnCandidates hmem).1 _ _ _

theorem place_spawns_pres {g : MapGen} (hwf : g.WF) (count : Nat) :
    Pres g (g.place_spawns count) := by
  unfold MapGen.place_spawns
  split
  · exact Pres.refl g
  · dsimp only
    refine foldl_preserves (fun gg => Pres g gg) _
      (fun gg i hgg => hgg.trans (spawnStep_pres (hgg.WF hwf) _ _)) _ _
      ?_
    exact Pres.same rfl rfl rfl rfl rfl

/-- C1. After any `generate` call that yields at least one room, every
pair of rooms in the room list has a Floor-only 4-connected path between
their truncated centroid cells in the final grid: corridor carving joins
the centroid cells of each selected pair by an L-shaped floor path,
every room is eventually connected, and later passes never destroy
floor. -/
theorem c1_connectivity (g : MapGen) (w h : Nat)
    (hne : (g.generate w h).rooms ≠ []) :
    ∀ i j : Nat, i < (g.generate w h).rooms.length →
      j < (g.generate w h).rooms.length →
      Reach (g.generate w h)
        (roomCell ((g.generate w h).rooms.getD i default))
        (roomCell ((g.generate w h).rooms.getD j default)) := by
  intro i j hi hj
  have hd := MapGen.detect_rooms_inv (g.detectInput_inv w h)
  have hbnd0 := MapGen.detect_rooms_interior (g.detectInput_inv w h)
    (g.detectInput_rooms w h)
  have hbnd : ∀ r ∈ (g.detectInput w h).detect_rooms.rooms,
      1 ≤ r.cellX ∧
      r.cellX ≤ (((g.detectInput w h).detect_rooms).width : Int) - 2 ∧
      1 ≤ r.cellY ∧
      r.cellY ≤ (((g.detectInput w h).detect_rooms).height : Int) - 2
      := by
    intro r hr
    rw [hd.1, hd.2.1]
    exact hbnd0 r hr
  have hreach4 := MapGen.connect_rooms_reach hd.2.2.1 hbnd
  have hrgen : (g.generate w h).rooms =
      (g.detectInput w h).detect_rooms.rooms := by
    rw [MapGen.generate_eq_stages, MapGen.place_props_rooms,
      MapGen.place_spawns_rooms, MapGen.connect_rooms_rooms]
  rw [hrgen] at hi hj
  have hwf4 : ((g.detectInput w h).detect_rooms.connect_rooms).WF :=
    MapGen.connect_rooms_WF hd.2.2.1
  have hp5 := place_spawns_pres hwf4 4
  have hp6 := (place_props_pres (hp5.WF hwf4)).1
  rw [MapGen.generate_eq_stages, MapGen.place_props_rooms,
    MapGen.place_spawns_rooms, MapGen.connect_rooms_rooms]
  exact reach_mono (hp5.trans hp6) (hreach4 i j hi hj)

/-- Witness for C1 on the concrete 8×8 run of `c2Stream`, which yields
two rooms: the theorem applies at the pair (0, 1). -/
theorem c1_connectivity_witness :
    ((MapGen.newWith c2Stream 500 0 1 4).generate 8 8).rooms ≠ [] ∧
    (0 : Nat) <
      ((MapGen.newWith c2Stream 500 0 1 4).generate 8 8).rooms.length ∧
    (1 : Nat) <
      ((MapGen.newWith c2Stream 500 0 1 4).generate 8 8).rooms.length ∧
    Reach ((MapGen.newWith c2Stream 500 0 1 4).generate 8 8)
      (roomCell (((MapGen.newWith c2Stream 500 0 1 4).generate
        8 8).rooms.getD 0 default))
      (roomCell (((MapGen.newWith c2Stream 500 0 1 4).generate
        8 8).rooms.getD 1 default)) :=
  ⟨by decide, by decide, by decide,
    c1_connectivity (MapGen.newWith c2Stream 500 0 1 4) 8 8 (by decide)
      0 1 (by decide) (by decide)⟩

end Slam
